import Mathlib

/-! gogcli: calendar event time-zone resolution and localisation, line input,
configuration keys, YouTube selectors and mail attachments

A shallow embedding of `internal/cmd/calendar_event_days.go`, `calendar_print.go`,
`calendar_list.go`, `youtube.go`, `youtube_services.go` and `gmail_attachments.go`, of
`internal/input/readline.go` and of `internal/config/keys.go`, together with a model
of the parts of Go's `strings`, `time`, `io` and `bufio` packages those functions use.

Go strings are modelled as Lean strings and processed as lists of characters.
Every string the time parser accepts is pure ASCII, so counting characters
instead of bytes does not change which inputs parse or what they parse to.
-/

namespace Gogcli

/-! ## Go `strings` -/

/-- Go `unicode.IsSpace`: the Unicode White_Space property. -/
def isSpace (c : Char) : Bool :=
  let n := c.toNat
  n == 0x09 || n == 0x0A || n == 0x0B || n == 0x0C || n == 0x0D || n == 0x20 ||
  n == 0x85 || n == 0xA0 || n == 0x1680 || (decide (0x2000 ≤ n) && decide (n ≤ 0x200A)) ||
  n == 0x2028 || n == 0x2029 || n == 0x202F || n == 0x205F || n == 0x3000

/-- Drop the leading white space of a character list. -/
def trimLeft : List Char → List Char
  | [] => []
  | c :: cs => if isSpace c then trimLeft cs else c :: cs

/-- Drop the leading and the trailing white space of a character list. -/
def trimSpaceChars (cs : List Char) : List Char :=
  (trimLeft (trimLeft cs).reverse).reverse

/-- Go `strings.TrimSpace`. -/
def TrimSpace (s : String) : String := String.mk (trimSpaceChars s.data)

/-! ## Go `time`: locations -/

/-- Go `time.zoneTrans`: from instant `when` (Unix seconds) on, `offset` seconds east of UTC apply. -/
structure zoneTrans where
  when : Int
  offset : Int
deriving DecidableEq, Repr

/-- Go `*time.Location`: a name, the offset in force before the first transition,
and the transitions in increasing order of `when`. -/
structure Location where
  name : String
  initial : Int
  tx : List zoneTrans
deriving DecidableEq, Repr

/-- Go `alpha`, the lower end of the time axis of a location (`math.MinInt64`). -/
def alpha : Int := -9223372036854775808

/-- Go `omega`, the upper end of the time axis of a location (`math.MaxInt64`). -/
def omegaSec : Int := 9223372036854775807

/-- The zone period holding `sec`: its offset, its start and its end. The period
in force is the one opened by the last transition at or before `sec`. -/
def lookupFrom (off start : Int) : List zoneTrans → Int → Int × Int × Int
  | [], _ => (off, start, omegaSec)
  | z :: zs, sec => if sec < z.when then (off, start, z.when) else lookupFrom z.offset z.when zs sec

/-- Go `(*Location).lookup`: offset, start and end of the zone period in force at `sec`. -/
def Location.lookup (l : Location) (sec : Int) : Int × Int × Int :=
  lookupFrom l.initial alpha l.tx sec

/-- The UTC offset in force in `l` at the instant `sec`. -/
def Location.offsetAt (l : Location) (sec : Int) : Int := (l.lookup sec).1

/-- Go `time.UTC`. -/
def UTC : Location := { name := "UTC", initial := 0, tx := [] }

/-- Go `time.FixedZone`. -/
def FixedZone (name : String) (offset : Int) : Location :=
  { name := name, initial := offset, tx := [] }

/-- The host's time-zone data: the local zone and the installed IANA zone files. -/
structure TZData where
  localZone : Location
  zoneinfo : String → Option Location

/-- Go `containsDotDot`. -/
def containsDotDot : List Char → Bool
  | [] => false
  | [_] => false
  | a :: b :: rest => (a == '.' && b == '.') || containsDotDot (b :: rest)

/-- Go `time.LoadLocation`; `none` stands for a non-nil error. -/
def LoadLocation (db : TZData) (name : String) : Option Location :=
  if name = "" ∨ name = "UTC" then some UTC
  else if name = "Local" then some db.localZone
  else if containsDotDot name.data || name.data.head? == some '/' || name.data.head? == some '\\' then none
  else db.zoneinfo name

/-! ## Go `time`: the civil calendar -/

/-- Go `isLeap`. -/
def isLeap (year : Int) : Bool :=
  year % 4 == 0 && (year % 100 != 0 || year % 400 == 0)

/-- Go `daysBefore[i]`: the days of a non-leap year before the first day of month `i + 1`. -/
def daysBefore (i : Nat) : Int :=
  match i with
  | 0 => 0
  | 1 => 31
  | 2 => 59
  | 3 => 90
  | 4 => 120
  | 5 => 151
  | 6 => 181
  | 7 => 212
  | 8 => 243
  | 9 => 273
  | 10 => 304
  | 11 => 334
  | _ => 365

/-- Go `daysIn`: the number of days of a month of a year. -/
def daysIn (month : Nat) (year : Int) : Nat :=
  if month = 2 ∧ isLeap year = true then 29
  else (daysBefore month - daysBefore (month - 1)).toNat

/-- Days from 1970-01-01 to the first of January of `year` in the proleptic
Gregorian calendar (Go `daysSinceEpoch`, shifted to the Unix epoch). -/
def daysToYear (year : Int) : Int :=
  365 * (year - 1) + ((year - 1) / 4 - (year - 1) / 100 + (year - 1) / 400) - 719162

/-- Days from 1970-01-01 to a calendar date, counted as Go `time.Date` does: the days
to the year, the days before the month, the leap day, the day of the month. -/
def daysFromCivil (year : Int) (month day : Nat) : Int :=
  daysToYear year + daysBefore (month - 1) + (if isLeap year && decide (3 ≤ month) then 1 else 0)
    + ((day : Int) - 1)

/-- Year and zero-based day of the year of a day count from 1970-01-01, by Go
`absDate`: cut off 400-year, 100-year, 4-year cycles and years, where `n - n / 4`
is Go's `n -= n >> 2`. -/
def yearDay (z : Int) : Int × Int :=
  let d0 := z + 719162
  let n400 := d0 / 146097
  let d1 := d0 % 146097
  let c := d1 / 36524
  let n100 := c - c / 4
  let d2 := d1 - 36524 * n100
  let n4 := d2 / 1461
  let d3 := d2 % 1461
  let q := d3 / 365
  let n1 := q - q / 4
  (400 * n400 + 100 * n100 + 4 * n4 + n1 + 1, d3 - 365 * n1)

/-- Month and day of the month of a zero-based day of the year (second half of Go `absDate`). -/
def monthDay (leap : Bool) (yday : Int) : Nat × Nat :=
  if leap && yday == 59 then (2, 29)
  else
    let day := if leap && decide (yday > 59) then yday - 1 else yday
    let month := (day / 31).toNat
    let e := daysBefore (month + 1)
    if day ≥ e then (month + 2, (day - e + 1).toNat)
    else (month + 1, (day - daysBefore month + 1).toNat)

/-- Year, month and day of a day count from 1970-01-01. -/
def civilFromDays (z : Int) : Int × Nat × Nat :=
  let yd := yearDay z
  let md := monthDay (isLeap yd.1) yd.2
  (yd.1, md.1, md.2)

/-! ## Go `time`: instants -/

/-- Go `time.Time`: an instant (Unix seconds and nanoseconds) and the location it is shown in. -/
structure Time where
  sec : Int
  nsec : Nat
  loc : Location
deriving DecidableEq, Repr

/-- Go `Time.In`: the same instant shown in another location. -/
def Time.In (t : Time) (loc : Location) : Time := { t with loc := loc }

/-- Seconds on the wall clock of the time's location, counted from 1970-01-01T00:00:00 there. -/
def Time.wall (t : Time) : Int := t.sec + t.loc.offsetAt t.sec

/-- Go `Time.Date`: year, month and day shown in the time's location. -/
def Time.Date (t : Time) : Int × Nat × Nat := civilFromDays (t.wall / 86400)

/-- Go `Time.Clock`: hour, minute and second shown in the time's location. -/
def Time.Clock (t : Time) : Nat × Nat × Nat :=
  let s := (t.wall % 86400).toNat
  (s / 3600, s % 3600 / 60, s % 60)

/-- Go `Time.Weekday`, Sunday = 0; 1970-01-01 was a Thursday. -/
def Time.Weekday (t : Time) : Nat := ((t.wall / 86400 + 4) % 7).toNat

/-- Go `Weekday.String`. -/
def weekdayString (d : Nat) : String :=
  match d with
  | 0 => "Sunday"
  | 1 => "Monday"
  | 2 => "Tuesday"
  | 3 => "Wednesday"
  | 4 => "Thursday"
  | 5 => "Friday"
  | _ => "Saturday"

/-- The wall-clock reading of the given fields in seconds from 1970-01-01T00:00:00,
as Go `time.Date` computes it before looking at the zone. -/
def wallSeconds (year : Int) (month day hour min sec : Nat) : Int :=
  daysFromCivil year month day * 86400 + hour * 3600 + min * 60 + sec

/-- The offset Go `time.Date` subtracts from the wall-clock reading `unix`: the offset
in force at `unix` taken as a UTC instant, replaced by the offset in force at the
resulting instant when that instant falls outside the zone period found first. -/
def dateOffset (loc : Location) (unix : Int) : Int :=
  let p := loc.lookup unix
  if p.1 ≠ 0 then
    let utc := unix - p.1
    if utc < p.2.1 ∨ utc ≥ p.2.2 then loc.offsetAt utc else p.1
  else 0

/-- Go `time.Date` for fields already in range (which is all `Parse` passes to it):
an instant whose wall clock in `loc` shows the given fields, when there is one. -/
def Date (year : Int) (month day hour min sec nsec : Nat) (loc : Location) : Time :=
  let unix := wallSeconds year month day hour min sec
  { sec := unix - dateOffset loc unix, nsec := nsec, loc := loc }

/-! ## Go `time`: formatting -/

/-- The decimal digit character of `d < 10`. -/
def digitChar (d : Nat) : Char := Char.ofNat (48 + d)

/-- The last `w` decimal digits of `x`. -/
def lowDigits : Nat → Nat → List Char
  | 0, _ => []
  | w + 1, x => lowDigits w (x / 10) ++ [digitChar (x % 10)]

/-- Go `appendInt`: a minus sign for a negative number, then its decimal digits
padded with zeros to at least `width` digits. -/
def appendInt (x : Int) (width : Nat) : List Char :=
  let u := x.natAbs
  (if x < 0 then ['-'] else []) ++
    (if u / 10 ^ width = 0 then [] else Nat.toDigits 10 (u / 10 ^ width)) ++ lowDigits width u

/-- The zone suffix `Z07:00` of Go's RFC 3339 output: `Z` at offset zero, otherwise
sign, hours and minutes of the offset; the division by 60 truncates toward zero. -/
def formatZone (offset : Int) : List Char :=
  if offset = 0 then ['Z']
  else
    let zone := Int.tdiv offset 60
    (if zone < 0 then ['-'] else ['+']) ++ appendInt (zone.natAbs / 60 : Nat) 2 ++ [':'] ++
      appendInt (zone.natAbs % 60 : Nat) 2

/-- Go `t.Format(time.RFC3339)`: `2006-01-02T15:04:05Z07:00` in the time's location. -/
def Time.Format (t : Time) : String :=
  let d := t.Date
  let c := t.Clock
  String.mk (appendInt d.1 4 ++ ['-'] ++ appendInt d.2.1 2 ++ ['-'] ++ appendInt d.2.2 2 ++ ['T'] ++
    appendInt c.1 2 ++ [':'] ++ appendInt c.2.1 2 ++ [':'] ++ appendInt c.2.2 2 ++
    formatZone (t.loc.offsetAt t.sec))

/-! ## Go `time`: parsing -/

/-- Go `isDigit` on one character. -/
def isDigit (c : Char) : Bool := decide (48 ≤ c.toNat) && decide (c.toNat ≤ 57)

/-- The value of a decimal digit character. -/
def digitVal (c : Char) : Nat := c.toNat - 48

/-- Go `commaOrPeriod`. -/
def commaOrPeriod (c : Char) : Bool := c == '.' || c == ','

/-- Go `getnum`: a one- or two-digit number at the head of the input; with `fixed`
it must have two digits. -/
def getnum (s : List Char) (fixed : Bool) : Option (Nat × List Char) :=
  match s with
  | [] => none
  | [c0] => if isDigit c0 && !fixed then some (digitVal c0, []) else none
  | c0 :: c1 :: rest =>
    if !isDigit c0 then none
    else if !isDigit c1 then (if fixed then none else some (digitVal c0, c1 :: rest))
    else some (digitVal c0 * 10 + digitVal c1, rest)

/-- Go `leadingInt`: the digits at the head of the input, accumulated on `x`;
fails on overflow of 63 bits. -/
def leadingInt : List Char → Nat → Option (Nat × List Char)
  | [], x => some (x, [])
  | c :: cs, x =>
    if isDigit c then
      if x > 2 ^ 63 / 10 then none
      else if x * 10 + digitVal c > 2 ^ 63 then none
      else leadingInt cs (x * 10 + digitVal c)
    else some (x, c :: cs)

/-- Go `atoi`: an optional sign and digits up to the end of the input. -/
def atoi (s : List Char) : Option Int :=
  let neg := s.head? == some '-'
  let body := if s.head? == some '-' || s.head? == some '+' then s.tail else s
  match leadingInt body 0 with
  | some (q, []) => some (if neg then -(q : Int) else (q : Int))
  | _ => none

/-- Go `skip` for a one-character literal of the layout. -/
def skip (value : List Char) (c : Char) : Option (List Char) :=
  match value with
  | v :: rest => if v == c then some rest else none
  | [] => none

/-- The year field `2006`: four characters, the first a digit, read by `atoi`. -/
def parseYear (value : List Char) : Option (Int × List Char) :=
  match value with
  | a :: b :: c :: d :: rest =>
    if isDigit a then (atoi [a, b, c, d]).map (fun y => (y, rest)) else none
  | _ => none

/-- Go `parseNanoseconds(value, nbytes)`: `value` starts with the separator; at most
nine digits count, and the number is scaled to nanoseconds. -/
def parseNanoseconds (value : List Char) (nbytes : Nat) : Option Nat :=
  match value with
  | [] => none
  | c :: _ =>
    if !commaOrPeriod c then none
    else
      let n := if nbytes > 10 then 10 else nbytes
      match atoi ((value.take n).drop 1) with
      | some ns => if ns < 0 then none else some (ns.toNat * 10 ^ (10 - n))
      | none => none

/-- The fractional second after the seconds field. Go reads it when the input has a
separator followed by a digit, whether the layout asks for it (`.999999999` of
`RFC3339Nano`) or not (the special case of the seconds field): all following
digits are consumed. -/
def parseFraction (value : List Char) : Option (Nat × List Char) :=
  match value with
  | c :: d :: rest =>
    if commaOrPeriod c && isDigit d then
      let n := 2 + (rest.takeWhile isDigit).length
      (parseNanoseconds value n).map (fun ns => (ns, value.drop n))
    else some (0, value)
  | _ => some (0, value)

/-- What the zone field of the input said. -/
inductive zoneField where
  | absent
  | utc
  | offset (seconds : Int)
deriving DecidableEq, Repr

/-- The zone field `Z07:00`: `Z`, or sign, two-digit hours, colon, two-digit minutes,
with hours at most 24 and minutes at most 60. -/
def parseZone (value : List Char) : Option (zoneField × List Char) :=
  match value with
  | 'Z' :: rest => some (zoneField.utc, rest)
  | sign :: h1 :: h2 :: colon :: m1 :: m2 :: rest =>
    if colon != ':' then none
    else
      match getnum [h1, h2] true, getnum [m1, m2] true with
      | some (hr, _), some (mm, _) =>
        if hr > 24 || mm > 60 then none
        else if sign == '+' then some (zoneField.offset (((hr * 60 + mm) * 60 : Nat) : Int), rest)
        else if sign == '-' then some (zoneField.offset (-(((hr * 60 + mm) * 60 : Nat) : Int)), rest)
        else none
      | _, _ => none
  | _ => none

/-- The layouts the event code parses with: `time.RFC3339`, `time.RFC3339Nano`,
`"2006-01-02T15:04:05"` and `"2006-01-02"`. -/
inductive Layout where
  | RFC3339
  | RFC3339Nano
  | dateTime
  | dateOnly
deriving DecidableEq, Repr

/-- Whether the layout has the clock fields `T15:04:05`. -/
def Layout.hasClock : Layout → Bool
  | Layout.dateOnly => false
  | _ => true

/-- Whether the layout ends with the zone field `Z07:00`. -/
def Layout.hasZone : Layout → Bool
  | Layout.RFC3339 => true
  | Layout.RFC3339Nano => true
  | _ => false

/-- The fields Go `parse` collects from the input. -/
structure parsedFields where
  year : Int
  month : Nat
  day : Nat
  hour : Nat
  min : Nat
  sec : Nat
  nsec : Nat
  zone : zoneField
deriving DecidableEq, Repr

/-- The clock fields `15:04:05` and the fractional second: the hour may have one or
two digits, minute and second have two. -/
def parseClock (v : List Char) : Option ((Nat × Nat × Nat × Nat) × List Char) :=
  match getnum v false with
  | none => none
  | some (hour, v1) =>
    if hour ≥ 24 then none
    else match skip v1 ':' with
      | none => none
      | some v2 =>
        match getnum v2 true with
        | none => none
        | some (mi, v3) =>
          if mi ≥ 60 then none
          else match skip v3 ':' with
            | none => none
            | some v4 =>
              match getnum v4 true with
              | none => none
              | some (sec, v5) =>
                if sec ≥ 60 then none
                else (parseFraction v5).map (fun r => ((hour, mi, sec, r.1), r.2))

/-- The date fields `2006-01-02`; the day is only checked against the month at the end. -/
def parseDate (v : List Char) : Option ((Int × Nat × Nat) × List Char) :=
  match parseYear v with
  | none => none
  | some (year, v1) =>
    match skip v1 '-' with
    | none => none
    | some v2 =>
      match getnum v2 true with
      | none => none
      | some (month, v3) =>
        if month = 0 ∨ 12 < month then none
        else match skip v3 '-' with
          | none => none
          | some v4 => (getnum v4 true).map (fun r => ((year, month, r.1), r.2))

/-- The field-by-field pass of Go `parse` over the input for one of the four layouts,
with the final checks: no text may be left over and the day must exist in the month. -/
def parseFields (layout : Layout) (value : List Char) : Option parsedFields :=
  match parseDate value with
  | none => none
  | some ((year, month, day), v1) =>
    let clock : Option ((Nat × Nat × Nat × Nat) × List Char) :=
      if layout.hasClock then
        match skip v1 'T' with
        | none => none
        | some v2 => parseClock v2
      else some ((0, 0, 0, 0), v1)
    match clock with
    | none => none
    | some ((hour, mi, sec, nsec), v3) =>
      let zone : Option (zoneField × List Char) :=
        if layout.hasZone then parseZone v3 else some (zoneField.absent, v3)
      match zone with
      | none => none
      | some (z, v4) =>
        if v4 ≠ [] then none
        else if day < 1 ∨ day > daysIn month year then none
        else some { year := year, month := month, day := day, hour := hour, min := mi,
                    sec := sec, nsec := nsec, zone := z }

/-- Go `parse(layout, value, defaultLocation, local)`: a `Z` gives a time in UTC; a
numeric offset gives a time in `local` when `local` has that offset at that instant
and in an unnamed fixed zone otherwise; without a zone field the fields are read in
`defaultLocation`. -/
def parse (layout : Layout) (value : String) (defaultLocation loc : Location) : Option Time :=
  match parseFields layout value.data with
  | none => none
  | some f =>
    match f.zone with
    | zoneField.utc => some (Date f.year f.month f.day f.hour f.min f.sec f.nsec UTC)
    | zoneField.offset o =>
      let t := Date f.year f.month f.day f.hour f.min f.sec f.nsec UTC
      let sec := t.sec - o
      some { sec := sec, nsec := t.nsec,
             loc := if loc.offsetAt sec = o then loc else FixedZone "" o }
    | zoneField.absent =>
      some (Date f.year f.month f.day f.hour f.min f.sec f.nsec defaultLocation)

/-- Go `time.Parse`. -/
def Parse (db : TZData) (layout : Layout) (value : String) : Option Time :=
  parse layout value UTC db.localZone

/-- Go `time.ParseInLocation`. -/
def ParseInLocation (layout : Layout) (value : String) (loc : Location) : Option Time :=
  parse layout value loc loc

/-! ## Google Calendar API records -/

/-- The fields of `calendar.EventDateTime` the code reads. -/
structure EventDateTime where
  Date : String := ""
  DateTime : String := ""
  TimeZone : String := ""
deriving DecidableEq, Repr

/-- The fields of `calendar.EventAttendee` the code reads. -/
structure EventAttendee where
  Email : String := ""
  ResponseStatus : String := ""
  Optional : Bool := false
deriving DecidableEq, Repr

/-- The fields of `calendar.EntryPoint` the code reads. -/
structure EntryPoint where
  EntryPointType : String := ""
  Uri : String := ""
deriving DecidableEq, Repr

/-- The struct `calendar.ConferenceData`, with its entry points. -/
structure ConferenceData where
  EntryPoints : List EntryPoint := []
deriving DecidableEq, Repr

/-- The struct `calendar.EventReminder`. -/
structure EventReminder where
  Method : String := ""
  Minutes : Int := 0
deriving DecidableEq, Repr

/-- The struct `calendar.EventReminders`; a nil override is `none`. -/
structure EventReminders where
  UseDefault : Bool := false
  Overrides : List (Option EventReminder) := []
deriving DecidableEq, Repr

/-- The fields of `calendar.EventAttachment` the code reads. -/
structure EventAttachment where
  FileUrl : String := ""
deriving DecidableEq, Repr

/-- The fields of `calendar.EventFocusTimeProperties` the code reads. -/
structure EventFocusTimeProperties where
  AutoDeclineMode : String := ""
  ChatStatus : String := ""
deriving DecidableEq, Repr

/-- The fields of `calendar.EventOutOfOfficeProperties` the code reads. -/
structure EventOutOfOfficeProperties where
  AutoDeclineMode : String := ""
  DeclineMessage : String := ""
deriving DecidableEq, Repr

/-- The fields of `calendar.EventWorkingLocationProperties` the code reads; `Type_` is
the field `Type`, a reserved word here. -/
structure EventWorkingLocationProperties where
  Type_ : String := ""
deriving DecidableEq, Repr

/-- The fields of `calendar.EventSource` the code reads. -/
structure EventSource where
  Url : String := ""
  Title : String := ""
deriving DecidableEq, Repr

/-- The fields of `calendar.Event` the code reads; a nil pointer is `none`. -/
structure Event where
  Start : Option EventDateTime := none
  End : Option EventDateTime := none
  Id : String := ""
  Summary : String := ""
  EventType : String := ""
  Description : String := ""
  Location : String := ""
  ColorId : String := ""
  Visibility : String := ""
  Transparency : String := ""
  Attendees : List (Option EventAttendee) := []
  GuestsCanInviteOthers : Option Bool := none
  GuestsCanModify : Bool := false
  GuestsCanSeeOtherGuests : Option Bool := none
  HangoutLink : String := ""
  ConferenceData : Option ConferenceData := none
  Recurrence : List String := []
  Reminders : Option EventReminders := none
  Attachments : List (Option EventAttachment) := []
  FocusTimeProperties : Option EventFocusTimeProperties := none
  OutOfOfficeProperties : Option EventOutOfOfficeProperties := none
  WorkingLocationProperties : Option EventWorkingLocationProperties := none
  Source : Option EventSource := none
  HtmlLink : String := ""
deriving DecidableEq, Repr

/-! ## `internal/cmd/calendar_event_days.go` and `calendar_print.go` -/

/-- The struct `eventWithDays`. -/
structure eventWithDays where
  Event : Event
  StartDayOfWeek : String := ""
  EndDayOfWeek : String := ""
  Timezone : String := ""
  EventTimezone : String := ""
  StartLocal : String := ""
  EndLocal : String := ""
deriving DecidableEq, Repr

/-- The function `loadEventLocation`. -/
def loadEventLocation (db : TZData) (tz : String) : Option Location :=
  let tz := TrimSpace tz
  if tz = "" then none
  else LoadLocation db tz

/-- The function `parseEventTime`; `none` is `ok = false`. -/
def parseEventTime (db : TZData) (value : String) (tz : String) : Option Time :=
  let value := TrimSpace value
  if value = "" then none
  else
    match Parse db Layout.RFC3339 value with
    | some t =>
      match loadEventLocation db tz with
      | some loc => some (t.In loc)
      | none => some t
    | none =>
      match Parse db Layout.RFC3339Nano value with
      | some t =>
        match loadEventLocation db tz with
        | some loc => some (t.In loc)
        | none => some t
      | none =>
        match loadEventLocation db tz with
        | some loc =>
          match ParseInLocation Layout.dateTime value loc with
          | some t => some t
          | none => none
        | none => none

/-- The function `parseEventDate`; `none` is `ok = false`. -/
def parseEventDate (db : TZData) (value : String) (tz : String) : Option Time :=
  let value := TrimSpace value
  if value = "" then none
  else
    match loadEventLocation db tz with
    | some loc =>
      match ParseInLocation Layout.dateOnly value loc with
      | some t => some t
      | none => none
    | none =>
      match Parse db Layout.dateOnly value with
      | some t => some t
      | none => none

/-- The function `dayOfWeekFromEventDateTime`; `fromDate` is its second `if` block,
reached when the instant is empty or does not parse. -/
def dayOfWeekFromEventDateTime (db : TZData) (dt : Option EventDateTime) : String :=
  match dt with
  | none => ""
  | some dt =>
    let fromDate : String :=
      if dt.Date ≠ "" then
        match parseEventDate db dt.Date dt.TimeZone with
        | some t => weekdayString t.Weekday
        | none => ""
      else ""
    if dt.DateTime ≠ "" then
      match parseEventTime db dt.DateTime dt.TimeZone with
      | some t => weekdayString t.Weekday
      | none => fromDate
    else fromDate

/-- The function `eventDaysOfWeek`. -/
def eventDaysOfWeek (db : TZData) (event : Option Event) : String × String :=
  match event with
  | none => ("", "")
  | some event =>
    let startDay := dayOfWeekFromEventDateTime db event.Start
    let endDay := dayOfWeekFromEventDateTime db event.End
    (startDay, endDay)

/-- The function `eventTimezone` of `calendar_print.go`. -/
def eventTimezone (e : Option Event) : String :=
  match e with
  | none => ""
  | some e =>
    match e.Start with
    | some s =>
      if TrimSpace s.TimeZone ≠ "" then TrimSpace s.TimeZone
      else
        match e.End with
        | some en => if TrimSpace en.TimeZone ≠ "" then TrimSpace en.TimeZone else ""
        | none => ""
    | none =>
      match e.End with
      | some en => if TrimSpace en.TimeZone ≠ "" then TrimSpace en.TimeZone else ""
      | none => ""

/-- The function `formatEventLocal` of `calendar_print.go`; `fromDate` is its last `if`
block, reached when the instant is empty or does not parse, and `loc2` is `loc` after
the fallback to the boundary's own zone. -/
def formatEventLocal (db : TZData) (dt : Option EventDateTime) (loc : Option Location) : String :=
  match dt with
  | none => ""
  | some dt =>
    let fromDate : String := if dt.Date ≠ "" then dt.Date else ""
    if dt.DateTime ≠ "" then
      let loc2 : Option Location :=
        if loc = none ∧ TrimSpace dt.TimeZone ≠ "" then
          match LoadLocation db (TrimSpace dt.TimeZone) with
          | some loaded => some loaded
          | none => loc
        else loc
      match parseEventTime db dt.DateTime dt.TimeZone with
      | some t =>
        match loc2 with
        | some l => (t.In l).Format
        | none => t.Format
      | none => fromDate
    else fromDate

/-- The function `wrapEventWithDaysWithTimezone`; a nil result is `none`. The pairs `r1`
and `r2` are `(calendarTimezone, loc)` after the first and after the second `if` block. -/
def wrapEventWithDaysWithTimezone (db : TZData) (event : Option Event) (calendarTimezone : String)
    (loc : Option Location) : Option eventWithDays :=
  match event with
  | none => none
  | some ev =>
    let days := eventDaysOfWeek db event
    let calendarTimezone := TrimSpace calendarTimezone
    let evTimezone := eventTimezone event
    let r1 : String × Option Location :=
      if loc = none ∧ calendarTimezone ≠ "" then
        match LoadLocation db calendarTimezone with
        | some loaded => (calendarTimezone, some loaded)
        | none => ("", loc)
      else (calendarTimezone, loc)
    let r2 : String × Option Location :=
      if r1.1 = "" then
        if r1.2 = none ∧ evTimezone ≠ "" then
          match LoadLocation db evTimezone with
          | some loaded => (evTimezone, some loaded)
          | none => ("", r1.2)
        else (evTimezone, r1.2)
      else r1
    let startLocal := formatEventLocal db ev.Start r2.2
    let endLocal := formatEventLocal db ev.End r2.2
    some { Event := ev
           StartDayOfWeek := days.1
           EndDayOfWeek := days.2
           Timezone := r2.1
           StartLocal := startLocal
           EndLocal := endLocal
           EventTimezone := if evTimezone ≠ "" ∧ evTimezone ≠ r2.1 then evTimezone else "" }

/-- The function `wrapEventWithDays`. -/
def wrapEventWithDays (db : TZData) (event : Option Event) : Option eventWithDays :=
  wrapEventWithDaysWithTimezone db event "" none

/-- The function `wrapEventsWithDays`; a nil slice is `none`, and the result is never
nil. The loop appends the view of each event to `out`. -/
def wrapEventsWithDays (db : TZData) (events : Option (List (Option Event))) :
    Option (List (Option eventWithDays)) :=
  match events with
  | none => some []
  | some evs =>
    if evs.length = 0 then some []
    else some (evs.foldl (fun out ev => out ++ [wrapEventWithDaysWithTimezone db ev "" none]) [])

/-! ## `internal/cmd/calendar_list.go` -/

/-- The struct `eventWithCalendar`. -/
structure eventWithCalendar where
  Event : Event
  CalendarID : String := ""
  StartDayOfWeek : String := ""
  EndDayOfWeek : String := ""
  Timezone : String := ""
  StartLocal : String := ""
  EndLocal : String := ""
deriving DecidableEq, Repr

/-- One entry of the fetched calendar list together with the outcome of the event
fetch `call.Context(ctx).Do()` for it: the items of the page, or the error. An item is
a pointer `*calendar.Event`; a nil item is `none`. -/
structure calendarFetch where
  Id : String
  events : Except String (List (Option Event))

/-- The inner loop of `listAllCalendarsEvents` over the items of one page, appending
one record per item to `all`. The calls `eventDaysOfWeek(e)` and `eventTimezone(e)`
accept a nil item, but `e.Start` dereferences it: on a nil item the loop ends in a
run-time panic, which is `none`. -/
def appendEventRecords (db : TZData) (calendarID : String) :
    List eventWithCalendar → List (Option Event) → Option (List eventWithCalendar)
  | all, [] => some all
  | _, none :: _ => none
  | all, some e :: rest =>
    let days := eventDaysOfWeek db (some e)
    let evTimezone := eventTimezone (some e)
    let startLocal := formatEventLocal db e.Start none
    let endLocal := formatEventLocal db e.End none
    appendEventRecords db calendarID
      (all ++ [{ Event := e
                 CalendarID := calendarID
                 StartDayOfWeek := days.1
                 EndDayOfWeek := days.2
                 Timezone := evTimezone
                 StartLocal := startLocal
                 EndLocal := endLocal }])
      rest

/-- One iteration of the outer loop of `listAllCalendarsEvents`: a failed fetch prints
a warning and leaves `all` as it is (`continue`); a fetched page appends one record
per item. `acc` is the slice `all` and the warnings printed so far; `none` is a
run-time panic. -/
def appendCalendarEvents (db : TZData) (acc : List eventWithCalendar × List String)
    (cal : calendarFetch) : Option (List eventWithCalendar × List String) :=
  match cal.events with
  | Except.error err => some (acc.1, acc.2 ++ ["calendar " ++ cal.Id ++ ": " ++ err])
  | Except.ok items =>
    match appendEventRecords db cal.Id acc.1 items with
    | none => none
    | some all => some (all, acc.2)

/-- The outer loop of `listAllCalendarsEvents` from the state `acc` on; it stops at a
panic. -/
def aggregateCalendars (db : TZData) :
    List eventWithCalendar × List String → List calendarFetch →
      Option (List eventWithCalendar × List String)
  | acc, [] => some acc
  | acc, cal :: rest =>
    match appendCalendarEvents db acc cal with
    | none => none
    | some acc1 => aggregateCalendars db acc1 rest

/-- The aggregation loop of `listAllCalendarsEvents` over the fetched calendar list,
with each service call replaced by its outcome: the slice `all` it builds and the
warnings it prints for the calendars whose fetch failed, or `none` when it panics. -/
def listAllCalendarsEvents (db : TZData) (calendars : List calendarFetch) :
    Option (List eventWithCalendar × List String) :=
  aggregateCalendars db ([], []) calendars

/-! ## Sample data for the worked examples -/

/-- The zone `America/New_York` around 2025: EST until 2025-03-09T07:00:00Z, EDT
until 2025-11-02T06:00:00Z, EST afterwards. -/
def newYork : Location :=
  { name := "America/New_York", initial := -18000,
    tx := [{ when := 1741503600, offset := -14400 }, { when := 1762063200, offset := -18000 }] }

/-- A host whose zone files hold `America/New_York` only and whose local zone is UTC. -/
def sampleDB : TZData :=
  { localZone := UTC
    zoneinfo := fun name => if name = "America/New_York" then some newYork else none }

/-- An event starting late on New Year's Day in New York time (offset written in
the value, no zone hint) and ending with a zone hint. -/
def sampleEvent : Event :=
  { Start := some { DateTime := "2025-01-01T23:30:00-05:00" }
    End := some { DateTime := "2025-01-02T01:00:00-05:00", TimeZone := "America/New_York" } }

/-- An event whose start carries a zone hint that does not load and whose end carries
one that does. -/
def mixedHintEvent : Event :=
  { Start := some { DateTime := "2025-01-01T10:00:00+01:00", TimeZone := "Bad/Zone" }
    End := some { DateTime := "2025-01-01T12:00:00+01:00", TimeZone := "America/New_York" } }

/-! ## Notions of the specification -/

/-- The specification's scan of the embedded zones: the first candidate that is
non-empty once trimmed, trimmed. -/
def firstEmbeddedZone : List String → Option String
  | [] => none
  | z :: zs => if TrimSpace z ≠ "" then some (TrimSpace z) else firstEmbeddedZone zs

/-- The specification's `embeddedZones` of an event: the zone hint of the start
boundary, then that of the end boundary; a missing boundary has none. -/
def embeddedZones (ev : Event) : List String :=
  (match ev.Start with | some s => [s.TimeZone] | none => []) ++
  (match ev.End with | some e => [e.TimeZone] | none => [])

/-- An instant shown in a boundary's own zone: in the zone of the hint `tz` when
the hint loads, otherwise left in the location it came with. -/
def inOwnZone (db : TZData) (tz : String) (t : Time) : Time :=
  match loadEventLocation db tz with
  | some l => t.In l
  | none => t

/-- The floating form `YYYY-MM-DDTHH:MM:SS`: nineteen characters, digits except for the
two dashes, the `T` and the two colons. -/
def isFloatingForm (value : String) : Bool :=
  match value.data with
  | [y1, y2, y3, y4, p1, m1, m2, p2, d1, d2, p3, h1, h2, p4, i1, i2, p5, s1, s2] =>
    isDigit y1 && isDigit y2 && isDigit y3 && isDigit y4 && p1 == '-' &&
    isDigit m1 && isDigit m2 && p2 == '-' && isDigit d1 && isDigit d2 && p3 == 'T' &&
    isDigit h1 && isDigit h2 && p4 == ':' && isDigit i1 && isDigit i2 && p5 == ':' &&
    isDigit s1 && isDigit s2
  | _ => false

/-- The number written by two digit characters. -/
def twoDigits (a b : Char) : Nat := digitVal a * 10 + digitVal b

/-- The fields written in a value of the floating form: year, month, day, hour,
minute, second. -/
def writtenFields (value : String) : Int × Nat × Nat × Nat × Nat × Nat :=
  match value.data with
  | [y1, y2, y3, y4, _, m1, m2, _, d1, d2, _, h1, h2, _, i1, i2, _, s1, s2] =>
    (((twoDigits y1 y2 * 100 + twoDigits y3 y4 : Nat) : Int), twoDigits m1 m2, twoDigits d1 d2,
      twoDigits h1 h2, twoDigits i1 i2, twoDigits s1 s2)
  | _ => (0, 0, 0, 0, 0, 0)

/-- The written fields name an existing date and time of day. -/
def validFields (f : Int × Nat × Nat × Nat × Nat × Nat) : Prop :=
  1 ≤ f.2.1 ∧ f.2.1 ≤ 12 ∧ 1 ≤ f.2.2.1 ∧ f.2.2.1 ≤ daysIn f.2.1 f.1 ∧
  f.2.2.2.1 < 24 ∧ f.2.2.2.2.1 < 60 ∧ f.2.2.2.2.2 < 60

instance (f : Int × Nat × Nat × Nat × Nat × Nat) : Decidable (validFields f) := by
  unfold validFields
  infer_instance

/-- The wall-clock reading, in seconds from 1970-01-01T00:00:00, written in a value of
the floating form. -/
def writtenWall (value : String) : Int :=
  wallSeconds (writtenFields value).1 (writtenFields value).2.1 (writtenFields value).2.2.1
    (writtenFields value).2.2.2.1 (writtenFields value).2.2.2.2.1 (writtenFields value).2.2.2.2.2

/-- The zone `America/Sao_Paulo` around the summer of 2018/2019: UTC-3 until
2018-11-04T03:00:00Z (local midnight, when the clocks jumped to 01:00), UTC-2 until
2019-02-17T02:00:00Z, UTC-3 afterwards. -/
def saoPaulo : Location :=
  { name := "America/Sao_Paulo", initial := -10800,
    tx := [{ when := 1541300400, offset := -7200 }, { when := 1550368800, offset := -10800 }] }

/-- A host whose zone files hold `America/Sao_Paulo` and `America/New_York`, with
local zone UTC. -/
def americasDB : TZData :=
  { localZone := UTC
    zoneinfo := fun name =>
      if name = "America/Sao_Paulo" then some saoPaulo
      else if name = "America/New_York" then some newYork
      else none }

/-- An event with no zone hint on its start and `America/New_York` on its end. -/
def endHintEvent : Event :=
  { Start := some { DateTime := "2025-01-01T10:00:00Z" }
    End := some { DateTime := "2025-01-01T11:00:00Z", TimeZone := "America/New_York" } }

/-- A value ends with a zone designator: `Z`, or a sign, two digits, a colon and two
digits. -/
def endsWithZone : List Char → Bool
  | [] => false
  | c :: rest =>
    (rest.isEmpty && c == 'Z') ||
    (match rest with
     | [a, b, k, d, e] =>
       (c == '+' || c == '-') && isDigit a && isDigit b && k == ':' && isDigit d && isDigit e
     | _ => false) ||
    endsWithZone rest

/-- The UTC offset, in seconds, a zone field writes; `Z` writes zero. -/
def writtenOffset (z : zoneField) : Int :=
  match z with
  | zoneField.offset o => o
  | _ => 0

/-- The weekday of a date of the proleptic Gregorian calendar by Zeller's congruence,
Sunday = 0: January and February count as months 13 and 14 of the year before. -/
def zellerWeekday (year : Int) (month day : Nat) : Nat :=
  let y : Int := if month < 3 then year - 1 else year
  let m : Int := if month < 3 then (month : Int) + 12 else (month : Int)
  let k := y % 100
  let j := y / 100
  (((day : Int) + 13 * (m + 1) / 5 + k + k / 4 + j / 4 + 5 * j + 6) % 7).toNat

/-- The seven English weekday names. -/
def weekdayNames : List String :=
  ["Sunday", "Monday", "Tuesday", "Wednesday", "Thursday", "Friday", "Saturday"]

/-- The record the loop body of `listAllCalendarsEvents` appends for one event. -/
def calendarRecord (db : TZData) (calendarID : String) (e : Event) : eventWithCalendar :=
  { Event := e
    CalendarID := calendarID
    StartDayOfWeek := (eventDaysOfWeek db (some e)).1
    EndDayOfWeek := (eventDaysOfWeek db (some e)).2
    Timezone := eventTimezone (some e)
    StartLocal := formatEventLocal db e.Start none
    EndLocal := formatEventLocal db e.End none }

/-- The records one calendar contributes: one per event of a fetched page, none for a
failed fetch. -/
def calendarRecords (db : TZData) (cal : calendarFetch) : List eventWithCalendar :=
  match cal.events with
  | Except.ok items => items.reduceOption.map (calendarRecord db cal.Id)
  | Except.error _ => []

/-- A calendar whose fetched page, if any, holds no nil item. -/
def nullFree (cal : calendarFetch) : Bool :=
  match cal.events with
  | Except.ok items => items.all Option.isSome
  | Except.error _ => true

/-- The characters the clock fields of a value can be made of: digits, the colon and
the two separators of the fractional second. -/
def clockChar (x : Char) : Prop := isDigit x = true ∨ x = ':' ∨ commaOrPeriod x = true


/-! ## `internal/cmd/calendar_list.go`: the returned error -/

/-- The value `listAllCalendarsEvents` returns once the calendar list is fetched: nil
when the list is empty; after the loop, for JSON output (`isJSON`) what `outfmt.WriteJSON`
returns on the aggregate (`writeJSON`), and nil for table output. The outer `none` is
a run-time panic in the loop: the function does not return. -/
def listAllCalendarsEventsReturn (db : TZData) (calendars : List calendarFetch) (isJSON : Bool)
    (writeJSON : List eventWithCalendar → Option String) : Option (Option String) :=
  if calendars.length = 0 then some none
  else
    match listAllCalendarsEvents db calendars with
    | none => none
    | some res => if isJSON then some (writeJSON res.1) else some none

/-! ## `internal/cmd/calendar_print.go`: the printed lines -/

/-- The printer `*ui.UI`; the code reads nothing of it but whether it is nil. -/
structure UI where
deriving DecidableEq, Repr

/-- One call `u.Out().Printf` with a format `label\t%s`, or with a format whose text
after the first tab is `value`: the line it writes. -/
def tabLine (label value : String) : String := label ++ "\t" ++ value

/-- The function `orEmpty`. -/
def orEmpty (s : String) (fallback : String) : String :=
  if TrimSpace s = "" then fallback else s

/-- The function `eventStart`. -/
def eventStart (e : Option Event) : String :=
  match e with
  | none => ""
  | some e =>
    match e.Start with
    | none => ""
    | some start => if start.DateTime ≠ "" then start.DateTime else start.Date

/-- The function `eventEnd`. -/
def eventEnd (e : Option Event) : String :=
  match e with
  | none => ""
  | some e =>
    match e.End with
    | none => ""
    | some en => if en.DateTime ≠ "" then en.DateTime else en.Date

/-- The loop of `printCalendarEventWithTimezone` over the attendees: one line per
attendee that is not nil and has a non-blank email. -/
def attendeeLines (attendees : List (Option EventAttendee)) : List String :=
  attendees.filterMap (fun a =>
    match a with
    | none => none
    | some a =>
      if TrimSpace a.Email = "" then none
      else
        let status := if a.Optional then a.ResponseStatus ++ " (optional)" else a.ResponseStatus
        some (tabLine "attendee" (TrimSpace a.Email ++ "\t" ++ status)))

/-- The loop over the conference entry points: one line per video entry point. -/
def videoLinkLines (entryPoints : List EntryPoint) : List String :=
  entryPoints.filterMap (fun ep =>
    if ep.EntryPointType = "video" then some (tabLine "video-link" ep.Uri) else none)

/-- The slice `reminders` built from the overrides: `method:minutes` followed by `m`
for each override that is not nil. -/
def reminderTexts (overrides : List (Option EventReminder)) : List String :=
  overrides.filterMap (fun r =>
    match r with
    | none => none
    | some r => some (r.Method ++ ":" ++ toString r.Minutes ++ "m"))

/-- The loop over the attachments: one line per attachment that is not nil. -/
def attachmentLines (attachments : List (Option EventAttachment)) : List String :=
  attachments.filterMap (fun a =>
    match a with
    | none => none
    | some a => some (tabLine "attachment" a.FileUrl))

/-- The block of `printCalendarEventWithTimezone` for the conference data. -/
def conferenceLines (cd : Option ConferenceData) : List String :=
  match cd with
  | some cd => if cd.EntryPoints.length > 0 then videoLinkLines cd.EntryPoints else []
  | none => []

/-- The block of `printCalendarEventWithTimezone` for the reminders. -/
def reminderLines (reminders : Option EventReminders) : List String :=
  match reminders with
  | some rem =>
    if rem.UseDefault then [tabLine "reminders" "(calendar default)"]
    else if rem.Overrides.length > 0 then
      [tabLine "reminders" (", ".intercalate (reminderTexts rem.Overrides))]
    else []
  | none => []

/-- The block of `printCalendarEventWithTimezone` for the focus-time properties. -/
def focusTimeLines (props : Option EventFocusTimeProperties) : List String :=
  match props with
  | some p =>
    [tabLine "auto-decline" p.AutoDeclineMode]
    ++ (if p.ChatStatus ≠ "" then [tabLine "chat-status" p.ChatStatus] else [])
  | none => []

/-- The block of `printCalendarEventWithTimezone` for the out-of-office properties. -/
def outOfOfficeLines (props : Option EventOutOfOfficeProperties) : List String :=
  match props with
  | some p =>
    [tabLine "auto-decline" p.AutoDeclineMode]
    ++ (if p.DeclineMessage ≠ "" then [tabLine "decline-message" p.DeclineMessage] else [])
  | none => []

/-- The block of `printCalendarEventWithTimezone` for the working-location properties. -/
def workingLocationLines (props : Option EventWorkingLocationProperties) : List String :=
  match props with
  | some p => [tabLine "location-type" p.Type_]
  | none => []

/-- The block of `printCalendarEventWithTimezone` for the source. -/
def sourceLines (source : Option EventSource) : List String :=
  match source with
  | some src =>
    if src.Url ≠ "" then
      if src.Title ≠ "" then [tabLine "source" (src.Url ++ " (" ++ src.Title ++ ")")]
      else [tabLine "source" src.Url]
    else []
  | none => []

/-- The blocks of `printCalendarEventWithTimezone` from the description to the
visibility and free/busy lines. -/
def textLines (ev : Event) : List String :=
  (if ev.Description ≠ "" then [tabLine "description" ev.Description] else [])
  ++ (if ev.Location ≠ "" then [tabLine "location" ev.Location] else [])
  ++ (if ev.ColorId ≠ "" then [tabLine "color" ev.ColorId] else [])
  ++ (if ev.Visibility ≠ "" ∧ ev.Visibility ≠ "default" then
        [tabLine "visibility" ev.Visibility] else [])
  ++ (if ev.Transparency = "transparent" then [tabLine "show-as" "free"] else [])

/-- The blocks of `printCalendarEventWithTimezone` for the attendees and the guest
permissions. -/
def guestLines (ev : Event) : List String :=
  (if ev.Attendees.length > 0 then attendeeLines ev.Attendees else [])
  ++ (if ev.GuestsCanInviteOthers = some false then
        [tabLine "guests-can-invite" "false"] else [])
  ++ (if ev.GuestsCanModify then [tabLine "guests-can-modify" "true"] else [])
  ++ (if ev.GuestsCanSeeOtherGuests = some false then
        [tabLine "guests-can-see-others" "false"] else [])

/-- The second part of `printCalendarEventWithTimezone`, from the description on: the
lines it writes for the fields of the event that do not depend on the zone, block by
block in the order of the source. -/
def detailLines (ev : Event) : List String :=
  textLines ev
  ++ guestLines ev
  ++ (if ev.HangoutLink ≠ "" then [tabLine "meet" ev.HangoutLink] else [])
  ++ conferenceLines ev.ConferenceData
  ++ (if ev.Recurrence.length > 0 then
        [tabLine "recurrence" ("; ".intercalate ev.Recurrence)] else [])
  ++ reminderLines ev.Reminders
  ++ (if ev.Attachments.length > 0 then attachmentLines ev.Attachments else [])
  ++ focusTimeLines ev.FocusTimeProperties
  ++ outOfOfficeLines ev.OutOfOfficeProperties
  ++ workingLocationLines ev.WorkingLocationProperties
  ++ sourceLines ev.Source
  ++ (if ev.HtmlLink ≠ "" then [tabLine "link" ev.HtmlLink] else [])

/-- The function `printCalendarEventWithTimezone`: the lines it writes to `u.Out()`, one
per `Printf` call, in order; with a nil printer or a nil event it writes nothing. The
constant `eventTypeDefault`, declared outside the sources read here, is a parameter.
The pairs `r1` and `r2` are `(calendarTimezone, loc)` after the first and after the
second `if` block; `detailLines` is the rest of the body after the `end-local` line. -/
def printCalendarEventWithTimezone (db : TZData) (eventTypeDefault : String) (u : Option UI)
    (event : Option Event) (calendarTimezone : String) (loc : Option Location) : List String :=
  match u, event with
  | none, _ => []
  | some _, none => []
  | some _, some ev =>
    let calendarTimezone := TrimSpace calendarTimezone
    let evTimezone := eventTimezone event
    let r1 : String × Option Location :=
      if loc = none ∧ calendarTimezone ≠ "" then
        match LoadLocation db calendarTimezone with
        | some loaded => (calendarTimezone, some loaded)
        | none => ("", loc)
      else (calendarTimezone, loc)
    let r2 : String × Option Location :=
      if r1.1 = "" then
        if r1.2 = none ∧ evTimezone ≠ "" then
          match LoadLocation db evTimezone with
          | some loaded => (evTimezone, some loaded)
          | none => ("", r1.2)
        else (evTimezone, r1.2)
      else r1
    let days := eventDaysOfWeek db event
    let startLocal := formatEventLocal db ev.Start r2.2
    let endLocal := formatEventLocal db ev.End r2.2
    List.flatten
    [
     [tabLine "id" ev.Id, tabLine "summary" (orEmpty ev.Summary "(no title)")],
     (if ev.EventType ≠ "" ∧ ev.EventType ≠ eventTypeDefault then
          [tabLine "type" ev.EventType] else []),
     (if r2.1 ≠ "" then [tabLine "timezone" r2.1] else []),
     (if evTimezone ≠ "" ∧ evTimezone ≠ r2.1 then
          [tabLine "event-timezone" evTimezone] else []),
     [tabLine "start" (eventStart event)],
     (if days.1 ≠ "" then [tabLine "start-day-of-week" days.1] else []),
     (if startLocal ≠ "" then [tabLine "start-local" startLocal] else []),
     [tabLine "end" (eventEnd event)],
     (if days.2 ≠ "" then [tabLine "end-day-of-week" days.2] else []),
     (if endLocal ≠ "" then [tabLine "end-local" endLocal] else [])
    ] ++ detailLines ev

/-- The function `printCalendarEvent`. -/
def printCalendarEvent (db : TZData) (eventTypeDefault : String) (u : Option UI)
    (event : Option Event) : List String :=
  printCalendarEventWithTimezone db eventTypeDefault u event "" none

/-- The label of a printed line: its text before the first tab. -/
def lineLabel (line : String) : String :=
  String.mk (line.data.takeWhile (fun c => c != '\t'))

/-- The value of a printed line: its text after the first tab. -/
def lineValue (line : String) : String :=
  String.mk ((line.data.dropWhile (fun c => c != '\t')).drop 1)

/-- The values of the lines of an output that carry a given label, in order. -/
def linesWith (label : String) (out : List String) : List String :=
  (out.filter (fun line => lineLabel line = label)).map lineValue

/-- The event of the test `TestPrintCalendarEvent_AllFields`. -/
def allFieldsEvent : Event :=
  { Id := "ev1"
    Summary := ""
    EventType := "focusTime"
    Description := "desc"
    Location := "office"
    ColorId := "1"
    Visibility := "private"
    Transparency := "transparent"
    Start := some { DateTime := "2025-01-01T10:00:00Z" }
    End := some { DateTime := "2025-01-01T11:00:00Z" }
    Attendees := [some { Email := "a@example.com", ResponseStatus := "accepted" },
                  some { Email := "b@example.com", ResponseStatus := "declined", Optional := true },
                  some { Email := "" }]
    GuestsCanInviteOthers := some false
    GuestsCanModify := true
    GuestsCanSeeOtherGuests := some false
    HangoutLink := "https://meet.example.com/abc"
    ConferenceData := some { EntryPoints := [{ EntryPointType := "video",
                                               Uri := "https://video.example.com/room" }] }
    Recurrence := ["RRULE:FREQ=DAILY"]
    Reminders := some { UseDefault := false, Overrides := [some { Method := "email", Minutes := 30 }] }
    Attachments := [some { FileUrl := "https://files.example.com/1" }]
    FocusTimeProperties := some { AutoDeclineMode := "declineAll", ChatStatus := "doNotDisturb" }
    OutOfOfficeProperties := some { AutoDeclineMode := "declineNone", DeclineMessage := "OOO" }
    WorkingLocationProperties := some { Type_ := "officeLocation" }
    Source := some { Url := "https://source.example.com", Title := "Source" }
    HtmlLink := "https://calendar.example.com/ev1" }

/-- The labels of the lines of the second part of the output. -/
def detailLabels : List String :=
  ["description", "location", "color", "visibility", "show-as", "attendee",
   "guests-can-invite", "guests-can-modify", "guests-can-see-others", "meet", "video-link",
   "recurrence", "reminders", "attachment", "auto-decline", "chat-status", "decline-message",
   "location-type", "source", "link"]

/-- The lines of the first part of the output, in terms of the resolved zone name `tz`,
the event's own zone `evTz`, the weekdays and the two local renderings. -/
def zoneLines (eventTypeDefault : String) (ev : Event) (tz evTz : String) (days : String × String)
    (startLocal endLocal : String) : List String :=
  List.flatten
    [[tabLine "id" ev.Id, tabLine "summary" (orEmpty ev.Summary "(no title)")],
     (if ev.EventType ≠ "" ∧ ev.EventType ≠ eventTypeDefault then
        [tabLine "type" ev.EventType] else []),
     (if tz ≠ "" then [tabLine "timezone" tz] else []),
     (if evTz ≠ "" ∧ evTz ≠ tz then [tabLine "event-timezone" evTz] else []),
     [tabLine "start" (eventStart (some ev))],
     (if days.1 ≠ "" then [tabLine "start-day-of-week" days.1] else []),
     (if startLocal ≠ "" then [tabLine "start-local" startLocal] else []),
     [tabLine "end" (eventEnd (some ev))],
     (if days.2 ≠ "" then [tabLine "end-day-of-week" days.2] else []),
     (if endLocal ≠ "" then [tabLine "end-local" endLocal] else [])]

/-! ## Go `io` and `bufio`, and `internal/input/readline.go` -/

/-- An `io.Reader` over a fixed input that is not itself a buffered reader: the chunks
that successive `Read` calls deliver before the end of the input. A chunk longer than
the destination is delivered in pieces; an empty chunk is a `Read` that returns no
byte and no error. Bytes are modelled as characters, like the bytes of every string. -/
structure Reader where
  chunks : List (List Char)
deriving DecidableEq, Repr

/-- The errors of `io` and `bufio` that a read can end with. -/
inductive readError where
  | EOF
  | ErrNoProgress
deriving DecidableEq, Repr

/-- The method `Read` for a destination of `n` bytes: the bytes delivered, the error and
the reader afterwards. -/
def Reader.Read (r : Reader) (n : Nat) : List Char × Option readError × Reader :=
  match r.chunks with
  | [] => ([], some readError.EOF, r)
  | c :: rest =>
    if c.length ≤ n then (c, none, { chunks := rest })
    else (c.take n, none, { chunks := c.drop n :: rest })

/-- The bytes a reader still holds. -/
def Reader.remaining (r : Reader) : List Char := r.chunks.flatten

/-- The struct `bufio.Reader`: `buf` is the unread part `b.buf[b.r:b.w]` of its buffer,
`rd` the reader it draws from and `err` the error kept for the next read. -/
structure bufReader where
  buf : List Char
  rd : Reader
  err : Option readError
deriving DecidableEq, Repr

/-- The constant `defaultBufSize` of `bufio`. -/
def defaultBufSize : Nat := 4096

/-- The constant `maxConsecutiveEmptyReads` of `bufio`. -/
def maxConsecutiveEmptyReads : Nat := 100

/-- The function `bufio.NewReader` on a reader that is not a buffered reader: a fresh,
empty buffer of the default size. -/
def NewReader (rd : Reader) : bufReader := { buf := [], rd := rd, err := none }

/-- The read loop of the method `fill`, with `i` attempts left: it reads into the free
part of the buffer until a read delivers a byte or an error. -/
def fillLoop : Nat → bufReader → bufReader
  | 0, b => { b with err := some readError.ErrNoProgress }
  | i + 1, b =>
    let res := b.rd.Read (defaultBufSize - b.buf.length)
    let b1 : bufReader := { b with buf := b.buf ++ res.1, rd := res.2.2 }
    match res.2.1 with
    | some e => { b1 with err := some e }
    | none => if res.1.length > 0 then b1 else fillLoop i b1

/-- The method `fill`. -/
def bufReader.fill (b : bufReader) : bufReader := fillLoop maxConsecutiveEmptyReads b

/-- The method `ReadByte`, its loop run at most `fuel` times: while the buffer is empty
it returns the kept error (and clears it) or fills the buffer. `none` is a loop that
did not finish within the fuel. -/
def ReadByteLoop : Nat → bufReader → Option (Except readError Char × bufReader)
  | 0, _ => none
  | fuel + 1, b =>
    match b.buf with
    | c :: rest => some (Except.ok c, { b with buf := rest })
    | [] =>
      match b.err with
      | some e => some (Except.error e, { b with err := none })
      | none => ReadByteLoop fuel b.fill

/-- The method `ReadByte`; two rounds of its loop are enough, as `fill` leaves a byte
or an error. -/
def bufReader.ReadByte (b : bufReader) : Option (Except readError Char × bufReader) :=
  ReadByteLoop 2 b

/-- The method `Peek` for `n = 1`, its loop run at most `fuel` times: it fills the
buffer while it is empty and no error is kept, then returns the first byte, if any,
and clears the kept error when there is none. The error result is left out, as the
caller drops it. -/
def PeekLoop : Nat → bufReader → Option (List Char × bufReader)
  | 0, _ => none
  | fuel + 1, b =>
    if b.buf.length < 1 ∧ b.buf.length < defaultBufSize ∧ b.err = none then PeekLoop fuel b.fill
    else if b.buf.length < 1 then some ([], { b with err := none })
    else some (b.buf.take 1, b)

/-- The call `br.Peek(1)`. -/
def bufReader.Peek1 (b : bufReader) : Option (List Char × bufReader) := PeekLoop 2 b

/-- The errors `ReadLine` returns: `io.EOF` itself, or a read error wrapped as
`read line: <cause>`. -/
inductive lineError where
  | EOF
  | readLine (cause : readError)
deriving DecidableEq, Repr

/-- The result of `ReadLine`: the line, the error and the state in which the call
leaves the reader `r`; the buffered reader of the call is dropped on return. -/
structure lineResult where
  line : String
  err : Option lineError
  r : Reader
deriving DecidableEq, Repr

/-- The loop of `ReadLine`, run at most `fuel` times; `sb` is the content of the string
builder. `none` is a loop that did not finish within the fuel. -/
def readLineLoop : Nat → bufReader → List Char → Option lineResult
  | 0, _, _ => none
  | fuel + 1, br, sb =>
    match br.ReadByte with
    | none => none
    | some (Except.error e, br1) =>
      if e = readError.EOF then
        if sb.length > 0 then some { line := String.mk sb, err := none, r := br1.rd }
        else some { line := "", err := some lineError.EOF, r := br1.rd }
      else some { line := "", err := some (lineError.readLine e), r := br1.rd }
    | some (Except.ok b, br1) =>
      if b = '\n' ∨ b = '\r' then
        if b = '\r' then
          match br1.Peek1 with
          | none => none
          | some (next, br2) =>
            if next.length = 1 ∧ next.head? = some '\n' then
              match br2.ReadByte with
              | none => none
              | some (_, br3) => some { line := String.mk sb, err := none, r := br3.rd }
            else some { line := String.mk sb, err := none, r := br2.rd }
        else some { line := String.mk sb, err := none, r := br1.rd }
      else readLineLoop fuel br1 (sb ++ [b])

/-- The function `ReadLine`. Every round of the loop but the last takes one byte of
the input, so one round more than the input has bytes is enough. -/
def ReadLine (r : Reader) : Option lineResult :=
  readLineLoop (r.remaining.length + 1) (NewReader r) []

/-- The bytes `'\n'` and `'\r'`. -/
def isTerminator (c : Char) : Bool := c == '\n' || c == '\r'

/-! ## Go errors -/

/-- A Go error value, by where it comes from. The three sentinels are the `errors.New`
values of `internal/config`; `location name` is the error of `time.LoadLocation` for
that name; `usage msg` is the value of the helper `usage` of `internal/cmd`, whose
body is outside the sources read here; `other` is an error of a service, of the
file system or of another helper; `Errorf format args cause` is `fmt.Errorf` applied
to a format with one `%w` verb, to its other arguments and to the wrapped error. -/
inductive Error where
  | errUnknownConfigKey
  | errConfigKeyCannotSet
  | errConfigKeyCannotUnset
  | location (name : String)
  | usage (msg : String)
  | other (msg : String)
  | Errorf (format : String) (args : List String) (cause : Error)
deriving DecidableEq, Repr

/-- Go `errors.Is`: the error is the target or wraps it. -/
def Error.Is : Error → Error → Bool
  | Error.Errorf f a c, target => Error.Errorf f a c == target || c.Is target
  | e, target => e == target

/-- An error returned by the helper `usage`. -/
def Error.isUsage : Error → Bool
  | Error.usage _ => true
  | _ => false

/-! ## `internal/config` -/

/-- What the configuration code reads from its host: the time-zone data and the
environment variables (`os.Getenv`). -/
structure Host where
  db : TZData
  getenv : String → String

/-- The struct `File` of `config.go`; a map is the list of its entries. -/
structure File where
  KeyringBackend : String := ""
  DefaultTimezone : String := ""
  YoutubeAPIKey : String := ""
  AccountAliases : List (String × String) := []
  AccountClients : List (String × String) := []
  ClientDomains : List (String × String) := []
deriving DecidableEq, Repr

/-- The type `Key`. -/
abbrev Key := String

/-- The constant `KeyTimezone`. -/
def KeyTimezone : Key := "timezone"

/-- The constant `KeyKeyringBackend`. -/
def KeyKeyringBackend : Key := "keyring_backend"

/-- The constant `KeyYoutubeAPIKey`. -/
def KeyYoutubeAPIKey : Key := "youtube_api_key"

/-- The struct `KeySpec`; a nil function is `none`. `Set` returns the file as it leaves
it together with its error, `Unset` the file as it leaves it. -/
structure KeySpec where
  Key : Key
  Get : Option (Host → File → String)
  Set : Option (Host → File → String → File × Option Error)
  Unset : Option (File → File)
  EmptyHint : Option (Host → String)

/-- The variable `keyOrder`. -/
def keyOrder : List Key := [KeyTimezone, KeyKeyringBackend, KeyYoutubeAPIKey]

/-- The map `keySpecs`, as the lookup of a key in it. -/
def keySpecs (k : Key) : Option KeySpec :=
  if k = KeyTimezone then
    some { Key := KeyTimezone
           Get := some (fun _ cfg => cfg.DefaultTimezone)
           Set := some (fun host cfg value =>
             match LoadLocation host.db value with
             | none =>
               (cfg, some (Error.Errorf
                 "invalid timezone %q: %w (use IANA timezone names like America/New_York, UTC, Europe/London)"
                 [value] (Error.location value)))
             | some _ => ({ cfg with DefaultTimezone := value }, none))
           Unset := some (fun cfg => { cfg with DefaultTimezone := "" })
           EmptyHint := some (fun host =>
             "(not set, using local: " ++ host.db.localZone.name ++ ")") }
  else if k = KeyKeyringBackend then
    some { Key := KeyKeyringBackend
           Get := some (fun _ cfg => cfg.KeyringBackend)
           Set := some (fun _ cfg value => ({ cfg with KeyringBackend := value }, none))
           Unset := some (fun cfg => { cfg with KeyringBackend := "" })
           EmptyHint := some (fun _ => "(not set, using auto)") }
  else if k = KeyYoutubeAPIKey then
    some { Key := KeyYoutubeAPIKey
           Get := some (fun host cfg =>
             if host.getenv "GOG_YOUTUBE_API_KEY" ≠ "" then host.getenv "GOG_YOUTUBE_API_KEY"
             else cfg.YoutubeAPIKey)
           Set := some (fun _ cfg value => ({ cfg with YoutubeAPIKey := value }, none))
           Unset := some (fun cfg => { cfg with YoutubeAPIKey := "" })
           EmptyHint := some (fun _ =>
             "(not set; set for YouTube Data API: config set youtube_api_key KEY or GOG_YOUTUBE_API_KEY)") }
  else none

/-- The function `KeyList`: a copy of `keyOrder`. -/
def KeyList : List Key := keyOrder

/-- The function `KeyNames`; the loop appends the string of each key of `keyOrder`. -/
def KeyNames : List String := keyOrder.foldl (fun names key => names ++ [key]) []

/-- The method `Key.Validate`; `none` is a nil error. -/
def Key.Validate (k : Key) : Option Error :=
  match keySpecs k with
  | some _ => none
  | none =>
    some (Error.Errorf "%w: %s (valid keys: %s)" [k, ", ".intercalate KeyNames]
      Error.errUnknownConfigKey)

/-- The function `ParseKey`. -/
def ParseKey (raw : String) : Key × Option Error :=
  let key : Key := raw
  match Key.Validate key with
  | some err => ("", some err)
  | none => (key, none)

/-- The function `GetValue`. -/
def GetValue (host : Host) (cfg : File) (key : Key) : String :=
  match keySpecs key with
  | none => ""
  | some spec =>
    match spec.Get with
    | none => ""
    | some get => get host cfg

/-- The function `SetValue`: the file as the call leaves it, and the error. -/
def SetValue (host : Host) (cfg : File) (key : Key) (value : String) : File × Option Error :=
  match Key.Validate key with
  | some err => (cfg, some err)
  | none =>
    match keySpecs key with
    | some { Set := some set, .. } => set host cfg value
    | _ => (cfg, some (Error.Errorf "%w: %s" [key] Error.errConfigKeyCannotSet))

/-- The function `UnsetValue`: the file as the call leaves it, and the error. -/
def UnsetValue (cfg : File) (key : Key) : File × Option Error :=
  match Key.Validate key with
  | some err => (cfg, some err)
  | none =>
    match keySpecs key with
    | some { Unset := some unset, .. } => (unset cfg, none)
    | _ => (cfg, some (Error.Errorf "%w: %s" [key] Error.errConfigKeyCannotUnset))

/-! ## `internal/cmd/youtube.go` and `youtube_services.go` -/

/-- A `youtube.Service`, by how it was built. -/
inductive Service where
  | withAPIKey (key : String)
  | forAccount (account : String)
deriving DecidableEq, Repr

/-- The steps of a `Run` that reach outside the command: the account lookup, the
reading of the configuration, the construction of a service and the list call. -/
inductive runStep where
  | accountLookup
  | configRead
  | serviceConstruction (svc : Service)
  | listCall (svc : Service)
deriving DecidableEq, Repr

/-- What a `Run` finds outside the command: the result of the helper `requireAccount`
on the root flags, the result of `config.ReadConfig`, the environment, the results of
the two service constructors, and the outcome of the rest of the body (the list call
and the printing of its response) for a service and the selector sent with the call. -/
structure runEnv where
  requireAccount : Except Error String
  ReadConfig : Except Error File
  host : Host
  newYouTubeWithAPIKey : String → Option Error
  newYouTubeForAccount : String → Option Error
  list : Service → String → Option Error

/-- The outcome of a `Run`: the outside steps it took, in order, and the error it
returns. -/
structure runResult where
  steps : List runStep
  err : Option Error
deriving DecidableEq, Repr

/-- The function `getYouTubeAPIKey`. -/
def getYouTubeAPIKey (env : runEnv) : Except Error String :=
  match env.ReadConfig with
  | Except.error err => Except.error err
  | Except.ok cfg =>
    let key := GetValue env.host cfg KeyYoutubeAPIKey
    if key = "" then
      Except.error (Error.usage
        "YouTube API key required: set config youtube_api_key KEY or GOG_YOUTUBE_API_KEY")
    else Except.ok key

/-- The function `getYouTubeServiceWithAPIKey`, with the steps it takes. -/
def getYouTubeServiceWithAPIKey (env : runEnv) : List runStep × Except Error Service :=
  match getYouTubeAPIKey env with
  | Except.error err => ([runStep.configRead], Except.error err)
  | Except.ok key =>
    ([runStep.configRead, runStep.serviceConstruction (Service.withAPIKey key)],
      match env.newYouTubeWithAPIKey key with
      | some err => Except.error err
      | none => Except.ok (Service.withAPIKey key))

/-- The function `getYouTubeServiceForAccount`, with the steps it takes. -/
def getYouTubeServiceForAccount (env : runEnv) (account : String) :
    List runStep × Except Error Service :=
  ([runStep.serviceConstruction (Service.forAccount account)],
    match env.newYouTubeForAccount account with
    | some err => Except.error err
    | none => Except.ok (Service.forAccount account))

/-- The part that the `Run` methods of the activities, playlists and channels list
commands share after their selector checks: the service for the authenticated user
or for the API key, then the list call with the selector `sel`. -/
def runWithService (env : runEnv) (mine : Bool) (sel : String) : runResult :=
  let acquired : List runStep × Except Error Service :=
    if mine then
      match env.requireAccount with
      | Except.error accErr => ([runStep.accountLookup], Except.error accErr)
      | Except.ok account =>
        let r := getYouTubeServiceForAccount env account
        (runStep.accountLookup :: r.1, r.2)
    else getYouTubeServiceWithAPIKey env
  match acquired.2 with
  | Except.error err => { steps := acquired.1, err := some err }
  | Except.ok svc => { steps := acquired.1 ++ [runStep.listCall svc], err := env.list svc sel }

/-- The struct `YouTubeActivitiesListCmd`. -/
structure YouTubeActivitiesListCmd where
  ChannelID : String := ""
  Mine : Bool := false
  Max : Int := 25
  Page : String := ""

/-- The method `YouTubeActivitiesListCmd.Run`. -/
def YouTubeActivitiesListCmd.Run (c : YouTubeActivitiesListCmd) (env : runEnv) : runResult :=
  if c.ChannelID = "" ∧ c.Mine = false then
    { steps := [], err := some (Error.usage
        "set --channel-id ID or --mine (--mine requires -a account)") }
  else if c.ChannelID ≠ "" ∧ c.Mine = true then
    { steps := [], err := some (Error.usage "use either --channel-id or --mine, not both") }
  else runWithService env c.Mine c.ChannelID

/-- The struct `YouTubePlaylistsListCmd`. -/
structure YouTubePlaylistsListCmd where
  ChannelID : String := ""
  Mine : Bool := false
  Max : Int := 25
  Page : String := ""

/-- The method `YouTubePlaylistsListCmd.Run`. -/
def YouTubePlaylistsListCmd.Run (c : YouTubePlaylistsListCmd) (env : runEnv) : runResult :=
  if c.ChannelID = "" ∧ c.Mine = false then
    { steps := [], err := some (Error.usage
        "set --channel-id ID or --mine (--mine requires -a account)") }
  else if c.ChannelID ≠ "" ∧ c.Mine = true then
    { steps := [], err := some (Error.usage "use either --channel-id or --mine, not both") }
  else runWithService env c.Mine c.ChannelID

/-- The struct `YouTubeCommentsListCmd`. -/
structure YouTubeCommentsListCmd where
  VideoID : String := ""
  ChannelID : String := ""
  Max : Int := 25
  Page : String := ""

/-- The method `YouTubeCommentsListCmd.Run`; it always uses the API key. -/
def YouTubeCommentsListCmd.Run (c : YouTubeCommentsListCmd) (env : runEnv) : runResult :=
  if c.VideoID = "" ∧ c.ChannelID = "" then
    { steps := [], err := some (Error.usage "set --video-id ID or --channel-id ID") }
  else if c.VideoID ≠ "" ∧ c.ChannelID ≠ "" then
    { steps := [], err := some (Error.usage "use either --video-id or --channel-id, not both") }
  else
    let acquired := getYouTubeServiceWithAPIKey env
    match acquired.2 with
    | Except.error err => { steps := acquired.1, err := some err }
    | Except.ok svc =>
      { steps := acquired.1 ++ [runStep.listCall svc]
        err := env.list svc (if c.VideoID ≠ "" then c.VideoID else c.ChannelID) }

/-- The struct `YouTubeChannelsListCmd`. -/
structure YouTubeChannelsListCmd where
  ID : String := ""
  Mine : Bool := false
  Max : Int := 25
  Page : String := ""

/-- The method `YouTubeChannelsListCmd.Run`. -/
def YouTubeChannelsListCmd.Run (c : YouTubeChannelsListCmd) (env : runEnv) : runResult :=
  if c.ID = "" ∧ c.Mine = false then
    { steps := [], err := some (Error.usage
        "set --id CHANNEL_IDS or --mine (--mine requires -a account)") }
  else if c.ID ≠ "" ∧ c.Mine = true then
    { steps := [], err := some (Error.usage "use either --id or --mine, not both") }
  else runWithService env c.Mine c.ID

/-! ## `internal/cmd/gmail_attachments.go` -/

/-- The fields of `gmail.MessagePartBody` the code reads. -/
structure MessagePartBody where
  AttachmentId : String := ""
  Size : Int := 0
deriving DecidableEq, Repr

/-- The fields of `gmail.MessagePart` the code reads; a nil body or sub-part is `none`. -/
inductive MessagePart where
  | mk (Filename : String) (MimeType : String) (Body : Option MessagePartBody)
      (Parts : List (Option MessagePart))

/-- The struct `attachmentInfo`. -/
structure attachmentInfo where
  Filename : String
  Size : Int
  MimeType : String
  AttachmentID : String
deriving DecidableEq, Repr

mutual
/-- The function `collectAttachments`; a nil part is `none`. -/
def collectAttachments : Option MessagePart → List attachmentInfo
  | none => []
  | some (MessagePart.mk Filename MimeType Body Parts) =>
    let out : List attachmentInfo :=
      match Body with
      | some body =>
        if body.AttachmentId ≠ "" then
          let filename := if TrimSpace Filename = "" then "attachment" else Filename
          [{ Filename := filename, Size := body.Size, MimeType := MimeType,
             AttachmentID := body.AttachmentId }]
        else []
      | none => []
    out ++ collectParts Parts
/-- The loop of `collectAttachments` over the sub-parts: it appends what each of them
yields. -/
def collectParts : List (Option MessagePart) → List attachmentInfo
  | [] => []
  | part :: rest => collectAttachments part ++ collectParts rest
end

/-- A run that ended with a usage error before any step outside the command. -/
def usageBeforeSteps (r : runResult) : Prop :=
  r.steps = [] ∧ ∃ err, r.err = some err ∧ err.isUsage = true

/-- The steps that are an account lookup or the construction of a service. -/
def runStep.isLookupOrConstruction : runStep → Bool
  | runStep.accountLookup => true
  | runStep.serviceConstruction _ => true
  | _ => false

/-- A run that ended with a usage error before any account lookup and before any
service construction. -/
def usageBeforeService (r : runResult) : Prop :=
  (∀ s ∈ r.steps, s.isLookupOrConstruction = false) ∧
  ∃ err, r.err = some err ∧ err.isUsage = true

/-- The function `getYouTubeAPIKey` returns a usage error. -/
def apiKeyUsage (env : runEnv) : Prop :=
  ∃ err, getYouTubeAPIKey env = Except.error err ∧ err.isUsage = true

/-- The activities list command with a channel id as its only selector. -/
def channelActivities : YouTubeActivitiesListCmd := { ChannelID := "UC123" }

/-- A host with an account, an empty configuration file and no API key in the
environment, on which every service call succeeds. -/
def noKeyEnv : runEnv :=
  { requireAccount := Except.ok "me@example.com"
    ReadConfig := Except.ok {}
    host := { db := sampleDB, getenv := fun _ => "" }
    newYouTubeWithAPIKey := fun _ => none
    newYouTubeForAccount := fun _ => none
    list := fun _ _ => none }

/-! ## Notions used to state the properties of the added packages -/

/-- The bytes a buffered reader will still deliver. -/
def bufReader.stream (b : bufReader) : List Char := b.buf ++ b.rd.remaining

/-- A reader every `Read` of which delivers at least one byte before the end of the
input. -/
def Reader.steady (r : Reader) : Prop := [] ∉ r.chunks

/-- The bytes of the input before its first line terminator. -/
def firstLine (input : List Char) : List Char := input.takeWhile (fun c => !isTerminator c)

/-- The calendars whose event fetch succeeded. -/
def fetched (cal : calendarFetch) : Bool :=
  match cal.events with
  | Except.ok _ => true
  | Except.error _ => false

/-- The field `Filename` of a message part. -/
def MessagePart.Filename : MessagePart → String
  | MessagePart.mk filename _ _ _ => filename

/-- The field `MimeType` of a message part. -/
def MessagePart.MimeType : MessagePart → String
  | MessagePart.mk _ mimeType _ _ => mimeType

/-- The field `Body` of a message part. -/
def MessagePart.Body : MessagePart → Option MessagePartBody
  | MessagePart.mk _ _ body _ => body

/-- The field `Parts` of a message part. -/
def MessagePart.Parts : MessagePart → List (Option MessagePart)
  | MessagePart.mk _ _ _ parts => parts

mutual
/-- The parts of a message-part tree in pre-order: a part before its sub-parts, the
sub-parts in list order; a nil part has none. -/
def preorder : Option MessagePart → List MessagePart
  | none => []
  | some (MessagePart.mk filename mimeType body parts) =>
    MessagePart.mk filename mimeType body parts :: preorderParts parts
/-- The parts of a list of trees in pre-order. -/
def preorderParts : List (Option MessagePart) → List MessagePart
  | [] => []
  | part :: rest => preorder part ++ preorderParts rest
end

/-- A part whose body has a non-empty attachment id. -/
def hasAttachment (p : MessagePart) : Bool :=
  match p.Body with
  | some body => body.AttachmentId != ""
  | none => false

/-- The entry that describes a part: its size, MIME type and attachment id, and its
filename, or `attachment` when that is blank. -/
def entryOf (p : MessagePart) : attachmentInfo :=
  { Filename := if TrimSpace p.Filename = "" then "attachment" else p.Filename
    Size := match p.Body with
            | some body => body.Size
            | none => 0
    MimeType := p.MimeType
    AttachmentID := match p.Body with
                    | some body => body.AttachmentId
                    | none => "" }

/-- A message with two attachments, one of them nested and unnamed, a nil part and a
part without attachment id. -/
def sampleMessage : MessagePart :=
  MessagePart.mk "" "multipart/mixed" none
    [some (MessagePart.mk "a.pdf" "application/pdf" (some { AttachmentId := "A1", Size := 10 }) []),
     none,
     some (MessagePart.mk "  " "multipart/related" (some { AttachmentId := "A2", Size := 20 })
       [some (MessagePart.mk "c.png" "image/png" (some { AttachmentId := "A3", Size := 30 }) [])]),
     some (MessagePart.mk "body.txt" "text/plain" (some { Size := 5 }) [])]

set_option maxHeartbeats 4000000

/-! ## Auxiliary facts: zone resolution -/

theorem TrimSpace_empty : TrimSpace "" = "" := by decide

theorem eventTimezone_eq (ev : Event) :
    eventTimezone (some ev) = (firstEmbeddedZone (embeddedZones ev)).getD "" := by
  unfold eventTimezone embeddedZones
  cases hs : ev.Start <;> cases he : ev.End <;> simp [firstEmbeddedZone] <;>
    (repeat' split) <;> simp_all

theorem firstEmbeddedZone_ne (zs : List String) (z : String)
    (h : firstEmbeddedZone zs = some z) : z ≠ "" := by
  induction zs with
  | nil => simp [firstEmbeddedZone] at h
  | cons a as ih =>
    unfold firstEmbeddedZone at h
    split at h
    · rename_i hne
      simp at h
      subst h
      exact hne
    · exact ih h

/-- An override that is blank or does not load leaves the same view as no override. -/
theorem wrap_blank_override (db : TZData) (ev : Event) (override : String)
    (h : TrimSpace override = "" ∨ LoadLocation db (TrimSpace override) = none) :
    wrapEventWithDaysWithTimezone db (some ev) override none =
      wrapEventWithDaysWithTimezone db (some ev) "" none := by
  have e := TrimSpace_empty
  rcases h with h | h
  · simp [wrapEventWithDaysWithTimezone, h, e]
  · by_cases hb : TrimSpace override = ""
    · simp [wrapEventWithDaysWithTimezone, hb, e]
    · simp [wrapEventWithDaysWithTimezone, hb, h, e]

/-- The zone name reported without an override. -/
theorem wrap_empty_timezone (db : TZData) (ev : Event) :
    ∃ v, wrapEventWithDaysWithTimezone db (some ev) "" none = some v ∧
      v.Timezone =
        (if eventTimezone (some ev) ≠ "" then
          (match LoadLocation db (eventTimezone (some ev)) with
           | some _ => eventTimezone (some ev)
           | none => "")
         else "") := by
  have e := TrimSpace_empty
  by_cases hz : eventTimezone (some ev) = ""
  · simp [wrapEventWithDaysWithTimezone, e, hz]
  · cases hl : LoadLocation db (eventTimezone (some ev)) <;>
      simp [wrapEventWithDaysWithTimezone, e, hz, hl]

/-- The two outcomes of zone resolution: a non-empty name that loads, whose location
renders both boundaries, or the empty name with no location. -/
theorem wrap_resolution (db : TZData) (ev : Event) (override : String) :
    ∃ v, wrapEventWithDaysWithTimezone db (some ev) override none = some v ∧
      ((v.Timezone ≠ "" ∧ ∃ l, LoadLocation db v.Timezone = some l ∧
          v.StartLocal = formatEventLocal db ev.Start (some l) ∧
          v.EndLocal = formatEventLocal db ev.End (some l)) ∨
       (v.Timezone = "" ∧ v.StartLocal = formatEventLocal db ev.Start none ∧
          v.EndLocal = formatEventLocal db ev.End none)) := by
  by_cases ho : TrimSpace override = ""
  · by_cases hz : eventTimezone (some ev) = ""
    · simp [wrapEventWithDaysWithTimezone, ho, hz]
    · cases hl : LoadLocation db (eventTimezone (some ev)) <;>
        simp [wrapEventWithDaysWithTimezone, ho, hz, hl]
  · cases hlo : LoadLocation db (TrimSpace override)
    · by_cases hz : eventTimezone (some ev) = ""
      · simp [wrapEventWithDaysWithTimezone, ho, hz, hlo]
      · cases hl : LoadLocation db (eventTimezone (some ev)) <;>
          simp [wrapEventWithDaysWithTimezone, ho, hz, hl, hlo]
    · simp [wrapEventWithDaysWithTimezone, ho, hlo]

/-! ## Auxiliary facts: offset-qualified instants -/

theorem Parse_empty (db : TZData) (layout : Layout) : Parse db layout "" = none := by
  cases layout <;> rfl

/-- The layouts `RFC3339` and `RFC3339Nano` accept the same inputs with the same result:
Go reads a fractional second after the seconds field under either. -/
theorem Parse_nano (db : TZData) (value : String) :
    Parse db Layout.RFC3339Nano value = Parse db Layout.RFC3339 value := rfl

theorem parseEventTime_of_parse (db : TZData) (value tz : String) (t : Time)
    (hp : Parse db Layout.RFC3339 (TrimSpace value) = some t) :
    parseEventTime db value tz = some (inOwnZone db tz t) := by
  have hne : TrimSpace value ≠ "" := by
    intro h
    rw [h, Parse_empty] at hp
    cases hp
  unfold parseEventTime inOwnZone
  simp only [hne, if_false, hp]
  cases loadEventLocation db tz <;> rfl

theorem nonempty_of_parse (db : TZData) (value : String) (t : Time)
    (hp : Parse db Layout.RFC3339 (TrimSpace value) = some t) : value ≠ "" := by
  intro h
  rw [h, TrimSpace_empty, Parse_empty] at hp
  cases hp

theorem formatEventLocal_some (db : TZData) (b : EventDateTime) (l : Location) (t : Time)
    (hp : Parse db Layout.RFC3339 (TrimSpace b.DateTime) = some t) :
    formatEventLocal db (some b) (some l) = (t.In l).Format := by
  have hne := nonempty_of_parse db _ t hp
  unfold formatEventLocal
  simp only [hne, ne_eq, not_false_eq_true, if_true, parseEventTime_of_parse db _ _ t hp]
  simp only [reduceCtorEq, false_and, if_false, inOwnZone]
  cases loadEventLocation db b.TimeZone <;> rfl

theorem formatEventLocal_none (db : TZData) (b : EventDateTime) (t : Time)
    (hp : Parse db Layout.RFC3339 (TrimSpace b.DateTime) = some t) :
    formatEventLocal db (some b) none = (inOwnZone db b.TimeZone t).Format := by
  have hne := nonempty_of_parse db _ t hp
  unfold formatEventLocal
  simp only [hne, ne_eq, not_false_eq_true, if_true, parseEventTime_of_parse db _ _ t hp]
  unfold inOwnZone loadEventLocation
  by_cases hz : TrimSpace b.TimeZone = ""
  · simp [hz]
  · cases hl : LoadLocation db (TrimSpace b.TimeZone) <;> simp [hz, hl, Time.In]

/-! ## Auxiliary facts: digits and numbers -/

theorem isDigit_iff (c : Char) : isDigit c = true ↔ 48 ≤ c.toNat ∧ c.toNat ≤ 57 := by
  simp [isDigit]

theorem digitVal_le (c : Char) (h : isDigit c = true) : digitVal c ≤ 9 := by
  rw [isDigit_iff] at h
  unfold digitVal
  omega

theorem isDigit_ne (c d : Char) (h : isDigit c = true) (hd : isDigit d = false) : c ≠ d := by
  intro e
  rw [e, hd] at h
  cases h

theorem isSpace_of_isDigit (c : Char) (h : isDigit c = true) : isSpace c = false := by
  rw [isDigit_iff] at h
  simp only [isSpace, Bool.or_eq_false_iff, beq_eq_false_iff_ne, Bool.and_eq_false_iff,
    decide_eq_false_iff_not]
  omega

theorem leadingInt_digit (c : Char) (cs : List Char) (x : Nat) (hc : isDigit c = true)
    (hx : x ≤ 10 ^ 17) : leadingInt (c :: cs) x = leadingInt cs (x * 10 + digitVal c) := by
  have := digitVal_le c hc
  have h1 : ¬ x > 2 ^ 63 / 10 := by norm_num; omega
  have h2 : ¬ x * 10 + digitVal c > 2 ^ 63 := by norm_num; omega
  simp only [leadingInt, hc, if_true, h1, h2, if_false]

theorem atoi_four (a b c d : Char) (ha : isDigit a = true) (hb : isDigit b = true)
    (hc : isDigit c = true) (hd : isDigit d = true) :
    atoi [a, b, c, d] =
      some ((((digitVal a * 10 + digitVal b) * 10 + digitVal c) * 10 + digitVal d : Nat) : Int) := by
  have h1 : a ≠ '-' := isDigit_ne a '-' ha (by decide)
  have h2 : a ≠ '+' := isDigit_ne a '+' ha (by decide)
  have := digitVal_le a ha
  have := digitVal_le b hb
  have := digitVal_le c hc
  have := digitVal_le d hd
  have e1 : (some a == some '-') = false := by simp [h1]
  have e2 : (some a == some '+') = false := by simp [h2]
  unfold atoi
  simp only [List.head?_cons, e1, e2, Bool.or_self, Bool.false_eq_true, if_false]
  rw [leadingInt_digit a _ _ ha (by norm_num), leadingInt_digit b _ _ hb (by omega),
    leadingInt_digit c _ _ hc (by omega), leadingInt_digit d _ _ hd (by omega)]
  simp [leadingInt]

theorem getnum_two (a b : Char) (rest : List Char) (fixed : Bool) (ha : isDigit a = true)
    (hb : isDigit b = true) : getnum (a :: b :: rest) fixed = some (digitVal a * 10 + digitVal b, rest) := by
  simp [getnum, ha, hb]

/-! ## Auxiliary facts: the civil calendar -/

/-- Go `isLeap` as a proposition. -/
theorem isLeap_iff (y : Int) : isLeap y = true ↔ (y % 4 = 0 ∧ (y % 100 ≠ 0 ∨ y % 400 = 0)) := by
  simp [isLeap]

/-- The year and day of the year of a day count add up to it, and the day lies in the year. -/
theorem yearDay_spec (z : Int) :
    daysToYear (yearDay z).1 + (yearDay z).2 = z ∧ 0 ≤ (yearDay z).2 ∧
    (isLeap (yearDay z).1 = true → (yearDay z).2 < 366) ∧
    (isLeap (yearDay z).1 = false → (yearDay z).2 < 365) := by
  rw [← Bool.not_eq_true, isLeap_iff]
  simp only [yearDay, daysToYear]
  generalize hb : (z + 719162) / 146097 = b
  generalize hd1 : (z + 719162) % 146097 = d1
  generalize hc : d1 / 36524 = c
  generalize hn100 : c - c / 4 = n100
  generalize he : (d1 - 36524 * n100) / 1461 = e
  generalize hd3 : (d1 - 36524 * n100) % 1461 = d3
  generalize hq : d3 / 365 = q
  generalize hn1 : q - q / 4 = n1
  have b1 : 0 ≤ d1 ∧ d1 < 146097 := by omega
  have b2 : 0 ≤ c ∧ c ≤ 4 := by omega
  have b3 : 0 ≤ n100 ∧ n100 ≤ 3 := by omega
  have b4 : 0 ≤ e ∧ e ≤ 24 := by omega
  have b5 : 0 ≤ d3 ∧ d3 < 1461 := by omega
  have b6 : 0 ≤ q ∧ q ≤ 4 := by omega
  have b7 : 0 ≤ n1 ∧ n1 ≤ 3 := by omega
  have y4 : (400 * b + 100 * n100 + 4 * e + n1 + 1 - 1) / 4 = 100 * b + 25 * n100 + e := by omega
  have y100 : (400 * b + 100 * n100 + 4 * e + n1 + 1 - 1) / 100 = 4 * b + n100 := by omega
  have y400 : (400 * b + 100 * n100 + 4 * e + n1 + 1 - 1) / 400 = b := by omega
  rw [y4, y100, y400]
  have k1 : d1 - 36524 * n100 = 1461 * e + d3 := by omega
  have k2 : n100 < 3 → 1461 * e + d3 < 36524 := by omega
  have k3 : n1 < 3 → d3 - 365 * n1 < 365 := by omega
  have k4 : d3 - 365 * n1 ≤ 365 := by omega
  have m4 : (400 * b + 100 * n100 + 4 * e + n1 + 1) % 4 = (n1 + 1) % 4 := by omega
  have m100 : (400 * b + 100 * n100 + 4 * e + n1 + 1) % 100 = (4 * e + n1 + 1) % 100 := by omega
  have m400 : (400 * b + 100 * n100 + 4 * e + n1 + 1) % 400 = (100 * n100 + 4 * e + n1 + 1) % 400 := by
    omega
  rw [m4, m100, m400]
  refine ⟨by omega, by omega, ?_, ?_⟩
  · intro h; omega
  · intro h
    by_cases h3 : n1 < 3
    · omega
    · have : n1 = 3 := by omega
      subst this
      by_cases h24 : e = 24
      · subst h24
        by_cases hn : n100 = 3
        · subst hn; omega
        · omega
      · omega


/-- Month and day of a day of the year are in range and add up to it. -/
theorem monthDay_spec (leap : Bool) (yd : Int) (h0 : 0 ≤ yd)
    (h1 : yd < (if leap then 366 else 365)) :
    1 ≤ (monthDay leap yd).1 ∧ (monthDay leap yd).1 ≤ 12 ∧ 1 ≤ (monthDay leap yd).2 ∧
    ((monthDay leap yd).2 : Int) ≤
      (if (monthDay leap yd).1 = 2 ∧ leap = true then 29
       else daysBefore (monthDay leap yd).1 - daysBefore ((monthDay leap yd).1 - 1)) ∧
    daysBefore ((monthDay leap yd).1 - 1)
      + (if leap && decide (3 ≤ (monthDay leap yd).1) then 1 else 0)
      + (((monthDay leap yd).2 : Int) - 1) = yd := by
  unfold monthDay
  by_cases h59 : (leap && yd == 59) = true
  · simp only [h59, if_true]
    simp at h59
    obtain ⟨hl, hy⟩ := h59
    subst hl; subst hy
    decide
  · simp only [h59]
    generalize hday : (if (leap && decide (yd > 59)) = true then yd - 1 else yd) = day
    have hd0 : 0 ≤ day := by
      subst hday; split
      · rename_i h; simp at h; omega
      · exact h0
    have hd1 : day < 365 := by
      subst hday; cases leap <;> (simp_all; first | done | (split <;> omega))
    have hm : ∃ k : Nat, (day / 31).toNat = k ∧ k ≤ 11 ∧ 31 * (k : Int) ≤ day ∧ day < 31 * (k : Int) + 31 :=
      ⟨(day / 31).toNat, rfl, by omega, by omega, by omega⟩
    obtain ⟨k, hk, hk11, hlo, hhi⟩ := hm
    rw [hk]
    cases leap
    · simp at hday h1
      subst hday
      interval_cases k <;> simp [daysBefore] <;> split <;> simp <;> omega
    · simp at h59 hday h1
      interval_cases k <;> simp [daysBefore] <;> split <;> simp <;> (try split at hday) <;> omega


theorem daysToYear_succ (y : Int) :
    daysToYear (y + 1) = daysToYear y + (if isLeap y then 366 else 365) := by
  by_cases h : isLeap y = true
  · rw [if_pos h]; rw [isLeap_iff] at h; simp only [daysToYear]; omega
  · rw [if_neg h]; rw [isLeap_iff] at h; simp only [daysToYear]; omega

theorem daysToYear_mono {a b : Int} (h : a ≤ b) : daysToYear a ≤ daysToYear b := by
  simp only [daysToYear]; omega

theorem yearDay_unique (y : Int) (k : Int) (h0 : 0 ≤ k)
    (h1 : k < (if isLeap y then 366 else 365)) : yearDay (daysToYear y + k) = (y, k) := by
  obtain ⟨e1, e2, e3, e4⟩ := yearDay_spec (daysToYear y + k)
  generalize yearDay (daysToYear y + k) = r at e1 e2 e3 e4
  obtain ⟨y2, k2⟩ := r
  simp only at e1 e2 e3 e4
  have hk2 : k2 < (if isLeap y2 then 366 else 365) := by
    cases hl : isLeap y2
    · simpa using e4 hl
    · simpa using e3 hl
  have hy : y2 = y := by
    rcases lt_trichotomy y2 y with hlt | heq | hgt
    · have := daysToYear_mono (show y2 + 1 ≤ y by omega)
      rw [daysToYear_succ] at this
      omega
    · exact heq
    · have := daysToYear_mono (show y + 1 ≤ y2 by omega)
      rw [daysToYear_succ] at this
      omega
  subst hy
  have : k2 = k := by omega
  subst this
  rfl

theorem monthDay_unique (leap : Bool) (m d : Nat) (hm1 : 1 ≤ m) (hm2 : m ≤ 12) (hd1 : 1 ≤ d)
    (hd2 : (d : Int) ≤ (if m = 2 ∧ leap = true then 29 else daysBefore m - daysBefore (m - 1))) :
    monthDay leap (daysBefore (m - 1) + (if leap && decide (3 ≤ m) then 1 else 0) + ((d : Int) - 1))
      = (m, d) := by
  generalize hyd : daysBefore (m - 1) + (if leap && decide (3 ≤ m) then 1 else 0) + ((d : Int) - 1) = yd
  have h0 : 0 ≤ yd := by
    subst hyd
    interval_cases m <;> simp [daysBefore] <;> (try split) <;> omega
  have h1 : yd < (if leap then 366 else 365) := by
    subst hyd
    cases leap <;> interval_cases m <;> simp [daysBefore] at hd2 ⊢ <;> omega
  obtain ⟨s1, s2, s3, s4, s5⟩ := monthDay_spec leap yd h0 h1
  generalize monthDay leap yd = r at s1 s2 s3 s4 s5
  obtain ⟨m2, d2⟩ := r
  simp only at s1 s2 s3 s4 s5
  have hm : m2 = m := by
    subst hyd
    cases leap <;> interval_cases m <;> simp [daysBefore] at hd2 s5 ⊢ <;>
      interval_cases m2 <;> simp [daysBefore] at s4 s5 ⊢ <;> omega
  subst hm
  have hd : d2 = d := by omega
  subst hd
  rfl

/-- Reading the calendar date of the day count of a valid date gives the date back. -/
theorem civil_roundtrip (y : Int) (m d : Nat) (hm1 : 1 ≤ m) (hm2 : m ≤ 12) (hd1 : 1 ≤ d)
    (hd2 : d ≤ daysIn m y) : civilFromDays (daysFromCivil y m d) = (y, m, d) := by
  have hd2i : (d : Int) ≤ (if m = 2 ∧ isLeap y = true then 29 else daysBefore m - daysBefore (m - 1)) := by
    unfold daysIn at hd2
    split at hd2
    · rename_i h; rw [if_pos h]; omega
    · rename_i h; rw [if_neg h]
      have : 0 ≤ daysBefore m - daysBefore (m - 1) := by
        interval_cases m <;> simp [daysBefore]
      omega
  have hk0 : 0 ≤ daysBefore (m - 1) + (if isLeap y && decide (3 ≤ m) then 1 else 0) + ((d : Int) - 1) := by
    interval_cases m <;> simp [daysBefore] <;> (try split) <;> omega
  have hk1 : daysBefore (m - 1) + (if isLeap y && decide (3 ≤ m) then 1 else 0) + ((d : Int) - 1)
      < (if isLeap y then 366 else 365) := by
    cases hl : isLeap y <;> rw [hl] at hd2i <;> interval_cases m <;> simp [daysBefore] at hd2i ⊢ <;> omega
  have e : daysFromCivil y m d = daysToYear y +
      (daysBefore (m - 1) + (if isLeap y && decide (3 ≤ m) then 1 else 0) + ((d : Int) - 1)) := by
    unfold daysFromCivil; omega
  unfold civilFromDays
  rw [e, yearDay_unique y _ hk0 hk1]
  simp only
  rw [monthDay_unique (isLeap y) m d hm1 hm2 hd1 hd2i]

/-- Counting the days of the calendar date of a day count gives the day count back. -/
theorem civil_inverse (z : Int) :
    daysFromCivil (civilFromDays z).1 (civilFromDays z).2.1 (civilFromDays z).2.2 = z := by
  obtain ⟨e1, e2, e3, e4⟩ := yearDay_spec z
  have hk : (yearDay z).2 < (if isLeap (yearDay z).1 then 366 else 365) := by
    cases hl : isLeap (yearDay z).1
    · simpa using e4 hl
    · simpa using e3 hl
  obtain ⟨s1, s2, s3, s4, s5⟩ := monthDay_spec (isLeap (yearDay z).1) (yearDay z).2 e2 hk
  unfold civilFromDays daysFromCivil
  simp only
  omega

/-! ## Auxiliary facts: parsing digit fields -/

theorem parseYear_four (a b c d : Char) (rest : List Char) (ha : isDigit a = true)
    (hb : isDigit b = true) (hc : isDigit c = true) (hd : isDigit d = true) :
    parseYear (a :: b :: c :: d :: rest) =
      some (((twoDigits a b * 100 + twoDigits c d : Nat) : Int), rest) := by
  simp only [parseYear, ha, if_true, atoi_four a b c d ha hb hc hd, Option.map_some']
  congr 2
  unfold twoDigits
  push_cast
  ring

theorem parseDate_digits (y1 y2 y3 y4 m1 m2 d1 d2 : Char) (rest : List Char)
    (hy1 : isDigit y1 = true) (hy2 : isDigit y2 = true) (hy3 : isDigit y3 = true)
    (hy4 : isDigit y4 = true) (hm1 : isDigit m1 = true) (hm2 : isDigit m2 = true)
    (hd1 : isDigit d1 = true) (hd2 : isDigit d2 = true) :
    parseDate (y1 :: y2 :: y3 :: y4 :: '-' :: m1 :: m2 :: '-' :: d1 :: d2 :: rest) =
      if twoDigits m1 m2 = 0 ∨ 12 < twoDigits m1 m2 then none
      else some ((((twoDigits y1 y2 * 100 + twoDigits y3 y4 : Nat) : Int), twoDigits m1 m2,
        twoDigits d1 d2), rest) := by
  simp only [parseDate, parseYear_four y1 y2 y3 y4 _ hy1 hy2 hy3 hy4, skip, beq_self_eq_true,
    if_true, getnum_two m1 m2 _ true hm1 hm2, twoDigits]
  split
  · rfl
  · simp only [skip, beq_self_eq_true, if_true, getnum_two d1 d2 _ true hd1 hd2, Option.map_some']

theorem parseClock_digits (h1 h2 i1 i2 s1 s2 : Char) (rest : List Char)
    (hh1 : isDigit h1 = true) (hh2 : isDigit h2 = true) (hi1 : isDigit i1 = true)
    (hi2 : isDigit i2 = true) (hs1 : isDigit s1 = true) (hs2 : isDigit s2 = true) :
    parseClock (h1 :: h2 :: ':' :: i1 :: i2 :: ':' :: s1 :: s2 :: rest) =
      if twoDigits h1 h2 ≥ 24 ∨ twoDigits i1 i2 ≥ 60 ∨ twoDigits s1 s2 ≥ 60 then none
      else (parseFraction rest).map
        (fun r => ((twoDigits h1 h2, twoDigits i1 i2, twoDigits s1 s2, r.1), r.2)) := by
  simp only [parseClock, getnum_two h1 h2 _ false hh1 hh2, twoDigits]
  by_cases c1 : digitVal h1 * 10 + digitVal h2 ≥ 24
  · simp [c1]
  · simp only [c1, if_false, skip, beq_self_eq_true, if_true, getnum_two i1 i2 _ true hi1 hi2]
    by_cases c2 : digitVal i1 * 10 + digitVal i2 ≥ 60
    · simp [c2]
    · simp only [c2, if_false, skip, beq_self_eq_true, if_true, getnum_two s1 s2 _ true hs1 hs2]
      by_cases c3 : digitVal s1 * 10 + digitVal s2 ≥ 60
      · simp [c3]
      · simp [c1, c2, c3]

theorem trimLeft_cons (c : Char) (cs : List Char) (h : isSpace c = false) :
    trimLeft (c :: cs) = c :: cs := by
  simp [trimLeft, h]

theorem trimSpaceChars_id (c d : Char) (mid : List Char) (hc : isSpace c = false)
    (hd : isSpace d = false) : trimSpaceChars (c :: (mid ++ [d])) = c :: (mid ++ [d]) := by
  unfold trimSpaceChars
  rw [trimLeft_cons c _ hc]
  have e : (c :: (mid ++ [d])).reverse = d :: (mid.reverse ++ [c]) := by simp
  rw [e, trimLeft_cons d _ hd]
  simp

theorem isFloatingForm_data (value : String) (hf : isFloatingForm value = true) :
    ∃ y1 y2 y3 y4 m1 m2 d1 d2 h1 h2 i1 i2 s1 s2 : Char,
      value.data = [y1, y2, y3, y4, '-', m1, m2, '-', d1, d2, 'T', h1, h2, ':', i1, i2, ':', s1, s2] ∧
      isDigit y1 = true ∧ isDigit y2 = true ∧ isDigit y3 = true ∧ isDigit y4 = true ∧
      isDigit m1 = true ∧ isDigit m2 = true ∧ isDigit d1 = true ∧ isDigit d2 = true ∧
      isDigit h1 = true ∧ isDigit h2 = true ∧ isDigit i1 = true ∧ isDigit i2 = true ∧
      isDigit s1 = true ∧ isDigit s2 = true := by
  unfold isFloatingForm at hf
  split at hf
  · rename_i y1 y2 y3 y4 p1 m1 m2 p2 d1 d2 p3 h1 h2 p4 i1 i2 p5 s1 s2 heq
    simp only [Bool.and_eq_true, beq_iff_eq] at hf
    obtain ⟨⟨⟨⟨⟨⟨⟨⟨⟨⟨⟨⟨⟨⟨⟨⟨⟨⟨a1, a2⟩, a3⟩, a4⟩, a5⟩, a6⟩, a7⟩, a8⟩, a9⟩, a10⟩, a11⟩, a12⟩, a13⟩, a14⟩,
      a15⟩, a16⟩, a17⟩, a18⟩, a19⟩ := hf
    subst a5 a8 a11 a14 a17
    exact ⟨y1, y2, y3, y4, m1, m2, d1, d2, h1, h2, i1, i2, s1, s2, heq, a1, a2, a3, a4, a6, a7,
      a9, a10, a12, a13, a15, a16, a18, a19⟩
  · cases hf

theorem string_eq_mk (s : String) (l : List Char) (h : s.data = l) : s = String.mk l := by
  cases s
  simp only at h
  rw [h]

/-- The time parser on a value of the floating form, layout by layout. -/
theorem parse_floating (value : String) (hf : isFloatingForm value = true)
    (layout : Layout) (dl loc : Location) :
    parse layout value dl loc =
      if layout = Layout.dateTime ∧ validFields (writtenFields value) then
        some (Date (writtenFields value).1 (writtenFields value).2.1 (writtenFields value).2.2.1
          (writtenFields value).2.2.2.1 (writtenFields value).2.2.2.2.1
          (writtenFields value).2.2.2.2.2 0 dl)
      else none := by
  obtain ⟨y1, y2, y3, y4, m1, m2, d1, d2, h1, h2, i1, i2, s1, s2, hdata, hy1, hy2, hy3, hy4,
    hm1, hm2, hd1, hd2, hh1, hh2, hi1, hi2, hs1, hs2⟩ := isFloatingForm_data value hf
  have hw : writtenFields value =
      (((twoDigits y1 y2 * 100 + twoDigits y3 y4 : Nat) : Int), twoDigits m1 m2, twoDigits d1 d2,
        twoDigits h1 h2, twoDigits i1 i2, twoDigits s1 s2) := by
    simp only [writtenFields, hdata]
  rw [hw]
  simp only [parse, parseFields, hdata, validFields,
    parseDate_digits y1 y2 y3 y4 m1 m2 d1 d2 _ hy1 hy2 hy3 hy4 hm1 hm2 hd1 hd2]
  by_cases cm : twoDigits m1 m2 = 0 ∨ 12 < twoDigits m1 m2
  · have : ¬ (1 ≤ twoDigits m1 m2 ∧ twoDigits m1 m2 ≤ 12 ∧ 1 ≤ twoDigits d1 d2 ∧
        twoDigits d1 d2 ≤ daysIn (twoDigits m1 m2) ↑(twoDigits y1 y2 * 100 + twoDigits y3 y4) ∧
        twoDigits h1 h2 < 24 ∧ twoDigits i1 i2 < 60 ∧ twoDigits s1 s2 < 60) := by
      intro h; omega
    simp only [cm, if_true, this, and_false, if_false]
  · simp only [cm, if_false]
    cases layout
    · simp only [Layout.hasClock, Layout.hasZone, skip, beq_self_eq_true, if_true,
        parseClock_digits h1 h2 i1 i2 s1 s2 _ hh1 hh2 hi1 hi2 hs1 hs2, parseFraction]
      by_cases cc : twoDigits h1 h2 ≥ 24 ∨ twoDigits i1 i2 ≥ 60 ∨ twoDigits s1 s2 ≥ 60
      · simp [cc]
      · simp [cc, parseZone]
    · simp only [Layout.hasClock, Layout.hasZone, skip, beq_self_eq_true, if_true,
        parseClock_digits h1 h2 i1 i2 s1 s2 _ hh1 hh2 hi1 hi2 hs1 hs2, parseFraction]
      by_cases cc : twoDigits h1 h2 ≥ 24 ∨ twoDigits i1 i2 ≥ 60 ∨ twoDigits s1 s2 ≥ 60
      · simp [cc]
      · simp [cc, parseZone]
    · simp only [Layout.hasClock, Layout.hasZone, skip, beq_self_eq_true, if_true,
        parseClock_digits h1 h2 i1 i2 s1 s2 _ hh1 hh2 hi1 hi2 hs1 hs2, parseFraction, true_and]
      by_cases cc : twoDigits h1 h2 ≥ 24 ∨ twoDigits i1 i2 ≥ 60 ∨ twoDigits s1 s2 ≥ 60
      · have : ¬ (1 ≤ twoDigits m1 m2 ∧ twoDigits m1 m2 ≤ 12 ∧ 1 ≤ twoDigits d1 d2 ∧
            twoDigits d1 d2 ≤ daysIn (twoDigits m1 m2) ↑(twoDigits y1 y2 * 100 + twoDigits y3 y4) ∧
            twoDigits h1 h2 < 24 ∧ twoDigits i1 i2 < 60 ∧ twoDigits s1 s2 < 60) := by
          intro h; omega
        simp only [cc, if_true, this, if_false]
      · simp only [cc, if_false, Option.map_some', Bool.false_eq_true, ne_eq, not_true_eq_false]
        by_cases cd : twoDigits d1 d2 < 1 ∨ twoDigits d1 d2 > daysIn (twoDigits m1 m2)
            ↑(twoDigits y1 y2 * 100 + twoDigits y3 y4)
        · have : ¬ (1 ≤ twoDigits m1 m2 ∧ twoDigits m1 m2 ≤ 12 ∧ 1 ≤ twoDigits d1 d2 ∧
              twoDigits d1 d2 ≤ daysIn (twoDigits m1 m2) ↑(twoDigits y1 y2 * 100 + twoDigits y3 y4) ∧
              twoDigits h1 h2 < 24 ∧ twoDigits i1 i2 < 60 ∧ twoDigits s1 s2 < 60) := by
            intro h; omega
          simp only [cd, if_true, this, if_false]
        · have : (1 ≤ twoDigits m1 m2 ∧ twoDigits m1 m2 ≤ 12 ∧ 1 ≤ twoDigits d1 d2 ∧
              twoDigits d1 d2 ≤ daysIn (twoDigits m1 m2) ↑(twoDigits y1 y2 * 100 + twoDigits y3 y4) ∧
              twoDigits h1 h2 < 24 ∧ twoDigits i1 i2 < 60 ∧ twoDigits s1 s2 < 60) := by
            omega
          simp only [cd, if_false, this]
          simp
    · simp [Layout.hasClock, Layout.hasZone]


theorem floating_trim (value : String) (hf : isFloatingForm value = true) :
    TrimSpace value = value ∧ value ≠ "" := by
  obtain ⟨y1, y2, y3, y4, m1, m2, d1, d2, h1, h2, i1, i2, s1, s2, hdata, hy1, hy2, hy3, hy4,
    hm1, hm2, hd1, hd2, hh1, hh2, hi1, hi2, hs1, hs2⟩ := isFloatingForm_data value hf
  have e := string_eq_mk value _ hdata
  constructor
  · unfold TrimSpace
    rw [hdata, e]
    congr 1
    exact trimSpaceChars_id y1 s2 [y2, y3, y4, '-', m1, m2, '-', d1, d2, 'T', h1, h2, ':', i1, i2, ':', s1]
      (isSpace_of_isDigit y1 hy1) (isSpace_of_isDigit s2 hs2)
  · intro h
    rw [h] at hdata
    cases hdata

theorem clock_of_wall (w : Int) (d : Int) (h mi s : Nat) (hh : h < 24) (hmi : mi < 60) (hs : s < 60)
    (hw : w = d * 86400 + h * 3600 + mi * 60 + s) :
    w / 86400 = d ∧ ((w % 86400).toNat / 3600, (w % 86400).toNat % 3600 / 60, (w % 86400).toNat % 60)
      = (h, mi, s) := by
  have h1 : w / 86400 = d := by omega
  have h2 : (w % 86400).toNat = h * 3600 + mi * 60 + s := by omega
  refine ⟨h1, ?_⟩
  rw [h2]
  simp only [Prod.mk.injEq]
  omega

/-- The wall clock of `Date` shows the fields it was given when the offset it
subtracted is the one in force at the instant it returns. -/
theorem Date_fields (year : Int) (month day hour min sec nsec : Nat) (loc : Location)
    (hm1 : 1 ≤ month) (hm2 : month ≤ 12) (hd1 : 1 ≤ day) (hd2 : day ≤ daysIn month year)
    (hh : hour < 24) (hmi : min < 60) (hs : sec < 60)
    (hc : loc.offsetAt (wallSeconds year month day hour min sec
            - dateOffset loc (wallSeconds year month day hour min sec))
          = dateOffset loc (wallSeconds year month day hour min sec)) :
    (Date year month day hour min sec nsec loc).Date = (year, month, day) ∧
    (Date year month day hour min sec nsec loc).Clock = (hour, min, sec) := by
  have hw : (Date year month day hour min sec nsec loc).wall
      = wallSeconds year month day hour min sec := by
    simp only [Time.wall, Date, hc]
    omega
  obtain ⟨e1, e2⟩ := clock_of_wall (wallSeconds year month day hour min sec)
    (daysFromCivil year month day) hour min sec hh hmi hs rfl
  constructor
  · rw [Time.Date, hw, e1, civil_roundtrip year month day hm1 hm2 hd1 hd2]
  · rw [Time.Clock, hw]
    exact e2


/-! ## Auxiliary facts: formatting and parsing back -/

theorem digitChar_toNat (k : Nat) (h : k < 10) : (digitChar k).toNat = 48 + k := by
  interval_cases k <;> rfl

theorem isDigit_digitChar (k : Nat) (h : k < 10) : isDigit (digitChar k) = true := by
  rw [isDigit_iff, digitChar_toNat k h]
  omega

theorem digitVal_digitChar (k : Nat) (h : k < 10) : digitVal (digitChar k) = k := by
  unfold digitVal
  rw [digitChar_toNat k h]
  omega

theorem twoDigits_digitChar (n : Nat) (h : n < 100) :
    twoDigits (digitChar (n / 10)) (digitChar (n % 10)) = n := by
  unfold twoDigits
  rw [digitVal_digitChar _ (by omega), digitVal_digitChar _ (by omega)]
  omega

theorem appendInt_two (n : Nat) (h : n < 100) :
    appendInt (n : Int) 2 = [digitChar (n / 10), digitChar (n % 10)] := by
  have h1 : ¬ ((n : Int) < 0) := by omega
  have h2 : n / 100 = 0 := by omega
  have h3 : n / 10 % 10 = n / 10 := by omega
  simp [appendInt, h1, h2, lowDigits, h3]

theorem appendInt_four (y : Int) (h0 : 0 ≤ y) (h1 : y ≤ 9999) :
    appendInt y 4 = [digitChar (y.toNat / 1000), digitChar (y.toNat / 100 % 10),
      digitChar (y.toNat / 10 % 10), digitChar (y.toNat % 10)] := by
  obtain ⟨n, rfl⟩ := Int.eq_ofNat_of_zero_le h0
  have h1 : ¬ ((n : Int) < 0) := by omega
  have h2 : n / 10000 = 0 := by omega
  have h3 : n / 10 / 10 / 10 % 10 = n / 1000 := by omega
  have h4 : n / 10 / 10 % 10 = n / 100 % 10 := by omega
  simp [appendInt, h1, h2, lowDigits, h3, h4]


/-- The date and clock characters of Go's RFC 3339 output for given fields. -/
theorem parseFields_digits (y : Int) (m d h mi s : Nat) (zc : List Char) (z : zoneField)
    (hy0 : 0 ≤ y) (hy1 : y ≤ 9999) (hm1 : 1 ≤ m) (hm2 : m ≤ 12) (hd1 : 1 ≤ d)
    (hd2 : d ≤ daysIn m y) (hh : h < 24) (hmi : mi < 60) (hs : s < 60)
    (hfrac : parseFraction zc = some (0, zc)) (hz : parseZone zc = some (z, [])) :
    parseFields Layout.RFC3339
      (appendInt y 4 ++ ['-'] ++ appendInt m 2 ++ ['-'] ++ appendInt d 2 ++ ['T'] ++
        appendInt h 2 ++ [':'] ++ appendInt mi 2 ++ [':'] ++ appendInt s 2 ++ zc)
      = some { year := y, month := m, day := d, hour := h, min := mi, sec := s, nsec := 0,
               zone := z } := by
  have hd3 : d < 100 := by
    have : daysIn m y ≤ 31 := by
      unfold daysIn
      split
      · omega
      · interval_cases m <;> simp [daysBefore]
    omega
  rw [appendInt_four y hy0 hy1, appendInt_two m (by omega), appendInt_two d hd3,
    appendInt_two h (by omega), appendInt_two mi (by omega), appendInt_two s (by omega)]
  simp only [List.cons_append, List.nil_append, List.append_assoc]
  have ey : ((twoDigits (digitChar (y.toNat / 1000)) (digitChar (y.toNat / 100 % 10)) * 100 +
      twoDigits (digitChar (y.toNat / 10 % 10)) (digitChar (y.toNat % 10)) : Nat) : Int) = y := by
    unfold twoDigits
    rw [digitVal_digitChar _ (by omega), digitVal_digitChar _ (by omega),
      digitVal_digitChar _ (by omega), digitVal_digitChar _ (by omega)]
    omega
  have gy1 := isDigit_digitChar (y.toNat / 1000) (by omega)
  have gy2 := isDigit_digitChar (y.toNat / 100 % 10) (by omega)
  have gy3 := isDigit_digitChar (y.toNat / 10 % 10) (by omega)
  have gy4 := isDigit_digitChar (y.toNat % 10) (by omega)
  have gm1 := isDigit_digitChar (m / 10) (by omega)
  have gm2 := isDigit_digitChar (m % 10) (by omega)
  have gd1 := isDigit_digitChar (d / 10) (by omega)
  have gd2 := isDigit_digitChar (d % 10) (by omega)
  have gh1 := isDigit_digitChar (h / 10) (by omega)
  have gh2 := isDigit_digitChar (h % 10) (by omega)
  have gi1 := isDigit_digitChar (mi / 10) (by omega)
  have gi2 := isDigit_digitChar (mi % 10) (by omega)
  have gs1 := isDigit_digitChar (s / 10) (by omega)
  have gs2 := isDigit_digitChar (s % 10) (by omega)
  have cm : ¬ (m = 0 ∨ 12 < m) := by omega
  have cc : ¬ (h ≥ 24 ∨ mi ≥ 60 ∨ s ≥ 60) := by omega
  have cd : ¬ (d < 1 ∨ d > daysIn m y) := by omega
  simp only [parseFields, parseDate_digits _ _ _ _ _ _ _ _ _ gy1 gy2 gy3 gy4 gm1 gm2 gd1 gd2,
    twoDigits_digitChar m (by omega), twoDigits_digitChar d hd3, ey, cm, if_false,
    Layout.hasClock, Layout.hasZone, if_true, skip, beq_self_eq_true,
    parseClock_digits _ _ _ _ _ _ _ gh1 gh2 gi1 gi2 gs1 gs2,
    twoDigits_digitChar h (by omega), twoDigits_digitChar mi (by omega),
    twoDigits_digitChar s (by omega), cc, hfrac, Option.map_some', hz, ne_eq,
    not_true_eq_false, cd]


theorem civil_valid (z : Int) :
    1 ≤ (civilFromDays z).2.1 ∧ (civilFromDays z).2.1 ≤ 12 ∧ 1 ≤ (civilFromDays z).2.2 ∧
    (civilFromDays z).2.2 ≤ daysIn (civilFromDays z).2.1 (civilFromDays z).1 := by
  obtain ⟨e1, e2, e3, e4⟩ := yearDay_spec z
  have hk : (yearDay z).2 < (if isLeap (yearDay z).1 then 366 else 365) := by
    cases hl : isLeap (yearDay z).1
    · simpa using e4 hl
    · simpa using e3 hl
  obtain ⟨s1, s2, s3, s4, s5⟩ := monthDay_spec (isLeap (yearDay z).1) (yearDay z).2 e2 hk
  simp only [civilFromDays]
  refine ⟨s1, s2, s3, ?_⟩
  unfold daysIn
  split
  · rename_i h
    rw [if_pos h] at s4
    omega
  · rename_i h
    rw [if_neg h] at s4
    omega

/-- What the zone suffix of Go's RFC 3339 output parses back to, for an offset of
whole minutes below 25 hours. -/
theorem parse_formatZone (o : Int) (h60 : o % 60 = 0) (hlo : -90000 < o) (hhi : o < 90000) :
    parseFraction (formatZone o) = some (0, formatZone o) ∧
    parseZone (formatZone o) = some (if o = 0 then zoneField.utc else zoneField.offset o, []) := by
  by_cases h0 : o = 0
  · subst h0
    simp [formatZone, parseFraction, parseZone]
  · have hd : (60 : Int) ∣ o := Int.dvd_of_emod_eq_zero h60
    have ht : Int.tdiv o 60 = o / 60 := Int.tdiv_eq_ediv_of_dvd hd
    have hn : (o / 60).natAbs < 1500 := by omega
    have hh : (o / 60).natAbs / 60 < 100 := by omega
    have hm : (o / 60).natAbs % 60 < 100 := by omega
    have g1 := isDigit_digitChar ((o / 60).natAbs / 60 / 10) (by omega)
    have g2 := isDigit_digitChar ((o / 60).natAbs / 60 % 10) (by omega)
    have g3 := isDigit_digitChar ((o / 60).natAbs % 60 / 10) (by omega)
    have g4 := isDigit_digitChar ((o / 60).natAbs % 60 % 10) (by omega)
    have t1 := twoDigits_digitChar ((o / 60).natAbs / 60) hh
    have t2 := twoDigits_digitChar ((o / 60).natAbs % 60) hm
    unfold twoDigits at t1 t2
    have c1 : ¬ ((o / 60).natAbs / 60 > 24 ∨ (o / 60).natAbs % 60 > 60) := by omega
    simp only [formatZone, h0, if_false, ht, appendInt_two _ hh, appendInt_two _ hm]
    by_cases hneg : o / 60 < 0
    · have ev : -(((((o / 60).natAbs / 60 * 60 + (o / 60).natAbs % 60) * 60 : Nat)) : Int) = o := by
        omega
      simp only [hneg, if_true, if_false, List.cons_append, List.nil_append, parseFraction,
        commaOrPeriod, parseZone, getnum_two _ _ [] true g1 g2, getnum_two _ _ [] true g3 g4, t1, t2]
      simp [parseZone, getnum_two _ _ [] true g1 g2, getnum_two _ _ [] true g3 g4, t1, t2, c1, ev]
      rw [abs_of_neg hneg]
      omega
    · have ev : (((((o / 60).natAbs / 60 * 60 + (o / 60).natAbs % 60) * 60 : Nat)) : Int) = o := by
        omega
      simp only [hneg, if_true, if_false, List.cons_append, List.nil_append, parseFraction,
        commaOrPeriod, parseZone, getnum_two _ _ [] true g1 g2, getnum_two _ _ [] true g3 g4, t1, t2]
      simp [parseZone, getnum_two _ _ [] true g1 g2, getnum_two _ _ [] true g3 g4, t1, t2, c1, ev]


theorem dateOffset_UTC (w : Int) : dateOffset UTC w = 0 := by
  simp [dateOffset, Location.lookup, UTC, lookupFrom]

theorem clock_bounds (w : Int) :
    (w % 86400).toNat / 3600 < 24 ∧ (w % 86400).toNat % 3600 / 60 < 60 ∧
    (w % 86400).toNat % 60 < 60 ∧
    w / 86400 * 86400 + ((w % 86400).toNat / 3600 : Nat) * 3600 +
      ((w % 86400).toNat % 3600 / 60 : Nat) * 60 + ((w % 86400).toNat % 60 : Nat) = w := by
  have h1 : 0 ≤ w % 86400 := Int.emod_nonneg _ (by norm_num)
  have h2 : w % 86400 < 86400 := Int.emod_lt_of_pos _ (by norm_num)
  obtain ⟨n, hn⟩ := Int.eq_ofNat_of_zero_le h1
  rw [hn]
  simp only [Int.toNat_ofNat]
  refine ⟨by omega, by omega, by omega, ?_⟩
  have : w / 86400 * 86400 + (n : Int) = w := by omega
  omega

theorem formatZone_last (o : Int) (h60 : o % 60 = 0) (hlo : -90000 < o) (hhi : o < 90000) :
    ∃ (init : List Char) (d : Char), formatZone o = init ++ [d] ∧ isSpace d = false := by
  by_cases h0 : o = 0
  · subst h0
    exact ⟨[], 'Z', by simp [formatZone], by decide⟩
  · have hd : (60 : Int) ∣ o := Int.dvd_of_emod_eq_zero h60
    have ht : Int.tdiv o 60 = o / 60 := Int.tdiv_eq_ediv_of_dvd hd
    have hh : (o / 60).natAbs / 60 < 100 := by omega
    have hm : (o / 60).natAbs % 60 < 100 := by omega
    refine ⟨(if o / 60 < 0 then ['-'] else ['+']) ++
      [digitChar ((o / 60).natAbs / 60 / 10), digitChar ((o / 60).natAbs / 60 % 10), ':',
        digitChar ((o / 60).natAbs % 60 / 10)], digitChar ((o / 60).natAbs % 60 % 10), ?_,
      isSpace_of_isDigit _ (isDigit_digitChar _ (by omega))⟩
    simp only [formatZone, h0, if_false, ht, appendInt_two _ hh, appendInt_two _ hm]
    simp

/-- Go's RFC 3339 output parses back to the same second, when the offset shown is a
whole number of minutes below 25 hours and the year shown has four digits. -/
theorem Parse_Format (db : TZData) (t : Time)
    (h60 : t.loc.offsetAt t.sec % 60 = 0) (hlo : -90000 < t.loc.offsetAt t.sec)
    (hhi : t.loc.offsetAt t.sec < 90000) (hy0 : 0 ≤ t.Date.1) (hy1 : t.Date.1 ≤ 9999) :
    TrimSpace t.Format = t.Format ∧
    ∃ t2, Parse db Layout.RFC3339 t.Format = some t2 ∧ t2.sec = t.sec ∧ t2.nsec = 0 := by
  obtain ⟨v1, v2, v3, v4⟩ := civil_valid (t.wall / 86400)
  obtain ⟨c1, c2, c3, c4⟩ := clock_bounds t.wall
  obtain ⟨z1, z2⟩ := parse_formatZone _ h60 hlo hhi
  have hinv := civil_inverse (t.wall / 86400)
  have hF : t.Format = String.mk (appendInt t.Date.1 4 ++ ['-'] ++ appendInt t.Date.2.1 2 ++ ['-'] ++
      appendInt t.Date.2.2 2 ++ ['T'] ++ appendInt t.Clock.1 2 ++ [':'] ++ appendInt t.Clock.2.1 2 ++
      [':'] ++ appendInt t.Clock.2.2 2 ++ formatZone (t.loc.offsetAt t.sec)) := rfl
  have hpf := parseFields_digits t.Date.1 t.Date.2.1 t.Date.2.2 t.Clock.1 t.Clock.2.1 t.Clock.2.2
    (formatZone (t.loc.offsetAt t.sec)) _ hy0 hy1 v1 v2 v3 v4 c1 c2 c3 z1 z2
  have hw : wallSeconds t.Date.1 t.Date.2.1 t.Date.2.2 t.Clock.1 t.Clock.2.1 t.Clock.2.2 = t.wall := by
    simp only [wallSeconds, Time.Date, Time.Clock, hinv]
    exact c4
  constructor
  · obtain ⟨init, d, hz, hd⟩ := formatZone_last _ h60 hlo hhi
    have key := trimSpaceChars_id (digitChar (t.Date.1.toNat / 1000)) d
      ([digitChar (t.Date.1.toNat / 100 % 10), digitChar (t.Date.1.toNat / 10 % 10),
        digitChar (t.Date.1.toNat % 10), '-'] ++ (appendInt t.Date.2.1 2 ++ ('-' ::
        (appendInt t.Date.2.2 2 ++ ('T' :: (appendInt t.Clock.1 2 ++ (':' ::
        (appendInt t.Clock.2.1 2 ++ (':' :: (appendInt t.Clock.2.2 2 ++ init))))))))))
      (isSpace_of_isDigit _ (isDigit_digitChar _ (by omega))) hd
    rw [hF, hz, appendInt_four _ hy0 hy1]
    simp only [List.cons_append, List.nil_append, List.append_assoc] at key ⊢
    simp only [TrimSpace, key]
  · simp only [Parse, parse, hF, hpf]
    by_cases h0 : t.loc.offsetAt t.sec = 0
    · simp only [h0, if_true]
      refine ⟨_, rfl, ?_, rfl⟩
      simp only [Date, hw, dateOffset_UTC, Time.wall, h0]
      omega
    · simp only [h0, if_false]
      refine ⟨_, rfl, ?_, rfl⟩
      simp only [Date, hw, dateOffset_UTC, Time.wall]
      omega

/-! ## Auxiliary facts: weekdays, parsed fields, zone designators, aggregation -/

theorem weekdayString_mem (d : Nat) : weekdayString d ∈ weekdayNames := by
  unfold weekdayString weekdayNames
  split <;> simp

theorem weekdayString_ne (d : Nat) : weekdayString d ≠ "" := by
  unfold weekdayString
  split <;> decide

theorem dayOfWeek_cases (db : TZData) (b : EventDateTime) :
    dayOfWeekFromEventDateTime db (some b) =
      match parseEventTime db b.DateTime b.TimeZone with
      | some t => weekdayString t.Weekday
      | none =>
        match parseEventDate db b.Date b.TimeZone with
        | some t => weekdayString t.Weekday
        | none => "" := by
  have e1 : parseEventTime db "" b.TimeZone = none := by
    simp [parseEventTime, TrimSpace_empty]
  have e2 : parseEventDate db "" b.TimeZone = none := by
    simp [parseEventDate, TrimSpace_empty]
  unfold dayOfWeekFromEventDateTime
  by_cases hd : b.Date = "" <;> by_cases ht : b.DateTime = ""
  · simp [hd, ht, e1, e2]
  · simp only [hd, ht, e2, ne_eq, not_true_eq_false, not_false_eq_true, if_true, if_false]
  · simp only [hd, ht, e1, ne_eq, not_true_eq_false, not_false_eq_true, if_true, if_false]
  · simp only [hd, ht, ne_eq, not_true_eq_false, not_false_eq_true, if_true, if_false]

theorem foldl_append_map {α β : Type} (f : α → β) (l : List α) (acc : List β) :
    l.foldl (fun out a => out ++ [f a]) acc = acc ++ l.map f := by
  induction l generalizing acc with
  | nil => simp
  | cons a as ih => simp [ih]

theorem wrapEventsWithDays_eq (db : TZData) (events : Option (List (Option Event))) :
    wrapEventsWithDays db events =
      some ((events.getD []).map (fun ev => wrapEventWithDaysWithTimezone db ev "" none)) := by
  cases events with
  | none => rfl
  | some evs =>
    unfold wrapEventsWithDays
    by_cases h : evs.length = 0
    · have : evs = [] := List.length_eq_zero.mp h
      subst this
      rfl
    · simp only [h, if_false, foldl_append_map, List.nil_append, Option.getD_some]

/-- Parsing a value of the floating form uses the hint alone. -/
theorem parseEventTime_floating (db : TZData) (value tz : String)
    (hf : isFloatingForm value = true) :
    parseEventTime db value tz =
      match loadEventLocation db tz with
      | some l => ParseInLocation Layout.dateTime value l
      | none => none := by
  obtain ⟨ht, hne⟩ := floating_trim value hf
  unfold parseEventTime
  simp only [ht, hne, if_false, Parse, parse_floating value hf, reduceCtorEq, false_and]
  cases loadEventLocation db tz with
  | none => rfl
  | some l2 =>
    simp only
    cases ParseInLocation Layout.dateTime value l2 <;> rfl

theorem loadEventLocation_blank (db : TZData) (tz : String) (h : TrimSpace tz = "") :
    loadEventLocation db tz = none := by
  simp [loadEventLocation, h]

theorem formatEventLocal_unparsed (db : TZData) (b : EventDateTime) (loc : Option Location)
    (h : parseEventTime db b.DateTime b.TimeZone = none) :
    formatEventLocal db (some b) loc = b.Date := by
  by_cases hd : b.Date = "" <;> by_cases ht : b.DateTime = "" <;>
    simp [formatEventLocal, h, hd, ht]

theorem leapCount_split (y : Int) :
    y / 4 - y / 100 + y / 400 = 24 * (y / 100) + y % 100 / 4 + y / 100 / 4 := by
  have a : y / 4 = 25 * (y / 100) + y % 100 / 4 := by omega
  have b : y / 400 = y / 100 / 4 := by omega
  omega

/-- Zeller's congruence gives the weekday of the day count of a date. -/
theorem zellerWeekday_eq (y : Int) (m d : Nat) (hm1 : 1 ≤ m) (hm2 : m ≤ 12) :
    ((daysFromCivil y m d + 4) % 7).toNat = zellerWeekday y m d := by
  unfold zellerWeekday daysFromCivil daysToYear
  congr 1
  have hl : (if (isLeap y && decide (3 ≤ m)) = true then (1 : Int) else 0) =
      if 3 ≤ m then (y / 4 - y / 100 + y / 400) - ((y - 1) / 4 - (y - 1) / 100 + (y - 1) / 400)
      else 0 := by
    by_cases h3 : 3 ≤ m
    · by_cases hy : isLeap y = true
      · simp only [hy, h3, decide_True, Bool.and_self, if_true]
        rw [isLeap_iff] at hy
        omega
      · simp only [hy, h3, decide_True, Bool.false_and, if_true, Bool.false_eq_true, if_false]
        rw [isLeap_iff] at hy
        omega
    · simp [h3]
  rw [hl]
  have e1 := leapCount_split (y - 1)
  have e2 := leapCount_split y
  generalize (y - 1) / 4 - (y - 1) / 100 + (y - 1) / 400 = L1 at e1 ⊢
  generalize y / 4 - y / 100 + y / 400 = L2 at e2 ⊢
  interval_cases m <;> simp [daysBefore] <;> omega

theorem parseClock_bounds (v : List Char) (h mi s ns : Nat) (r : List Char)
    (hp : parseClock v = some ((h, mi, s, ns), r)) : h < 24 ∧ mi < 60 ∧ s < 60 := by
  unfold parseClock at hp
  split at hp
  · cases hp
  · rename_i hour v1 _
    split at hp
    · cases hp
    · rename_i hh
      split at hp
      · cases hp
      · rename_i v2 _
        split at hp
        · cases hp
        · rename_i mi2 v3 _
          split at hp
          · cases hp
          · rename_i hmi
            split at hp
            · cases hp
            · rename_i v4 _
              split at hp
              · cases hp
              · rename_i sec v5 _
                split at hp
                · cases hp
                · rename_i hs
                  cases hpf : parseFraction v5 with
                  | none => simp [hpf] at hp
                  | some q =>
                    simp only [hpf, Option.map_some', Option.some.injEq, Prod.mk.injEq] at hp
                    obtain ⟨⟨rfl, rfl, rfl, _⟩, _⟩ := hp
                    omega

theorem parseZone_ne_absent (v r : List Char) (z : zoneField)
    (hp : parseZone v = some (z, r)) : z ≠ zoneField.absent := by
  unfold parseZone at hp
  split at hp
  · cases hp; simp
  · split at hp
    · cases hp
    · split at hp
      · split at hp
        · cases hp
        · split at hp
          · cases hp; simp
          · split at hp
            · cases hp; simp
            · cases hp
      · cases hp
  · cases hp

/-- What a successful field pass guarantees about the fields. -/
theorem parseFields_bounds (layout : Layout) (v : List Char) (f : parsedFields)
    (hp : parseFields layout v = some f) :
    1 ≤ f.month ∧ f.month ≤ 12 ∧ 1 ≤ f.day ∧ f.day ≤ daysIn f.month f.year ∧
    f.hour < 24 ∧ f.min < 60 ∧ f.sec < 60 ∧
    (layout.hasClock = false → f.hour = 0 ∧ f.min = 0 ∧ f.sec = 0 ∧ f.nsec = 0) ∧
    (layout.hasZone = true → f.zone ≠ zoneField.absent) ∧
    (layout.hasZone = false → f.zone = zoneField.absent) := by
  unfold parseFields at hp
  split at hp
  · cases hp
  · rename_i year month day v1 hdate
    have hmonth : 1 ≤ month ∧ month ≤ 12 := by
      unfold parseDate at hdate
      split at hdate
      · cases hdate
      · split at hdate
        · cases hdate
        · split at hdate
          · cases hdate
          · split at hdate
            · cases hdate
            · rename_i hm
              split at hdate
              · cases hdate
              · simp at hdate
                obtain ⟨a, _, _, rfl, _⟩ := hdate
                omega
    simp only at hp
    split at hp
    · cases hp
    · rename_i hour mi sec nsec v3 hclock
      have hcl : hour < 24 ∧ mi < 60 ∧ sec < 60 ∧
          (layout.hasClock = false → hour = 0 ∧ mi = 0 ∧ sec = 0 ∧ nsec = 0) := by
        by_cases hc : layout.hasClock = true
        · simp only [hc, if_true] at hclock
          split at hclock
          · cases hclock
          · obtain ⟨a, b, c⟩ := parseClock_bounds _ _ _ _ _ _ hclock
            exact ⟨a, b, c, by simp [hc]⟩
        · simp only [hc, if_false, Option.some.injEq, Prod.mk.injEq] at hclock
          obtain ⟨⟨rfl, rfl, rfl, rfl⟩, _⟩ := hclock
          simp
      split at hp
      · cases hp
      · rename_i z v4 hzone
        split at hp
        · cases hp
        · split at hp
          · cases hp
          · rename_i hday
            cases hp
            simp only
            refine ⟨hmonth.1, hmonth.2, by omega, by omega, hcl.1, hcl.2.1, hcl.2.2.1, hcl.2.2.2,
              ?_, ?_⟩
            · intro hz
              simp only [hz, if_true] at hzone
              exact parseZone_ne_absent _ _ _ hzone
            · intro hz
              simp only [hz, Bool.false_eq_true, if_false, Option.some.injEq, Prod.mk.injEq] at hzone
              exact hzone.1.symm

theorem offsetAt_UTC (x : Int) : UTC.offsetAt x = 0 := by
  simp [Location.offsetAt, Location.lookup, UTC, lookupFrom]

theorem offsetAt_FixedZone (name : String) (o x : Int) : (FixedZone name o).offsetAt x = o := by
  simp [Location.offsetAt, Location.lookup, FixedZone, lookupFrom]

/-- What `time.Parse` returns, in terms of the fields read: the instant is the written
wall-clock reading less the written offset, and the location shows that offset. -/
theorem Parse_fields (db : TZData) (layout : Layout) (value : String) :
    (parseFields layout value.data = none → Parse db layout value = none) ∧
    (∀ f, parseFields layout value.data = some f →
      ∃ t, Parse db layout value = some t ∧ t.nsec = f.nsec ∧
        t.sec = wallSeconds f.year f.month f.day f.hour f.min f.sec - writtenOffset f.zone ∧
        t.loc.offsetAt t.sec = writtenOffset f.zone ∧
        t.wall = wallSeconds f.year f.month f.day f.hour f.min f.sec) := by
  constructor
  · intro h
    simp [Parse, parse, h]
  · intro f h
    simp only [Parse, parse, h]
    cases hz : f.zone with
    | absent =>
      refine ⟨_, rfl, rfl, ?_, ?_, ?_⟩
      · simp [Date, dateOffset_UTC, writtenOffset]
      · simp [Date, offsetAt_UTC, writtenOffset]
      · simp [Time.wall, Date, dateOffset_UTC, offsetAt_UTC]
    | utc =>
      refine ⟨_, rfl, rfl, ?_, ?_, ?_⟩
      · simp [Date, dateOffset_UTC, writtenOffset]
      · simp [Date, offsetAt_UTC, writtenOffset]
      · simp [Time.wall, Date, dateOffset_UTC, offsetAt_UTC]
    | offset o =>
      have hloc : (if db.localZone.offsetAt
            ((Date f.year f.month f.day f.hour f.min f.sec f.nsec UTC).sec - o) = o
          then db.localZone else FixedZone "" o).offsetAt
            ((Date f.year f.month f.day f.hour f.min f.sec f.nsec UTC).sec - o) = o := by
        split
        · assumption
        · exact offsetAt_FixedZone _ _ _
      refine ⟨_, rfl, rfl, ?_, ?_, ?_⟩
      · simp [Date, dateOffset_UTC, writtenOffset]
      · simp only [writtenOffset]
        exact hloc
      · simp only [Time.wall, hloc]
        simp [Date, dateOffset_UTC]

/-- The weekday of a time whose wall clock shows given in-range fields is the weekday
of the date shown, by Zeller's congruence. -/
theorem Weekday_of_wall (t : Time) (y : Int) (m d h mi s : Nat) (hm1 : 1 ≤ m) (hm2 : m ≤ 12)
    (hh : h < 24) (hmi : mi < 60) (hs : s < 60) (hw : t.wall = wallSeconds y m d h mi s) :
    t.Weekday = zellerWeekday y m d := by
  obtain ⟨e1, _⟩ := clock_of_wall (wallSeconds y m d h mi s) (daysFromCivil y m d) h mi s
    hh hmi hs rfl
  rw [Time.Weekday, hw, e1]
  exact zellerWeekday_eq y m d hm1 hm2

theorem inOwnZone_blank (db : TZData) (tz : String) (t : Time) (h : TrimSpace tz = "") :
    inOwnZone db tz t = t := by
  simp [inOwnZone, loadEventLocation_blank db tz h]

/-- The weekday of an offset-qualified instant on a boundary without zone hint. -/
theorem dayOfWeek_timestamp (db : TZData) (b : EventDateTime) (f : parsedFields)
    (hz : TrimSpace b.TimeZone = "")
    (hp : parseFields Layout.RFC3339 (TrimSpace b.DateTime).data = some f) :
    ∃ t, Parse db Layout.RFC3339 (TrimSpace b.DateTime) = some t ∧
      t.sec = wallSeconds f.year f.month f.day f.hour f.min f.sec - writtenOffset f.zone ∧
      t.loc.offsetAt t.sec = writtenOffset f.zone ∧
      dayOfWeekFromEventDateTime db (some b) = weekdayString t.Weekday ∧
      t.Weekday = zellerWeekday f.year f.month f.day := by
  obtain ⟨t, ht, _, hsec, hoff, hwall⟩ := (Parse_fields db Layout.RFC3339 _).2 f hp
  obtain ⟨b1, b2, _, _, b5, b6, b7, _⟩ := parseFields_bounds _ _ _ hp
  refine ⟨t, ht, hsec, hoff, ?_, Weekday_of_wall t _ _ _ _ _ _ b1 b2 b5 b6 b7 hwall⟩
  rw [dayOfWeek_cases, parseEventTime_of_parse db _ _ t ht, inOwnZone_blank db _ _ hz]

/-- The weekday of a date on a boundary without zone hint whose instant does not parse. -/
theorem dayOfWeek_date (db : TZData) (b : EventDateTime) (f : parsedFields)
    (hz : TrimSpace b.TimeZone = "")
    (ht : parseEventTime db b.DateTime b.TimeZone = none)
    (hp : parseFields Layout.dateOnly (TrimSpace b.Date).data = some f) :
    dayOfWeekFromEventDateTime db (some b) = weekdayString (zellerWeekday f.year f.month f.day) := by
  obtain ⟨t, hpt, _, _, _, hwall⟩ := (Parse_fields db Layout.dateOnly _).2 f hp
  obtain ⟨b1, b2, _, _, b5, b6, b7, _⟩ := parseFields_bounds _ _ _ hp
  have hne : TrimSpace b.Date ≠ "" := by
    intro h
    rw [h] at hp
    cases hp
  have hd : parseEventDate db b.Date b.TimeZone = some t := by
    simp [parseEventDate, hne, loadEventLocation_blank db _ hz, hpt]
  rw [dayOfWeek_cases, ht, hd]
  simp only
  rw [Weekday_of_wall t _ _ _ _ _ _ b1 b2 b5 b6 b7 hwall]

/-- Where the two date paths agree: the bare date parses under a hint exactly when it
parses without one, and the weekdays are equal whenever midnight of that date exists
in the hint's zone (the offset `Date` subtracted is in force at the instant returned). -/
theorem parseEventDate_paths (db : TZData) (d tz : String) (l : Location)
    (hl : loadEventLocation db tz = some l) :
    (parseEventDate db d tz = none ↔ parseEventDate db d "" = none) ∧
    (∀ t1 t2, parseEventDate db d tz = some t1 → parseEventDate db d "" = some t2 →
      l.offsetAt t1.sec = dateOffset l t2.sec → t1.Weekday = t2.Weekday) := by
  have hb : loadEventLocation db "" = none := by
    simp [loadEventLocation, TrimSpace_empty]
  by_cases hne : TrimSpace d = ""
  · simp [parseEventDate, hne]
  · cases hp : parseFields Layout.dateOnly (TrimSpace d).data with
    | none =>
      simp [parseEventDate, hne, hl, hb, ParseInLocation, Parse, parse, hp]
    | some f =>
      obtain ⟨_, _, _, _, _, _, _, hclock, _, hz⟩ := parseFields_bounds _ _ _ hp
      have hz2 := hz rfl
      obtain ⟨h0, m0, s0, n0⟩ := hclock rfl
      have e1 : parseEventDate db d tz = some (Date f.year f.month f.day 0 0 0 0 l) := by
        simp [parseEventDate, hne, hl, ParseInLocation, parse, hp, hz2, h0, m0, s0, n0]
      have e2 : parseEventDate db d "" = some (Date f.year f.month f.day 0 0 0 0 UTC) := by
        simp [parseEventDate, hne, hb, Parse, parse, hp, hz2, h0, m0, s0, n0]
      rw [e1, e2]
      refine ⟨by simp, ?_⟩
      intro t1 t2 h1 h2 hc
      cases h1
      cases h2
      simp only [Date, dateOffset_UTC, sub_zero] at hc ⊢
      simp only [Time.Weekday, Time.wall, hc, offsetAt_UTC]
      congr 2
      omega

theorem endsWithZone_cons (c : Char) (rest : List Char) (h : 6 ≤ rest.length) :
    endsWithZone (c :: rest) = endsWithZone rest := by
  match rest, h with
  | a :: b :: k :: d :: e :: g :: tl, _ => simp [endsWithZone]

theorem endsWithZone_false (l : List Char)
    (h : ∀ x ∈ l, x ≠ 'Z' ∧ x ≠ '+' ∧ x ≠ '-') : endsWithZone l = false := by
  induction l with
  | nil => rfl
  | cons c rest ih =>
    have hc := h c (List.mem_cons_self _ _)
    have hr := ih (fun x hx => h x (List.mem_cons_of_mem _ hx))
    unfold endsWithZone
    simp only [hr, Bool.or_false, Bool.or_eq_false_iff, Bool.and_eq_false_imp]
    constructor
    · intro _
      simp [hc.1]
    · split <;> simp [hc.2.1, hc.2.2]

theorem getnum_shape (s : List Char) (fixed : Bool) (n : Nat) (r : List Char)
    (h : getnum s fixed = some (n, r)) :
    (∃ c0, s = c0 :: r ∧ isDigit c0 = true) ∨
    (∃ c0 c1, s = c0 :: c1 :: r ∧ isDigit c0 = true ∧ isDigit c1 = true) := by
  unfold getnum at h
  split at h
  · cases h
  · rename_i c0
    split at h
    · rename_i hc
      simp only [Option.some.injEq, Prod.mk.injEq] at h
      simp only [Bool.and_eq_true] at hc
      exact Or.inl ⟨c0, by rw [← h.2], hc.1⟩
    · cases h
  · rename_i c0 c1 rest
    split at h
    · cases h
    · rename_i h0
      split at h
      · rename_i h1
        split at h
        · cases h
        · simp only [Option.some.injEq, Prod.mk.injEq] at h
          exact Or.inl ⟨c0, by rw [← h.2], by simpa using h0⟩
      · rename_i h1
        simp only [Option.some.injEq, Prod.mk.injEq] at h
        exact Or.inr ⟨c0, c1, by rw [← h.2], by simpa using h0, by simpa using h1⟩

theorem getnum_fixed_shape (s : List Char) (n : Nat) (r : List Char)
    (h : getnum s true = some (n, r)) :
    ∃ c0 c1, s = c0 :: c1 :: r ∧ isDigit c0 = true ∧ isDigit c1 = true := by
  unfold getnum at h
  split at h
  · cases h
  · simp at h
  · rename_i c0 c1 rest
    split at h
    · cases h
    · rename_i h0
      split at h
      · simp at h
      · rename_i h1
        simp only [Option.some.injEq, Prod.mk.injEq] at h
        exact ⟨c0, c1, by rw [← h.2], by simpa using h0, by simpa using h1⟩

theorem skip_shape (v : List Char) (c : Char) (r : List Char) (h : skip v c = some r) :
    v = c :: r := by
  unfold skip at h
  split at h
  · rename_i x rest
    split at h
    · rename_i hx
      simp only [Option.some.injEq] at h
      simp only [beq_iff_eq] at hx
      rw [hx, h]
    · cases h
  · cases h

theorem parseFraction_nil (v : List Char) (ns : Nat)
    (h : parseFraction v = some (ns, [])) : ∀ x ∈ v, clockChar x := by
  unfold parseFraction at h
  split at h
  · rename_i c d rest
    split at h
    · rename_i hcd
      simp only [Bool.and_eq_true] at hcd
      simp only [Option.map_eq_some', Prod.mk.injEq] at h
      obtain ⟨_, _, _, hdrop⟩ := h
      have hlen : rest.length ≤ (rest.takeWhile isDigit).length := by
        have := congrArg List.length hdrop
        simp only [List.length_drop, List.length_cons, List.length_nil] at this
        omega
      have htw : rest.takeWhile isDigit = rest := by
        have hs : (rest.takeWhile isDigit).Sublist rest := List.takeWhile_sublist _
        exact hs.eq_of_length_le hlen
      have hall := List.takeWhile_eq_self_iff.mp htw
      intro x hx
      simp only [List.mem_cons] at hx
      rcases hx with rfl | rfl | hx
      · exact Or.inr (Or.inr hcd.1)
      · exact Or.inl hcd.2
      · exact Or.inl (hall x hx)
    · simp only [Option.some.injEq, Prod.mk.injEq] at h
      cases h.2
  · simp only [Option.some.injEq, Prod.mk.injEq] at h
    rw [h.2]
    simp

theorem clockChar_not_zone (x : Char) (h : clockChar x) : x ≠ 'Z' ∧ x ≠ '+' ∧ x ≠ '-' := by
  rcases h with h | h | h
  · exact ⟨isDigit_ne x _ h (by decide), isDigit_ne x _ h (by decide), isDigit_ne x _ h (by decide)⟩
  · subst h
    decide
  · simp only [commaOrPeriod, Bool.or_eq_true, beq_iff_eq] at h
    rcases h with h | h <;> subst h <;> decide

theorem parseClock_chars (v : List Char) (r : Nat × Nat × Nat × Nat)
    (hp : parseClock v = some (r, [])) : 7 ≤ v.length ∧ ∀ x ∈ v, clockChar x := by
  unfold parseClock at hp
  split at hp
  · cases hp
  · rename_i hour v1 hg1
    split at hp
    · cases hp
    · split at hp
      · cases hp
      · rename_i v2 hs1
        split at hp
        · cases hp
        · rename_i mi2 v3 hg2
          split at hp
          · cases hp
          · split at hp
            · cases hp
            · rename_i v4 hs2
              split at hp
              · cases hp
              · rename_i sec v5 hg3
                split at hp
                · cases hp
                · simp only [Option.map_eq_some', Prod.mk.injEq] at hp
                  obtain ⟨⟨ns, rest⟩, hf, _, hrest⟩ := hp
                  simp only at hrest
                  subst hrest
                  have hfr := parseFraction_nil v5 ns hf
                  obtain ⟨a1, a2, e3, da1, da2⟩ := getnum_fixed_shape _ _ _ hg3
                  have e4 := skip_shape _ _ _ hs2
                  obtain ⟨b1, b2, e2, db1, db2⟩ := getnum_fixed_shape _ _ _ hg2
                  have e1 := skip_shape _ _ _ hs1
                  have hv1 : 6 ≤ v1.length ∧ ∀ x ∈ v1, clockChar x := by
                    rw [e1, e2, e4, e3]
                    refine ⟨by simp, ?_⟩
                    intro x hx
                    simp only [List.mem_cons] at hx
                    rcases hx with rfl | rfl | rfl | rfl | rfl | rfl | hx
                    · exact Or.inr (Or.inl rfl)
                    · exact Or.inl db1
                    · exact Or.inl db2
                    · exact Or.inr (Or.inl rfl)
                    · exact Or.inl da1
                    · exact Or.inl da2
                    · exact hfr x hx
                  rcases getnum_shape _ _ _ _ hg1 with ⟨c0, e0, d0⟩ | ⟨c0, c1, e0, d0, d1⟩
                  · rw [e0]
                    refine ⟨by simp; omega, ?_⟩
                    intro x hx
                    simp only [List.mem_cons] at hx
                    rcases hx with rfl | hx
                    · exact Or.inl d0
                    · exact hv1.2 x hx
                  · rw [e0]
                    refine ⟨by simp; omega, ?_⟩
                    intro x hx
                    simp only [List.mem_cons] at hx
                    rcases hx with rfl | rfl | hx
                    · exact Or.inl d0
                    · exact Or.inl d1
                    · exact hv1.2 x hx

theorem parseDate_shape (v : List Char) (r : Int × Nat × Nat) (v1 : List Char)
    (hp : parseDate v = some (r, v1)) :
    ∃ a b c d e f g h i j : Char, v = a :: b :: c :: d :: e :: f :: g :: h :: i :: j :: v1 := by
  unfold parseDate at hp
  split at hp
  · cases hp
  · rename_i year w1 hy
    split at hp
    · cases hp
    · rename_i w2 hs1
      split at hp
      · cases hp
      · rename_i month w3 hg1
        split at hp
        · cases hp
        · split at hp
          · cases hp
          · rename_i w4 hs2
            simp only [Option.map_eq_some', Prod.mk.injEq] at hp
            obtain ⟨⟨dd, rest⟩, hg2, _, hrest⟩ := hp
            simp only at hrest
            subst hrest
            obtain ⟨d1, d2, e4, _, _⟩ := getnum_fixed_shape _ _ _ hg2
            have e3 := skip_shape _ _ _ hs2
            obtain ⟨m1, m2, e2, _, _⟩ := getnum_fixed_shape _ _ _ hg1
            have e1 := skip_shape _ _ _ hs1
            unfold parseYear at hy
            split at hy
            · rename_i y1 y2 y3 y4 rest4
              split at hy
              · simp only [Option.map_eq_some', Prod.mk.injEq] at hy
                obtain ⟨_, _, _, hr⟩ := hy
                subst hr
                exact ⟨y1, y2, y3, y4, '-', m1, m2, '-', d1, d2, by rw [e1, e2, e3, e4]⟩
              · cases hy
            · cases hy

/-- The floating layout rejects every value that ends with a zone designator. -/
theorem dateTime_rejects_zone (v : List Char) (h : endsWithZone v = true) :
    parseFields Layout.dateTime v = none := by
  cases hp : parseFields Layout.dateTime v with
  | none => rfl
  | some f =>
    exfalso
    unfold parseFields at hp
    split at hp
    · cases hp
    · rename_i year month day v1 hdate
      simp only [Layout.hasClock, Layout.hasZone, if_true, Bool.false_eq_true, if_false] at hp
      split at hp
      · cases hp
      · rename_i hour mi sec nsec v3 hclock
        split at hclock
        · cases hclock
        · rename_i v2 hskip
          split at hp
          · cases hp
          · rename_i hv3
            simp only [ne_eq, Decidable.not_not] at hv3
            subst hv3
            obtain ⟨a, b, c, d, e, g, i, j, k, l, hv⟩ := parseDate_shape _ _ _ hdate
            have hT := skip_shape _ _ _ hskip
            obtain ⟨hlen, hch⟩ := parseClock_chars _ _ hclock
            have hz : endsWithZone v2 = false :=
              endsWithZone_false v2 (fun x hx => clockChar_not_zone x (hch x hx))
            rw [hv, hT] at h
            rw [endsWithZone_cons _ _ (by simp), endsWithZone_cons _ _ (by simp),
              endsWithZone_cons _ _ (by simp), endsWithZone_cons _ _ (by simp),
              endsWithZone_cons _ _ (by simp), endsWithZone_cons _ _ (by simp; omega),
              endsWithZone_cons _ _ (by simp; omega), endsWithZone_cons _ _ (by simp; omega),
              endsWithZone_cons _ _ (by simp; omega), endsWithZone_cons _ _ (by simp; omega),
              endsWithZone_cons _ _ (by omega), hz] at h
            cases h

theorem appendEventRecords_eq (db : TZData) (c : String) (items : List (Option Event)) :
    ∀ (all res : List eventWithCalendar), appendEventRecords db c all items = some res →
      res = all ++ items.reduceOption.map (calendarRecord db c) := by
  induction items with
  | nil =>
    intro all res h
    simp only [appendEventRecords, Option.some.injEq] at h
    simp [h]
  | cons item rest ih =>
    intro all res h
    cases item with
    | none => simp [appendEventRecords] at h
    | some e =>
      simp only [appendEventRecords] at h
      have := ih _ _ h
      rw [this]
      simp [List.reduceOption_cons_of_some, calendarRecord]

theorem appendEventRecords_some (db : TZData) (c : String) (items : List (Option Event)) :
    ∀ (all : List eventWithCalendar), items.all Option.isSome = true →
      appendEventRecords db c all items =
        some (all ++ items.reduceOption.map (calendarRecord db c)) := by
  induction items with
  | nil =>
    intro all _
    simp [appendEventRecords]
  | cons item rest ih =>
    intro all h
    cases item with
    | none => simp at h
    | some e =>
      have hr : rest.all Option.isSome = true := by
        simp only [List.all_cons, Bool.and_eq_true] at h
        exact h.2
      simp only [appendEventRecords]
      rw [ih _ hr]
      simp [List.reduceOption_cons_of_some, calendarRecord]

theorem appendEventRecords_none (db : TZData) (c : String) (items : List (Option Event)) :
    ∀ (all : List eventWithCalendar), none ∈ items → appendEventRecords db c all items = none := by
  induction items with
  | nil =>
    intro all h
    simp at h
  | cons item rest ih =>
    intro all h
    cases item with
    | none => simp [appendEventRecords]
    | some e =>
      have hr : none ∈ rest := by simpa using h
      simp only [appendEventRecords]
      exact ih _ hr

theorem appendCalendarEvents_fst (db : TZData) (acc res : List eventWithCalendar × List String)
    (cal : calendarFetch) (h : appendCalendarEvents db acc cal = some res) :
    res.1 = acc.1 ++ calendarRecords db cal := by
  unfold appendCalendarEvents at h
  unfold calendarRecords
  cases hc : cal.events with
  | error err =>
    simp only [hc, Option.some.injEq] at h
    simp [← h]
  | ok items =>
    simp only [hc] at h
    cases ha : appendEventRecords db cal.Id acc.1 items with
    | none => simp [ha] at h
    | some all =>
      simp only [ha, Option.some.injEq] at h
      rw [← h]
      exact appendEventRecords_eq db cal.Id items _ _ ha

theorem appendCalendarEvents_some (db : TZData) (acc : List eventWithCalendar × List String)
    (cal : calendarFetch) (h : nullFree cal = true) :
    ∃ res, appendCalendarEvents db acc cal = some res := by
  unfold appendCalendarEvents
  cases hc : cal.events with
  | error err => exact ⟨_, rfl⟩
  | ok items =>
    have hi : items.all Option.isSome = true := by simpa [nullFree, hc] using h
    simp only [appendEventRecords_some db cal.Id items acc.1 hi]
    exact ⟨_, rfl⟩

theorem aggregate_records (db : TZData) (calendars : List calendarFetch) :
    ∀ (acc res : List eventWithCalendar × List String),
      aggregateCalendars db acc calendars = some res →
      res.1 = acc.1 ++ calendars.flatMap (calendarRecords db) := by
  induction calendars with
  | nil =>
    intro acc res h
    simp only [aggregateCalendars, Option.some.injEq] at h
    simp [h]
  | cons cal rest ih =>
    intro acc res h
    simp only [aggregateCalendars] at h
    cases ha : appendCalendarEvents db acc cal with
    | none => simp [ha] at h
    | some acc1 =>
      simp only [ha] at h
      rw [ih _ _ h, appendCalendarEvents_fst db acc acc1 cal ha, List.flatMap_cons,
        List.append_assoc]

theorem aggregate_some (db : TZData) (calendars : List calendarFetch) :
    ∀ (acc : List eventWithCalendar × List String),
      (∀ cal ∈ calendars, nullFree cal = true) →
      ∃ res, aggregateCalendars db acc calendars = some res := by
  induction calendars with
  | nil =>
    intro acc _
    exact ⟨acc, rfl⟩
  | cons cal rest ih =>
    intro acc h
    obtain ⟨acc1, h1⟩ := appendCalendarEvents_some db acc cal (h cal (by simp))
    obtain ⟨res, h2⟩ := ih acc1 (fun c hc => h c (by simp [hc]))
    exact ⟨res, by simp only [aggregateCalendars, h1, h2]⟩

/-- The slice `all` holds, calendar by calendar, the records of the fetched pages. -/
theorem listAll_records (db : TZData) (calendars : List calendarFetch)
    (res : List eventWithCalendar × List String)
    (h : listAllCalendarsEvents db calendars = some res) :
    res.1 = calendars.flatMap (calendarRecords db) := by
  have := aggregate_records db calendars ([], []) res h
  simpa using this

/-- The loop ends without panic when no fetched page holds a nil item. -/
theorem listAll_some (db : TZData) (calendars : List calendarFetch)
    (h : ∀ cal ∈ calendars, nullFree cal = true) :
    ∃ res, listAllCalendarsEvents db calendars = some res :=
  aggregate_some db calendars ([], []) h

theorem wrap_no_hint (db : TZData) (e : Event) (h : eventTimezone (some e) = "") :
    wrapEventWithDaysWithTimezone db (some e) "" none =
      some { Event := e
             StartDayOfWeek := (eventDaysOfWeek db (some e)).1
             EndDayOfWeek := (eventDaysOfWeek db (some e)).2
             Timezone := ""
             EventTimezone := ""
             StartLocal := formatEventLocal db e.Start none
             EndLocal := formatEventLocal db e.End none } := by
  simp [wrapEventWithDaysWithTimezone, TrimSpace_empty, h]

theorem calendarRecord_spec (db : TZData) (c : String) (e : Event) :
    ∃ v, wrapEventWithDaysWithTimezone db (some (calendarRecord db c e).Event) "" none = some v ∧
      (calendarRecord db c e).StartDayOfWeek = v.StartDayOfWeek ∧
      (calendarRecord db c e).EndDayOfWeek = v.EndDayOfWeek ∧
      (calendarRecord db c e).Timezone = eventTimezone (some (calendarRecord db c e).Event) ∧
      (calendarRecord db c e).StartLocal = formatEventLocal db (calendarRecord db c e).Event.Start none ∧
      (calendarRecord db c e).EndLocal = formatEventLocal db (calendarRecord db c e).Event.End none ∧
      (eventTimezone (some (calendarRecord db c e).Event) = "" →
        (calendarRecord db c e).Timezone = v.Timezone ∧
        (calendarRecord db c e).StartLocal = v.StartLocal ∧
        (calendarRecord db c e).EndLocal = v.EndLocal) := by
  have he : (calendarRecord db c e).Event = e := rfl
  rw [he]
  by_cases hz : eventTimezone (some e) = ""
  · rw [wrap_no_hint db e hz]
    exact ⟨_, rfl, rfl, rfl, rfl, rfl, rfl, fun _ => ⟨hz, rfl, rfl⟩⟩
  · exact ⟨_, rfl, rfl, rfl, rfl, rfl, rfl, fun h => absurd h hz⟩

/-! ## Auxiliary facts: printed lines -/

theorem takeWhile_tab (l v : List Char) (h : '\t' ∉ l) :
    (l ++ '\t' :: v).takeWhile (fun c => c != '\t') = l := by
  induction l with
  | nil => simp
  | cons a as ih =>
    have ha : a ≠ '\t' := fun e => h (by simp [e])
    have has : '\t' ∉ as := fun e => h (by simp [e])
    have hb : (a != '\t') = true := by simp [ha]
    simp [List.takeWhile, hb, ih has]

theorem dropWhile_tab (l v : List Char) (h : '\t' ∉ l) :
    (l ++ '\t' :: v).dropWhile (fun c => c != '\t') = '\t' :: v := by
  induction l with
  | nil => simp
  | cons a as ih =>
    have ha : a ≠ '\t' := fun e => h (by simp [e])
    have has : '\t' ∉ as := fun e => h (by simp [e])
    have hb : (a != '\t') = true := by simp [ha]
    simp [List.dropWhile, hb, ih has]

theorem tabLine_data (l v : String) : (tabLine l v).data = l.data ++ '\t' :: v.data := by
  simp [tabLine, String.data_append]

theorem lineLabel_tabLine (l v : String) (h : '\t' ∉ l.data) : lineLabel (tabLine l v) = l := by
  simp [lineLabel, tabLine_data, takeWhile_tab _ _ h]

theorem lineValue_tabLine (l v : String) (h : '\t' ∉ l.data) : lineValue (tabLine l v) = v := by
  simp [lineValue, tabLine_data, dropWhile_tab _ _ h]

theorem linesWith_append (lbl : String) (a b : List String) :
    linesWith lbl (a ++ b) = linesWith lbl a ++ linesWith lbl b := by
  simp [linesWith]

theorem linesWith_tab (lbl l v : String) (h : '\t' ∉ l.data) :
    linesWith lbl [tabLine l v] = if l = lbl then [v] else [] := by
  by_cases e : l = lbl
  · subst e
    simp [linesWith, List.filter, lineLabel_tabLine l v h, lineValue_tabLine l v h]
  · simp [linesWith, List.filter, lineLabel_tabLine l v h, e]

theorem linesWith_none (lbl : String) (out : List String)
    (h : ∀ x ∈ out, lineLabel x ≠ lbl) : linesWith lbl out = [] := by
  simp only [linesWith, List.map_eq_nil_iff, List.filter_eq_nil_iff]
  intro x hx
  simpa using h x hx

theorem tabLine_label_mem (l v : String) (h : '\t' ∉ l.data) (hm : l ∈ detailLabels) :
    lineLabel (tabLine l v) ∈ detailLabels := by
  rw [lineLabel_tabLine l v h]
  exact hm

theorem attendeeLines_labels (as : List (Option EventAttendee)) :
    ∀ x ∈ attendeeLines as, lineLabel x ∈ detailLabels := by
  intro x hx
  simp only [attendeeLines, List.mem_filterMap] at hx
  obtain ⟨a, _, ha⟩ := hx
  cases a with
  | none => simp at ha
  | some a =>
    simp only at ha
    split at ha
    · simp at ha
    · simp only [Option.some.injEq] at ha
      subst ha
      exact tabLine_label_mem _ _ (by decide) (by decide)

theorem videoLinkLines_labels (eps : List EntryPoint) :
    ∀ x ∈ videoLinkLines eps, lineLabel x ∈ detailLabels := by
  intro x hx
  simp only [videoLinkLines, List.mem_filterMap] at hx
  obtain ⟨a, _, ha⟩ := hx
  split at ha
  · simp only [Option.some.injEq] at ha
    subst ha
    exact tabLine_label_mem _ _ (by decide) (by decide)
  · simp at ha

theorem attachmentLines_labels (as : List (Option EventAttachment)) :
    ∀ x ∈ attachmentLines as, lineLabel x ∈ detailLabels := by
  intro x hx
  simp only [attachmentLines, List.mem_filterMap] at hx
  obtain ⟨a, _, ha⟩ := hx
  cases a with
  | none => simp at ha
  | some a =>
    simp only [Option.some.injEq] at ha
    subst ha
    exact tabLine_label_mem _ _ (by decide) (by decide)

theorem ite_line_labels (c : Prop) [Decidable c] (l v : String) (h : '\t' ∉ l.data)
    (hm : l ∈ detailLabels) :
    ∀ x ∈ (if c then [tabLine l v] else []), lineLabel x ∈ detailLabels := by
  intro x hx
  split at hx
  · simp only [List.mem_singleton] at hx
    subst hx
    exact tabLine_label_mem l v h hm
  · simp at hx

theorem textLines_labels (ev : Event) : ∀ x ∈ textLines ev, lineLabel x ∈ detailLabels := by
  intro x hx
  simp only [textLines, List.mem_append] at hx
  rcases hx with (((hx | hx) | hx) | hx) | hx
  · exact ite_line_labels _ _ _ (by decide) (by decide) x hx
  · exact ite_line_labels _ _ _ (by decide) (by decide) x hx
  · exact ite_line_labels _ _ _ (by decide) (by decide) x hx
  · exact ite_line_labels _ _ _ (by decide) (by decide) x hx
  · exact ite_line_labels _ _ _ (by decide) (by decide) x hx

theorem guestLines_labels (ev : Event) : ∀ x ∈ guestLines ev, lineLabel x ∈ detailLabels := by
  intro x hx
  simp only [guestLines, List.mem_append] at hx
  rcases hx with ((hx | hx) | hx) | hx
  · split at hx
    · exact attendeeLines_labels _ x hx
    · simp at hx
  · exact ite_line_labels _ _ _ (by decide) (by decide) x hx
  · exact ite_line_labels _ _ _ (by decide) (by decide) x hx
  · exact ite_line_labels _ _ _ (by decide) (by decide) x hx

theorem conferenceLines_labels (cd : Option ConferenceData) :
    ∀ x ∈ conferenceLines cd, lineLabel x ∈ detailLabels := by
  intro x hx
  cases cd with
  | none => simp [conferenceLines] at hx
  | some cd =>
    simp only [conferenceLines] at hx
    split at hx
    · exact videoLinkLines_labels _ x hx
    · simp at hx

theorem reminderLines_labels (r : Option EventReminders) :
    ∀ x ∈ reminderLines r, lineLabel x ∈ detailLabels := by
  intro x hx
  cases r with
  | none => simp [reminderLines] at hx
  | some r =>
    simp only [reminderLines] at hx
    split at hx
    · simp only [List.mem_singleton] at hx
      subst hx
      exact tabLine_label_mem _ _ (by decide) (by decide)
    · exact ite_line_labels _ _ _ (by decide) (by decide) x hx

theorem focusTimeLines_labels (p : Option EventFocusTimeProperties) :
    ∀ x ∈ focusTimeLines p, lineLabel x ∈ detailLabels := by
  intro x hx
  cases p with
  | none => simp [focusTimeLines] at hx
  | some p =>
    simp only [focusTimeLines, List.mem_append, List.mem_singleton] at hx
    rcases hx with hx | hx
    · subst hx
      exact tabLine_label_mem _ _ (by decide) (by decide)
    · exact ite_line_labels _ _ _ (by decide) (by decide) x hx

theorem outOfOfficeLines_labels (p : Option EventOutOfOfficeProperties) :
    ∀ x ∈ outOfOfficeLines p, lineLabel x ∈ detailLabels := by
  intro x hx
  cases p with
  | none => simp [outOfOfficeLines] at hx
  | some p =>
    simp only [outOfOfficeLines, List.mem_append, List.mem_singleton] at hx
    rcases hx with hx | hx
    · subst hx
      exact tabLine_label_mem _ _ (by decide) (by decide)
    · exact ite_line_labels _ _ _ (by decide) (by decide) x hx

theorem workingLocationLines_labels (p : Option EventWorkingLocationProperties) :
    ∀ x ∈ workingLocationLines p, lineLabel x ∈ detailLabels := by
  intro x hx
  cases p with
  | none => simp [workingLocationLines] at hx
  | some p =>
    simp only [workingLocationLines, List.mem_singleton] at hx
    subst hx
    exact tabLine_label_mem _ _ (by decide) (by decide)

theorem sourceLines_labels (p : Option EventSource) :
    ∀ x ∈ sourceLines p, lineLabel x ∈ detailLabels := by
  intro x hx
  cases p with
  | none => simp [sourceLines] at hx
  | some p =>
    simp only [sourceLines] at hx
    split at hx
    · split at hx
      · simp only [List.mem_singleton] at hx
        subst hx
        exact tabLine_label_mem _ _ (by decide) (by decide)
      · simp only [List.mem_singleton] at hx
        subst hx
        exact tabLine_label_mem _ _ (by decide) (by decide)
    · simp at hx

theorem detailLines_labels (ev : Event) : ∀ x ∈ detailLines ev, lineLabel x ∈ detailLabels := by
  intro x hx
  simp only [detailLines, List.mem_append] at hx
  rcases hx with ((((((((((hx | hx) | hx) | hx) | hx) | hx) | hx) | hx) | hx) | hx) | hx) | hx
  · exact textLines_labels ev x hx
  · exact guestLines_labels ev x hx
  · exact ite_line_labels _ _ _ (by decide) (by decide) x hx
  · exact conferenceLines_labels _ x hx
  · exact ite_line_labels _ _ _ (by decide) (by decide) x hx
  · exact reminderLines_labels _ x hx
  · split at hx
    · exact attachmentLines_labels _ x hx
    · simp at hx
  · exact focusTimeLines_labels _ x hx
  · exact outOfOfficeLines_labels _ x hx
  · exact workingLocationLines_labels _ x hx
  · exact sourceLines_labels _ x hx
  · exact ite_line_labels _ _ _ (by decide) (by decide) x hx

theorem linesWith_detail (lbl : String) (ev : Event) (h : lbl ∉ detailLabels) :
    linesWith lbl (detailLines ev) = [] :=
  linesWith_none lbl _ (fun x hx e => h (e ▸ detailLines_labels ev x hx))


/-! ## Auxiliary facts: the printed zone lines -/

theorem linesWith_nil (lbl : String) : linesWith lbl [] = [] := rfl

theorem linesWith_ite (lbl l v : String) (c : Prop) [Decidable c] (h : '\t' ∉ l.data) :
    linesWith lbl (if c then [tabLine l v] else []) = if c ∧ l = lbl then [v] else [] := by
  by_cases hc : c
  · simp [hc, linesWith_tab lbl l v h]
  · simp [hc, linesWith_nil]

theorem print_eq_view (db : TZData) (eventTypeDefault : String) (u : UI) (ev : Event)
    (calendarTimezone : String) (loc : Option Location) :
    ∃ v, wrapEventWithDaysWithTimezone db (some ev) calendarTimezone loc = some v ∧
      v.EventTimezone = (if eventTimezone (some ev) ≠ "" ∧ eventTimezone (some ev) ≠ v.Timezone
        then eventTimezone (some ev) else "") ∧
      printCalendarEventWithTimezone db eventTypeDefault (some u) (some ev) calendarTimezone loc =
        zoneLines eventTypeDefault ev v.Timezone (eventTimezone (some ev))
          (v.StartDayOfWeek, v.EndDayOfWeek) v.StartLocal v.EndLocal ++ detailLines ev :=
  ⟨_, rfl, rfl, rfl⟩

theorem linesWith_zoneLines (eventTypeDefault : String) (ev : Event) (tz evTz : String)
    (days : String × String) (startLocal endLocal : String) :
    let out := zoneLines eventTypeDefault ev tz evTz days startLocal endLocal
    linesWith "timezone" out = (if tz ≠ "" then [tz] else []) ∧
    linesWith "event-timezone" out = (if evTz ≠ "" ∧ evTz ≠ tz then [evTz] else []) ∧
    linesWith "start-day-of-week" out = (if days.1 ≠ "" then [days.1] else []) ∧
    linesWith "start-local" out = (if startLocal ≠ "" then [startLocal] else []) ∧
    linesWith "end-day-of-week" out = (if days.2 ≠ "" then [days.2] else []) ∧
    linesWith "end-local" out = (if endLocal ≠ "" then [endLocal] else []) := by
  have t1 : '\t' ∉ "id".data := by decide
  have t2 : '\t' ∉ "summary".data := by decide
  have t3 : '\t' ∉ "type".data := by decide
  have t4 : '\t' ∉ "timezone".data := by decide
  have t5 : '\t' ∉ "event-timezone".data := by decide
  have t6 : '\t' ∉ "start".data := by decide
  have t7 : '\t' ∉ "start-day-of-week".data := by decide
  have t8 : '\t' ∉ "start-local".data := by decide
  have t9 : '\t' ∉ "end".data := by decide
  have t10 : '\t' ∉ "end-day-of-week".data := by decide
  have t11 : '\t' ∉ "end-local".data := by decide
  have hcons : ∀ (lbl a : String) (as : List String),
      linesWith lbl (a :: as) = linesWith lbl [a] ++ linesWith lbl as :=
    fun lbl a as => linesWith_append lbl [a] as
  simp only [zoneLines, List.flatten_cons, List.flatten_nil, List.append_nil, linesWith_append,
    hcons _ (tabLine "id" ev.Id) [_],
    linesWith_ite _ _ _ _ t3, linesWith_ite _ _ _ _ t4, linesWith_ite _ _ _ _ t5,
    linesWith_ite _ _ _ _ t7, linesWith_ite _ _ _ _ t8, linesWith_ite _ _ _ _ t10,
    linesWith_ite _ _ _ _ t11, linesWith_tab _ _ _ t1, linesWith_tab _ _ _ t2,
    linesWith_tab _ _ _ t6, linesWith_tab _ _ _ t9]
  simp


/-! ## Auxiliary facts: the multi-calendar aggregate -/

theorem flatMap_fetched (db : TZData) (cals : List calendarFetch) :
    cals.flatMap (calendarRecords db) = (cals.filter fetched).flatMap (calendarRecords db) := by
  induction cals with
  | nil => rfl
  | cons cal rest ih =>
    cases he : cal.events with
    | error err =>
      have hf : fetched cal = false := by simp [fetched, he]
      have hr : calendarRecords db cal = [] := by simp [calendarRecords, he]
      simp [List.filter, hf, hr, ih]
    | ok items =>
      have hf : fetched cal = true := by simp [fetched, he]
      simp [List.filter, hf, ih]

theorem appendCalendarEvents_failed (db : TZData) (acc : List eventWithCalendar × List String)
    (cal : calendarFetch) (err : String) (he : cal.events = Except.error err) :
    appendCalendarEvents db acc cal =
      some (acc.1, acc.2 ++ ["calendar " ++ cal.Id ++ ": " ++ err]) := by
  simp [appendCalendarEvents, he]

/-- When no fetched page holds a nil item, the loop ends, the aggregate is the
concatenation, in calendar order and page order, of the records of the calendars whose
fetch succeeded, and the function returns nil or, for JSON output, what writing the
aggregate returns. -/
theorem listAll_skips_failed (db : TZData) (cals : List calendarFetch)
    (h : ∀ cal ∈ cals, nullFree cal = true) :
    ∃ res, listAllCalendarsEvents db cals = some res ∧
      res.1 = (cals.filter fetched).flatMap (calendarRecords db) ∧
      ∀ isJSON writeJSON, listAllCalendarsEventsReturn db cals isJSON writeJSON =
        some (if cals.length = 0 then none else if isJSON then writeJSON res.1 else none) := by
  obtain ⟨res, hres⟩ := listAll_some db cals h
  refine ⟨res, hres, ?_, ?_⟩
  · rw [listAll_records db cals res hres, flatMap_fetched]
  · intro isJSON writeJSON
    unfold listAllCalendarsEventsReturn
    rw [hres]
    by_cases hl : cals.length = 0 <;> cases isJSON <;> simp [hl]

/-- The fields of the records of a loop that ended: the weekdays are those of the
enriched view, `Timezone` is the event's own zone as written, `StartLocal` and
`EndLocal` are `formatEventLocal` with no location; the three coincide with the
fields of the enriched view when the event carries no zone hint. -/
theorem listAll_record_fields (db : TZData) (calendars : List calendarFetch)
    (res : List eventWithCalendar × List String)
    (h : listAllCalendarsEvents db calendars = some res) :
    ∀ r ∈ res.1,
      ∃ v, wrapEventWithDaysWithTimezone db (some r.Event) "" none = some v ∧
        r.StartDayOfWeek = v.StartDayOfWeek ∧ r.EndDayOfWeek = v.EndDayOfWeek ∧
        r.Timezone = eventTimezone (some r.Event) ∧
        r.StartLocal = formatEventLocal db r.Event.Start none ∧
        r.EndLocal = formatEventLocal db r.Event.End none ∧
        (eventTimezone (some r.Event) = "" →
          r.Timezone = v.Timezone ∧ r.StartLocal = v.StartLocal ∧ r.EndLocal = v.EndLocal) := by
  rw [listAll_records db calendars res h]
  intro r hr
  obtain ⟨cal, _, hr2⟩ := List.mem_flatMap.mp hr
  unfold calendarRecords at hr2
  cases hc : cal.events with
  | error err => simp [hc] at hr2
  | ok items =>
    simp only [hc, List.mem_map] at hr2
    obtain ⟨e, _, rfl⟩ := hr2
    exact calendarRecord_spec db cal.Id e


/-! ## Auxiliary facts: buffered reading -/

theorem fill_nil (b : bufReader) (hb : b.buf = []) (hc : b.rd.chunks = []) :
    b.fill = { buf := [], rd := b.rd, err := some readError.EOF } := by
  cases b with
  | mk buf rd err =>
    cases rd with
    | mk chunks =>
      simp only at hb hc
      subst hb hc
      simp [bufReader.fill, maxConsecutiveEmptyReads, fillLoop, Reader.Read]

theorem fill_cons (b : bufReader) (c : List Char) (rest : List (List Char)) (hb : b.buf = [])
    (hc : b.rd.chunks = c :: rest) (hne : c ≠ []) :
    b.fill = { buf := c.take defaultBufSize,
               rd := { chunks := if c.length ≤ defaultBufSize then rest
                                 else c.drop defaultBufSize :: rest },
               err := b.err } := by
  cases b with
  | mk buf rd err =>
    cases rd with
    | mk chunks =>
      simp only at hb hc
      subst hb hc
      have hpos : 0 < c.length := List.length_pos.mpr hne
      by_cases hl : c.length ≤ defaultBufSize
      · simp [bufReader.fill, maxConsecutiveEmptyReads, fillLoop, Reader.Read, hl, hpos,
          List.take_of_length_le hl]
      · have h2 : 0 < defaultBufSize := by decide
        simp [bufReader.fill, maxConsecutiveEmptyReads, fillLoop, Reader.Read, hl, hpos, h2]

theorem flatten_nil_of_steady (cs : List (List Char)) (h : [] ∉ cs)
    (hf : cs.flatten = []) : cs = [] := by
  cases cs with
  | nil => rfl
  | cons c rest =>
    exfalso
    simp only [List.flatten_cons, List.append_eq_nil] at hf
    exact h (by simp [hf.1])

theorem ReadByte_nil (b : bufReader) (he : b.err = none) (hst : b.rd.steady)
    (hs : b.stream = []) :
    b.ReadByte = some (Except.error readError.EOF, { buf := [], rd := b.rd, err := none }) := by
  have h1 : b.buf = [] ∧ b.rd.chunks.flatten = [] := by
    simpa [bufReader.stream, Reader.remaining] using hs
  have h2 : b.rd.chunks = [] := flatten_nil_of_steady _ hst h1.2
  have hf := fill_nil b h1.1 h2
  simp [bufReader.ReadByte, ReadByteLoop, h1.1, he, hf]

theorem ReadByte_cons (b : bufReader) (x : Char) (s : List Char) (he : b.err = none)
    (hst : b.rd.steady) (hs : b.stream = x :: s) :
    ∃ b1, b.ReadByte = some (Except.ok x, b1) ∧ b1.stream = s ∧ b1.err = none ∧
      b1.rd.steady := by
  cases hb : b.buf with
  | cons y rest =>
    refine ⟨{ b with buf := rest }, ?_, ?_, he, hst⟩
    · have : y = x := by
        simp [bufReader.stream, hb] at hs
        exact hs.1
      subst this
      simp [bufReader.ReadByte, ReadByteLoop, hb]
    · simp [bufReader.stream, hb] at hs
      simp [bufReader.stream, hs.2]
  | nil =>
    cases hc : b.rd.chunks with
    | nil => simp [bufReader.stream, Reader.remaining, hb, hc] at hs
    | cons c rest =>
      have hne : c ≠ [] := by
        intro h
        apply hst
        simp [hc, h]
      have hrest : [] ∉ rest := by
        intro h
        apply hst
        simp [hc, h]
      have hf := fill_cons b c rest hb hc hne
      have hs2 : c ++ rest.flatten = x :: s := by
        simpa [bufReader.stream, Reader.remaining, hb, hc] using hs
      obtain ⟨y, ys, hy⟩ : ∃ y ys, c = y :: ys := by
        cases c with
        | nil => exact absurd rfl hne
        | cons y ys => exact ⟨y, ys, rfl⟩
      subst hy
      simp only [List.cons_append, List.cons.injEq] at hs2
      obtain ⟨hxy, hs3⟩ := hs2
      subst hxy
      have htake : (y :: ys).take defaultBufSize = y :: ys.take (defaultBufSize - 1) := by
        simp [defaultBufSize]
      refine ⟨{ buf := ys.take (defaultBufSize - 1),
                rd := { chunks := if (y :: ys).length ≤ defaultBufSize then rest
                                  else (y :: ys).drop defaultBufSize :: rest },
                err := none }, ?_, ?_, rfl, ?_⟩
      · simp [bufReader.ReadByte, ReadByteLoop, hb, he, hf, htake]
      · by_cases hl : (y :: ys).length ≤ defaultBufSize
        · have : ys.length ≤ defaultBufSize - 1 := by
            simp [defaultBufSize] at hl ⊢
            omega
          simp only [bufReader.stream, Reader.remaining, if_pos hl, List.take_of_length_le this]
          exact hs3
        · have hd : (y :: ys).drop defaultBufSize = ys.drop (defaultBufSize - 1) := by
            simp [defaultBufSize]
          simp only [bufReader.stream, Reader.remaining, hl, if_false, hd, List.flatten_cons]
          rw [← List.append_assoc, List.take_append_drop]
          exact hs3
      · by_cases hl : (y :: ys).length ≤ defaultBufSize
        · simp only [Reader.steady, if_pos hl]
          exact hrest
        · have hd : (y :: ys).drop defaultBufSize ≠ [] := by
            simp only [ne_eq, List.drop_eq_nil_iff]
            exact hl
          simp only [Reader.steady, hl, if_false, List.mem_cons, not_or]
          exact ⟨fun h => hd h.symm, hrest⟩

theorem Peek1_total (b : bufReader) (he : b.err = none) (hst : b.rd.steady) :
    ∃ next b2, b.Peek1 = some (next, b2) ∧ (next.length = 1 → b2.buf ≠ []) := by
  cases hb : b.buf with
  | cons y rest =>
    refine ⟨[y], b, ?_, fun _ => by simp [hb]⟩
    simp [bufReader.Peek1, PeekLoop, hb]
  | nil =>
    cases hc : b.rd.chunks with
    | nil =>
      have hf := fill_nil b hb hc
      refine ⟨[], { buf := [], rd := b.rd, err := none }, ?_, fun h => by simp at h⟩
      simp [bufReader.Peek1, PeekLoop, hb, he, hf, defaultBufSize]
    | cons c rest =>
      have hne : c ≠ [] := by
        intro h
        apply hst
        simp [hc, h]
      have hf := fill_cons b c rest hb hc hne
      obtain ⟨y, ys, hy⟩ : ∃ y ys, c = y :: ys := by
        cases c with
        | nil => exact absurd rfl hne
        | cons y ys => exact ⟨y, ys, rfl⟩
      subst hy
      have htake : (y :: ys).take defaultBufSize = y :: ys.take (defaultBufSize - 1) := by
        simp [defaultBufSize]
      rw [htake] at hf
      refine ⟨[y], b.fill, ?_, fun _ => by simp [hf]⟩
      simp [bufReader.Peek1, PeekLoop, hb, he, hf, defaultBufSize]

theorem ReadByte_buffered (b : bufReader) (h : b.buf ≠ []) : ∃ res, b.ReadByte = some res := by
  cases hb : b.buf with
  | nil => exact absurd hb h
  | cons y rest =>
    exact ⟨(Except.ok y, { b with buf := rest }), by simp [bufReader.ReadByte, ReadByteLoop, hb]⟩

theorem readLineLoop_spec (s : List Char) :
    ∀ (fuel : Nat) (b : bufReader) (sb : List Char), b.err = none → b.rd.steady →
      b.stream = s → s.length < fuel →
      ∃ res, readLineLoop fuel b sb = some res ∧ res.line = String.mk (sb ++ firstLine s) ∧
        res.err = (if sb = [] ∧ s = [] then some lineError.EOF else none) := by
  induction s with
  | nil =>
    intro fuel b sb he hst hs hfuel
    obtain ⟨f, rfl⟩ : ∃ f, fuel = f + 1 := ⟨fuel - 1, by omega⟩
    have hr := ReadByte_nil b he hst hs
    by_cases hsb : sb = []
    · subst hsb
      exact ⟨_, by simp [readLineLoop, hr]; rfl, by simp [firstLine], by simp⟩
    · have hpos : 0 < sb.length := List.length_pos.mpr hsb
      exact ⟨_, by simp [readLineLoop, hr, hpos]; rfl, by simp [firstLine], by simp [hsb]⟩
  | cons x s ih =>
    intro fuel b sb he hst hs hfuel
    obtain ⟨f, rfl⟩ : ∃ f, fuel = f + 1 := ⟨fuel - 1, by simp at hfuel; omega⟩
    obtain ⟨b1, hr, hs1, he1, hst1⟩ := ReadByte_cons b x s he hst hs
    by_cases hn : x = '\n'
    · subst hn
      exact ⟨_, by simp [readLineLoop, hr]; rfl, by simp [firstLine, isTerminator], by simp⟩
    · by_cases hc : x = '\r'
      · subst hc
        obtain ⟨next, b2, hp, hbuf⟩ := Peek1_total b1 he1 hst1
        by_cases hnext : next.length = 1 ∧ next.head? = some '\n'
        · obtain ⟨res, hres⟩ := ReadByte_buffered b2 (hbuf hnext.1)
          exact ⟨_, by simp [readLineLoop, hr, hp, hnext, hres]; rfl,
            by simp [firstLine, isTerminator], by simp⟩
        · exact ⟨_, by simp [readLineLoop, hr, hp, hnext]; rfl,
            by simp [firstLine, isTerminator], by simp⟩
      · have hlen : s.length < f := by simp at hfuel; omega
        obtain ⟨res, h1, h2, h3⟩ := ih f b1 (sb ++ [x]) he1 hst1 hs1 hlen
        refine ⟨res, ?_, ?_, ?_⟩
        · simp [readLineLoop, hr, hn, hc, h1]
        · rw [h2]
          simp [firstLine, isTerminator, hn, hc]
        · rw [h3]
          simp


/-! ## Auxiliary facts: the first line of an input -/

theorem firstLine_clean (s : List Char) : ∀ c ∈ firstLine s, c ≠ '\n' ∧ c ≠ '\r' := by
  intro c hc
  have h := List.mem_takeWhile_imp hc
  simp only [isTerminator, Bool.not_eq_true', Bool.or_eq_false_iff, beq_eq_false_iff_ne] at h
  exact h

theorem firstLine_split (s : List Char) (h : ∃ c ∈ s, c = '\n' ∨ c = '\r') :
    ∃ t post, s = firstLine s ++ t :: post ∧ (t = '\n' ∨ t = '\r') := by
  induction s with
  | nil => simp at h
  | cons a as ih =>
    by_cases ha : a = '\n' ∨ a = '\r'
    · refine ⟨a, as, ?_, ha⟩
      rcases ha with ha | ha <;> simp [firstLine, isTerminator, ha]
    · have hn : a ≠ '\n' ∧ a ≠ '\r' := by
        constructor
        · exact fun e => ha (Or.inl e)
        · exact fun e => ha (Or.inr e)
      obtain ⟨c, hc, hc2⟩ := h
      have hmem : c ∈ as := by
        rcases List.mem_cons.mp hc with e | e
        · exact absurd (e ▸ hc2) ha
        · exact e
      obtain ⟨t, post, hs, ht⟩ := ih ⟨c, hmem, hc2⟩
      refine ⟨t, post, ?_, ht⟩
      have hf : firstLine (a :: as) = a :: firstLine as := by
        simp [firstLine, isTerminator, hn.1, hn.2]
      rw [hf, List.cons_append, ← hs]

theorem firstLine_all (s : List Char) (h : ∀ c ∈ s, c ≠ '\n' ∧ c ≠ '\r') : firstLine s = s := by
  unfold firstLine
  rw [List.takeWhile_eq_self_iff]
  intro c hc
  simp [isTerminator, (h c hc).1, (h c hc).2]

theorem ReadLine_spec (r : Reader) (hst : r.steady) :
    ∃ res, ReadLine r = some res ∧ res.line = String.mk (firstLine r.remaining) ∧
      res.err = (if r.remaining = [] then some lineError.EOF else none) := by
  have h := readLineLoop_spec r.remaining (r.remaining.length + 1) (NewReader r) [] rfl hst
    (by simp [bufReader.stream, NewReader]) (Nat.lt_succ_self _)
  obtain ⟨res, h1, h2, h3⟩ := h
  refine ⟨res, h1, ?_, ?_⟩
  · simpa using h2
  · simpa using h3


/-! ## Auxiliary facts: the steps of a run -/

theorem apiKey_steps (env : runEnv) : (getYouTubeServiceWithAPIKey env).1 ≠ [] := by
  unfold getYouTubeServiceWithAPIKey
  split <;> simp

theorem runWithService_steps (env : runEnv) (mine : Bool) (sel : String) :
    (runWithService env mine sel).steps ≠ [] := by
  unfold runWithService
  cases mine with
  | true =>
    cases hr : env.requireAccount with
    | error e => simp
    | ok account =>
      simp only [if_true]
      split <;> simp
  | false =>
    have h := apiKey_steps env
    simp only [Bool.false_eq_true, if_false]
    split
    · exact h
    · simp [h]

theorem runWithService_usage (env : runEnv) (mine : Bool) (sel : String) :
    usageBeforeService (runWithService env mine sel) ↔ (mine = false ∧ apiKeyUsage env) := by
  unfold usageBeforeService apiKeyUsage runWithService
  cases mine with
  | true =>
    cases hr : env.requireAccount with
    | error e => simp [runStep.isLookupOrConstruction]
    | ok account =>
      simp only [if_true, getYouTubeServiceForAccount]
      split <;> simp [runStep.isLookupOrConstruction]
  | false =>
    simp only [Bool.false_eq_true, if_false, true_and]
    unfold getYouTubeServiceWithAPIKey
    cases h : getYouTubeAPIKey env with
    | error err => simp [runStep.isLookupOrConstruction]
    | ok key =>
      simp only
      split <;> simp [runStep.isLookupOrConstruction]

theorem apiKeyUsage_iff (env : runEnv) :
    apiKeyUsage env ↔
      ((∃ err, env.ReadConfig = Except.error err ∧ err.isUsage = true) ∨
        ∃ cfg, env.ReadConfig = Except.ok cfg ∧
          GetValue env.host cfg KeyYoutubeAPIKey = "") := by
  unfold apiKeyUsage getYouTubeAPIKey
  cases h : env.ReadConfig with
  | error err => simp
  | ok cfg =>
    by_cases hk : GetValue env.host cfg KeyYoutubeAPIKey = ""
    · simp [hk, Error.isUsage]
    · simp [hk]

theorem commentsRun_usage (env : runEnv) (c : YouTubeCommentsListCmd)
    (h1 : ¬(c.VideoID = "" ∧ c.ChannelID = ""))
    (h2 : ¬(c.VideoID ≠ "" ∧ c.ChannelID ≠ "")) :
    (c.Run env).steps ≠ [] ∧ (usageBeforeService (c.Run env) ↔ apiKeyUsage env) := by
  unfold YouTubeCommentsListCmd.Run usageBeforeService apiKeyUsage
  simp only [if_neg h1, if_neg h2]
  unfold getYouTubeServiceWithAPIKey
  cases h : getYouTubeAPIKey env with
  | error err => simp [runStep.isLookupOrConstruction]
  | ok key =>
    simp only
    split <;> simp [runStep.isLookupOrConstruction]

theorem usage_result_steps (msg : String) :
    usageBeforeSteps { steps := [], err := some (Error.usage msg) } ∧
    usageBeforeService { steps := [], err := some (Error.usage msg) } := by
  constructor
  · exact ⟨rfl, _, rfl, rfl⟩
  · exact ⟨by simp, _, rfl, rfl⟩


/-! ## Auxiliary facts: trimmed zone names -/

theorem trimLeft_head (cs : List Char) :
    trimLeft cs = [] ∨ ∃ c rest, trimLeft cs = c :: rest ∧ isSpace c = false := by
  induction cs with
  | nil => exact Or.inl rfl
  | cons a as ih =>
    by_cases h : isSpace a = true
    · simpa [trimLeft, h] using ih
    · exact Or.inr ⟨a, as, by simp [trimLeft, h], by simpa using h⟩

theorem trimLeft_suffix (cs : List Char) : ∃ pre, cs = pre ++ trimLeft cs := by
  induction cs with
  | nil => exact ⟨[], rfl⟩
  | cons a as ih =>
    by_cases h : isSpace a = true
    · obtain ⟨pre, hp⟩ := ih
      refine ⟨a :: pre, ?_⟩
      simp only [trimLeft, h, if_true, List.cons_append]
      rw [← hp]
    · exact ⟨[], by simp [trimLeft, h]⟩

theorem trimLeft_fixed (c : Char) (rest : List Char) (h : isSpace c = false) :
    trimLeft (c :: rest) = c :: rest := by
  simp [trimLeft, h]

theorem trimLeft_idem (cs : List Char) : trimLeft (trimLeft cs) = trimLeft cs := by
  rcases trimLeft_head cs with h | ⟨c, rest, h, hc⟩
  · rw [h]
    rfl
  · rw [h]
    exact trimLeft_fixed c rest hc

theorem trimSpaceChars_idem (cs : List Char) :
    trimSpaceChars (trimSpaceChars cs) = trimSpaceChars cs := by
  unfold trimSpaceChars
  have key : trimLeft (trimLeft (trimLeft cs).reverse).reverse =
      (trimLeft (trimLeft cs).reverse).reverse := by
    obtain ⟨pre, hp⟩ := trimLeft_suffix (trimLeft cs).reverse
    have hx : trimLeft cs = (trimLeft (trimLeft cs).reverse).reverse ++ pre.reverse := by
      have := congrArg List.reverse hp
      simpa using this
    cases hr : (trimLeft (trimLeft cs).reverse).reverse with
    | nil => rfl
    | cons y ys =>
      rw [hr] at hx
      rcases trimLeft_head cs with h | ⟨c, rest, h, hc⟩
      · rw [h] at hx
        simp at hx
      · rw [h] at hx
        simp only [List.cons_append, List.cons.injEq] at hx
        rw [← hx.1]
        exact trimLeft_fixed c ys hc
  rw [key, List.reverse_reverse, trimLeft_idem]

theorem TrimSpace_idem (s : String) : TrimSpace (TrimSpace s) = TrimSpace s := by
  simp only [TrimSpace, trimSpaceChars_idem]

theorem eventTimezone_trimmed (e : Option Event) :
    TrimSpace (eventTimezone e) = eventTimezone e := by
  unfold eventTimezone
  repeat' split
  all_goals first | exact TrimSpace_idem _ | exact TrimSpace_empty


/-! ## Auxiliary facts: the configuration keys -/

theorem keySpecs_none_iff (k : Key) :
    keySpecs k = none ↔ k ∉ ["timezone", "keyring_backend", "youtube_api_key"] := by
  unfold keySpecs KeyTimezone KeyKeyringBackend KeyYoutubeAPIKey
  by_cases h1 : k = "timezone"
  · simp [h1]
  · by_cases h2 : k = "keyring_backend"
    · simp [h2]
    · by_cases h3 : k = "youtube_api_key"
      · simp [h3]
      · simp [h1, h2, h3]

theorem Validate_unknown (k : Key) (h : keySpecs k = none) :
    Key.Validate k = some (Error.Errorf "%w: %s (valid keys: %s)"
      [k, ", ".intercalate KeyNames] Error.errUnknownConfigKey) := by
  simp [Key.Validate, h]

theorem Validate_known (k : Key) (h : keySpecs k ≠ none) : Key.Validate k = none := by
  unfold Key.Validate
  cases hk : keySpecs k with
  | none => exact absurd hk h
  | some spec => rfl


/-! ## Auxiliary facts: the attachment traversal -/

theorem collect_preorder :
    (∀ p : Option MessagePart,
      collectAttachments p = ((preorder p).filter hasAttachment).map entryOf) := by
  have key : ∀ q : MessagePart,
      collectAttachments (some q) = ((preorder (some q)).filter hasAttachment).map entryOf := by
    intro q
    refine @MessagePart.rec
      (fun q => collectAttachments (some q) = ((preorder (some q)).filter hasAttachment).map entryOf)
      (fun ps => collectParts ps = ((preorderParts ps).filter hasAttachment).map entryOf)
      (fun p => collectAttachments p = ((preorder p).filter hasAttachment).map entryOf)
      ?_ ?_ ?_ ?_ ?_ q
    · intro filename mimeType body parts ih
      cases body with
      | none =>
        simp [collectAttachments, preorder, ih, hasAttachment, MessagePart.Body, List.filter]
      | some body =>
        by_cases h : body.AttachmentId = ""
        · simp [collectAttachments, preorder, ih, hasAttachment, MessagePart.Body, List.filter, h]
        · simp [collectAttachments, preorder, ih, hasAttachment, MessagePart.Body, List.filter, h,
            entryOf, MessagePart.Filename, MessagePart.MimeType]
    · simp [collectParts, preorderParts]
    · intro p rest ih1 ih2
      simp [collectParts, preorderParts, ih1, ih2]
    · simp [collectAttachments, preorder]
    · intro q ih
      exact ih
  intro p
  cases p with
  | none => simp [collectAttachments, preorder]
  | some q => exact key q

theorem TrimSpace_attachment : TrimSpace "attachment" ≠ "" := by decide

/-! ## Worked examples for the added packages -/

/-- The model writes, for the event of the test `TestPrintCalendarEvent_AllFields` with
the zone `UTC`, the lines that test looks for, in the order of the source. -/
theorem print_allFields :
    printCalendarEventWithTimezone sampleDB "default" (some {}) (some allFieldsEvent) "UTC"
        (some UTC) =
      ["id\tev1", "summary\t(no title)", "type\tfocusTime", "timezone\tUTC",
       "start\t2025-01-01T10:00:00Z", "start-day-of-week\tWednesday",
       "start-local\t2025-01-01T10:00:00Z", "end\t2025-01-01T11:00:00Z",
       "end-day-of-week\tWednesday", "end-local\t2025-01-01T11:00:00Z", "description\tdesc",
       "location\toffice", "color\t1", "visibility\tprivate", "show-as\tfree",
       "attendee\ta@example.com\taccepted", "attendee\tb@example.com\tdeclined (optional)",
       "guests-can-invite\tfalse", "guests-can-modify\ttrue", "guests-can-see-others\tfalse",
       "meet\thttps://meet.example.com/abc", "video-link\thttps://video.example.com/room",
       "recurrence\tRRULE:FREQ=DAILY", "reminders\temail:30m",
       "attachment\thttps://files.example.com/1", "auto-decline\tdeclineAll",
       "chat-status\tdoNotDisturb", "auto-decline\tdeclineNone", "decline-message\tOOO",
       "location-type\tofficeLocation", "source\thttps://source.example.com (Source)",
       "link\thttps://calendar.example.com/ev1"] := by
  decide

/-- The attachments of the sample message: the nil part and the part without
attachment id yield nothing, and the unnamed part is listed as `attachment`. -/
theorem collect_sampleMessage :
    collectAttachments (some sampleMessage) =
      [{ Filename := "a.pdf", Size := 10, MimeType := "application/pdf", AttachmentID := "A1" },
       { Filename := "attachment", Size := 20, MimeType := "multipart/related",
         AttachmentID := "A2" },
       { Filename := "c.png", Size := 30, MimeType := "image/png", AttachmentID := "A3" }] := by
  simp [collectAttachments, collectParts, sampleMessage]
  decide
/-! ## Claims C1 to C8 -/

/-- Claim C1 (override tier): for every non-nil event and every override whose trimmed
value is non-empty and loads as a zone, with no preloaded location, the view's
`Timezone` is exactly the trimmed override, whatever zone hints the boundaries carry,
and both boundaries are rendered with the location loaded for it. -/
theorem C1_override_tier (db : TZData) (ev : Event) (override : String) (l : Location)
    (hne : TrimSpace override ≠ "") (hload : LoadLocation db (TrimSpace override) = some l) :
    ∃ v, wrapEventWithDaysWithTimezone db (some ev) override none = some v ∧
      v.Timezone = TrimSpace override ∧
      v.StartLocal = formatEventLocal db ev.Start (some l) ∧
      v.EndLocal = formatEventLocal db ev.End (some l) := by
  simp [wrapEventWithDaysWithTimezone, hne, hload]

/-- The override tier of C1 at the override ` UTC ` on the sample event. -/
theorem C1_override_tier_witness :
    ∃ v, wrapEventWithDaysWithTimezone sampleDB (some sampleEvent) " UTC " none = some v ∧
      v.Timezone = TrimSpace " UTC " ∧
      v.StartLocal = formatEventLocal sampleDB sampleEvent.Start (some UTC) ∧
      v.EndLocal = formatEventLocal sampleDB sampleEvent.End (some UTC) :=
  C1_override_tier sampleDB sampleEvent " UTC " UTC (by decide) (by decide)

/-- Claim C2 (embedded tier): for every event and every override that is blank or fails
to load, let `z` be the first non-blank trimmed zone hint of start then end. If there is
no such `z` the view's `Timezone` is empty; if `z` loads, `Timezone = z`; if `z` fails
to load, `Timezone` is empty, whatever the later hint is. -/
theorem C2_embedded_tier (db : TZData) (ev : Event) (override : String)
    (h : TrimSpace override = "" ∨ LoadLocation db (TrimSpace override) = none) :
    ∃ v, wrapEventWithDaysWithTimezone db (some ev) override none = some v ∧
      (firstEmbeddedZone (embeddedZones ev) = none → v.Timezone = "") ∧
      (∀ z, firstEmbeddedZone (embeddedZones ev) = some z →
        ((∃ l, LoadLocation db z = some l) → v.Timezone = z) ∧
        (LoadLocation db z = none → v.Timezone = "")) := by
  rw [wrap_blank_override db ev override h]
  obtain ⟨v, hv, ht⟩ := wrap_empty_timezone db ev
  refine ⟨v, hv, ?_, ?_⟩
  · intro hn
    rw [ht, eventTimezone_eq, hn]
    simp
  · intro z hz
    have hne := firstEmbeddedZone_ne _ _ hz
    rw [ht, eventTimezone_eq, hz]
    simp only [Option.getD_some, ne_eq, hne, not_false_eq_true, if_true]
    constructor
    · rintro ⟨l, hl⟩
      rw [hl]
    · intro hl
      rw [hl]

/-- The embedded tier of C2 at an unloadable override and an event whose first hint does not load. -/
theorem C2_embedded_tier_witness :
    ∃ v, wrapEventWithDaysWithTimezone sampleDB (some mixedHintEvent) "Not/AZone" none = some v ∧
      (firstEmbeddedZone (embeddedZones mixedHintEvent) = none → v.Timezone = "") ∧
      (∀ z, firstEmbeddedZone (embeddedZones mixedHintEvent) = some z →
        ((∃ l, LoadLocation sampleDB z = some l) → v.Timezone = z) ∧
        (LoadLocation sampleDB z = none → v.Timezone = "")) :=
  C2_embedded_tier sampleDB mixedHintEvent "Not/AZone" (Or.inr (by decide))

/-- Claim C3 (an invalid override degrades silently): for every event and every override
whose trimmed value does not load, the result equals, field for field, the result with
the empty override; and when the event has no embedded zone, `Timezone` is empty and
`EventTimezone` is absent. -/
theorem C3_invalid_override (db : TZData) (event : Option Event) (override : String)
    (h : LoadLocation db (TrimSpace override) = none) :
    wrapEventWithDaysWithTimezone db event override none =
      wrapEventWithDaysWithTimezone db event "" none ∧
    (∀ ev, event = some ev → eventTimezone (some ev) = "" →
      ∃ v, wrapEventWithDaysWithTimezone db event override none = some v ∧
        v.Timezone = "" ∧ v.EventTimezone = "") := by
  cases event with
  | none => simp [wrapEventWithDaysWithTimezone]
  | some ev =>
    refine ⟨wrap_blank_override db ev override (Or.inr h), ?_⟩
    intro ev2 he hz
    cases he
    rw [wrap_blank_override db ev override (Or.inr h)]
    have e := TrimSpace_empty
    simp [wrapEventWithDaysWithTimezone, e, hz]

/-- The silent degradation of C3 at the override `Not/AZone` and an all-day event without zone hints. -/
theorem C3_invalid_override_witness :
    wrapEventWithDaysWithTimezone sampleDB
        (some { Start := some { Date := "2025-01-02" }, End := none }) "Not/AZone" none =
      wrapEventWithDaysWithTimezone sampleDB
        (some { Start := some { Date := "2025-01-02" }, End := none }) "" none ∧
    (∀ ev, some ({ Start := some { Date := "2025-01-02" }, End := none } : Event) = some ev →
      eventTimezone (some ev) = "" →
      ∃ v, wrapEventWithDaysWithTimezone sampleDB
          (some { Start := some { Date := "2025-01-02" }, End := none }) "Not/AZone" none = some v ∧
        v.Timezone = "" ∧ v.EventTimezone = "") :=
  C3_invalid_override sampleDB (some { Start := some { Date := "2025-01-02" }, End := none })
    "Not/AZone" (by decide)

/-- Claim C4 (display rule of `EventTimezone`): for every non-nil event, override and
preloaded location, with the event's own zone the first non-blank trimmed hint of start
then end, `EventTimezone` is that zone when it is non-empty and differs from the view's
`Timezone`, and is empty otherwise. On every host, override `UTC` with embedded zone
`America/New_York` gives `Timezone = UTC` and `EventTimezone = America/New_York`. -/
theorem C4_event_timezone_rule :
    (∀ (db : TZData) (ev : Event) (override : String) (loc : Option Location),
      ∃ v, wrapEventWithDaysWithTimezone db (some ev) override loc = some v ∧
        v.EventTimezone =
          (if (firstEmbeddedZone (embeddedZones ev)).getD "" ≠ "" ∧
              (firstEmbeddedZone (embeddedZones ev)).getD "" ≠ v.Timezone
           then (firstEmbeddedZone (embeddedZones ev)).getD "" else "")) ∧
    (∀ (db : TZData) (en : Option EventDateTime),
      ∃ v, wrapEventWithDaysWithTimezone db
          (some { Start := some { DateTime := "2025-01-01T10:00:00-05:00",
                                  TimeZone := "America/New_York" }, End := en }) "UTC" none = some v ∧
        v.Timezone = "UTC" ∧ v.EventTimezone = "America/New_York") := by
  constructor
  · intro db ev override loc
    rw [← eventTimezone_eq]
    simp [wrapEventWithDaysWithTimezone]
  · intro db en
    have e1 : TrimSpace "UTC" = "UTC" := by decide
    have e2 : TrimSpace "America/New_York" = "America/New_York" := by decide
    have e3 : LoadLocation db "UTC" = some UTC := by simp [LoadLocation]
    simp [wrapEventWithDaysWithTimezone, e1, e3, eventTimezone, e2]

/-- Claim C5, as stated, fails: with no override, a start hint that does not load and an
end hint `America/New_York`, the view's `Timezone` is empty, the start is rendered in
the offset written in its value, but the end is converted to New York time instead of
being rendered in its original offset. -/
theorem C5_counterexample :
    ∃ v ts te,
      wrapEventWithDaysWithTimezone sampleDB (some mixedHintEvent) "" none = some v ∧
      Parse sampleDB Layout.RFC3339 "2025-01-01T10:00:00+01:00" = some ts ∧
      Parse sampleDB Layout.RFC3339 "2025-01-01T12:00:00+01:00" = some te ∧
      v.Timezone = "" ∧ v.StartLocal = ts.Format ∧ v.EndLocal ≠ te.Format ∧
      v.EndLocal = "2025-01-01T06:00:00-05:00" := by
  refine ⟨_, _, _, rfl, rfl, rfl, ?_, ?_, ?_, ?_⟩ <;> decide

/-- Claim C5, amended: for every event whose start and end are parseable offset-qualified
instants and every override, when the view's `Timezone` is non-empty it loads and both
`StartLocal` and `EndLocal` are renderings in that one zone; when `Timezone` is empty
each boundary is rendered in the zone of its own hint if that loads, and otherwise in
the offset written in its value. -/
theorem C5_same_zone_amended (db : TZData) (ev : Event) (override : String)
    (s e : EventDateTime) (ts te : Time)
    (hs : ev.Start = some s) (he : ev.End = some e)
    (hps : Parse db Layout.RFC3339 (TrimSpace s.DateTime) = some ts)
    (hpe : Parse db Layout.RFC3339 (TrimSpace e.DateTime) = some te) :
    ∃ v, wrapEventWithDaysWithTimezone db (some ev) override none = some v ∧
      (v.Timezone ≠ "" → ∃ l, LoadLocation db v.Timezone = some l ∧
        v.StartLocal = (ts.In l).Format ∧ v.EndLocal = (te.In l).Format) ∧
      (v.Timezone = "" →
        v.StartLocal = (inOwnZone db s.TimeZone ts).Format ∧
        v.EndLocal = (inOwnZone db e.TimeZone te).Format) := by
  obtain ⟨v, hv, h⟩ := wrap_resolution db ev override
  refine ⟨v, hv, ?_, ?_⟩
  · intro hne
    rcases h with ⟨_, l, hl, h1, h2⟩ | ⟨h0, _, _⟩
    · refine ⟨l, hl, ?_, ?_⟩
      · rw [h1, hs, formatEventLocal_some db s l ts hps]
      · rw [h2, he, formatEventLocal_some db e l te hpe]
    · exact absurd h0 hne
  · intro h0
    rcases h with ⟨hne, _⟩ | ⟨_, h1, h2⟩
    · exact absurd h0 hne
    · constructor
      · rw [h1, hs, formatEventLocal_none db s ts hps]
      · rw [h2, he, formatEventLocal_none db e te hpe]

/-- The amended C5 at the sample event with override `UTC`. -/
theorem C5_same_zone_amended_witness :
    ∃ v, wrapEventWithDaysWithTimezone sampleDB (some sampleEvent) "UTC" none = some v ∧
      (v.Timezone ≠ "" → ∃ l, LoadLocation sampleDB v.Timezone = some l ∧
        v.StartLocal = (Time.In { sec := 1735792200, nsec := 0, loc := FixedZone "" (-18000) } l).Format ∧
        v.EndLocal = (Time.In { sec := 1735797600, nsec := 0, loc := FixedZone "" (-18000) } l).Format) ∧
      (v.Timezone = "" →
        v.StartLocal = (inOwnZone sampleDB "" { sec := 1735792200, nsec := 0, loc := FixedZone "" (-18000) }).Format ∧
        v.EndLocal = (inOwnZone sampleDB "America/New_York"
          { sec := 1735797600, nsec := 0, loc := FixedZone "" (-18000) }).Format) :=
  C5_same_zone_amended sampleDB sampleEvent "UTC"
    { DateTime := "2025-01-01T23:30:00-05:00" }
    { DateTime := "2025-01-02T01:00:00-05:00", TimeZone := "America/New_York" }
    { sec := 1735792200, nsec := 0, loc := FixedZone "" (-18000) }
    { sec := 1735797600, nsec := 0, loc := FixedZone "" (-18000) }
    rfl rfl (by decide) (by decide)

/-- Claim C6, as stated, fails at its own candidate witness: for the start
`2025-01-01T23:30:00-05:00` and override `UTC`, `StartLocal` shows the instant in UTC,
on Thursday 2 January, while `StartDayOfWeek` is `Wednesday`. -/
theorem C6_counterexample :
    ∃ v t,
      wrapEventWithDaysWithTimezone sampleDB
        (some { Start := some { DateTime := "2025-01-01T23:30:00-05:00" }, End := none })
        "UTC" none = some v ∧
      Parse sampleDB Layout.RFC3339 "2025-01-01T23:30:00-05:00" = some t ∧
      v.Timezone = "UTC" ∧ v.StartLocal = "2025-01-02T04:30:00Z" ∧
      weekdayString (t.In UTC).Weekday = "Thursday" ∧ v.StartDayOfWeek = "Wednesday" := by
  refine ⟨_, _, rfl, rfl, ?_, ?_, ?_, ?_⟩ <;> decide

/-- Claim C6, amended: for every event, override and preloaded location, when the start
(resp. end) boundary is a parseable offset-qualified instant, `StartDayOfWeek` (resp.
`EndDayOfWeek`) is the weekday of that instant as seen in the boundary's own zone hint
if the hint loads, and otherwise in the offset written in the value; the override and
the resolved zone play no part. -/
theorem C6_weekday_amended (db : TZData) (ev : Event) (override : String) (loc : Option Location)
    (b : EventDateTime) (t : Time)
    (hp : Parse db Layout.RFC3339 (TrimSpace b.DateTime) = some t) :
    ∃ v, wrapEventWithDaysWithTimezone db (some ev) override loc = some v ∧
      (ev.Start = some b → v.StartDayOfWeek = weekdayString (inOwnZone db b.TimeZone t).Weekday) ∧
      (ev.End = some b → v.EndDayOfWeek = weekdayString (inOwnZone db b.TimeZone t).Weekday) := by
  have hne := nonempty_of_parse db _ t hp
  have hd : dayOfWeekFromEventDateTime db (some b)
      = weekdayString (inOwnZone db b.TimeZone t).Weekday := by
    unfold dayOfWeekFromEventDateTime
    simp only [hne, ne_eq, not_false_eq_true, if_true, parseEventTime_of_parse db _ _ t hp]
  refine ⟨_, rfl, ?_, ?_⟩
  · intro h
    simp only [eventDaysOfWeek, h, hd]
  · intro h
    simp only [eventDaysOfWeek, h, hd]

/-- The amended C6 at the sample event with override `UTC`. -/
theorem C6_weekday_amended_witness :
    ∃ v, wrapEventWithDaysWithTimezone sampleDB (some sampleEvent) "UTC" none = some v ∧
      (sampleEvent.Start = some { DateTime := "2025-01-01T23:30:00-05:00" } →
        v.StartDayOfWeek = weekdayString (inOwnZone sampleDB ""
          { sec := 1735792200, nsec := 0, loc := FixedZone "" (-18000) }).Weekday) ∧
      (sampleEvent.End = some { DateTime := "2025-01-01T23:30:00-05:00" } →
        v.EndDayOfWeek = weekdayString (inOwnZone sampleDB ""
          { sec := 1735792200, nsec := 0, loc := FixedZone "" (-18000) }).Weekday) :=
  C6_weekday_amended sampleDB sampleEvent "UTC" none
    { DateTime := "2025-01-01T23:30:00-05:00" }
    { sec := 1735792200, nsec := 0, loc := FixedZone "" (-18000) } (by decide)

/-- Claim C7, as stated, fails: a boundary with no instant and the unparseable date
`not-a-date` makes the parser fail on both fields, yet `formatEventLocal` returns the
date token, not the empty string. -/
theorem C7_counterexample :
    ¬ (parseEventTime sampleDB "" "" = none → parseEventDate sampleDB "not-a-date" "" = none →
        formatEventLocal sampleDB
          (some { Date := "not-a-date", DateTime := "", TimeZone := "" }) none = "") := by
  decide

/-- Claim C7, amended: for every boundary and every location, if the parser fails on
the boundary's instant, `formatEventLocal` returns the boundary's date token verbatim,
which is the empty string exactly when the boundary has no date; and if the parser
also fails on the date, `dayOfWeekFromEventDateTime` returns the empty string. -/
theorem C7_unparseable_amended (db : TZData) (dt : EventDateTime) (loc : Option Location)
    (h : parseEventTime db dt.DateTime dt.TimeZone = none) :
    formatEventLocal db (some dt) loc = dt.Date ∧
    (parseEventDate db dt.Date dt.TimeZone = none →
      dayOfWeekFromEventDateTime db (some dt) = "") := by
  constructor
  · by_cases hd : dt.Date = "" <;> by_cases ht : dt.DateTime = "" <;>
      simp [formatEventLocal, h, hd, ht]
  · intro h2
    by_cases hd : dt.Date = "" <;> by_cases ht : dt.DateTime = "" <;>
      simp [dayOfWeekFromEventDateTime, h, h2, hd, ht]

/-- The amended C7 at a boundary whose instant and date are both unparseable. -/
theorem C7_unparseable_amended_witness :
    formatEventLocal sampleDB (some { Date := "not-a-date", DateTime := "garbage" }) none
      = "not-a-date" ∧
    dayOfWeekFromEventDateTime sampleDB (some { Date := "not-a-date", DateTime := "garbage" })
      = "" :=
  ⟨(C7_unparseable_amended sampleDB { Date := "not-a-date", DateTime := "garbage" } none
      (by decide)).1,
   (C7_unparseable_amended sampleDB { Date := "not-a-date", DateTime := "garbage" } none
      (by decide)).2 (by decide)⟩

/-- Claim C8 (a date boundary is rendered verbatim): for every boundary with an empty
instant and date token `d`, every location and every zone hint, `formatEventLocal`
returns exactly `d`; hence an event with start date `2025-01-02` has
`StartLocal = 2025-01-02` under every override and location. -/
theorem C8_date_verbatim :
    (∀ (db : TZData) (d tz : String) (loc : Option Location),
      formatEventLocal db (some { Date := d, DateTime := "", TimeZone := tz }) loc = d) ∧
    (∀ (db : TZData) (tz override : String) (loc : Option Location) (en : Option EventDateTime),
      ∃ v, wrapEventWithDaysWithTimezone db
          (some { Start := some { Date := "2025-01-02", TimeZone := tz }, End := en })
          override loc = some v ∧ v.StartLocal = "2025-01-02") := by
  constructor
  · intro db d tz loc
    by_cases h : d = "" <;> simp [formatEventLocal, h]
  · intro db tz override loc en
    simp [wrapEventWithDaysWithTimezone, formatEventLocal]

/-! ## Claims C9 and C10 -/

/-- Claim C9, as stated, fails for a fractional-second instant: `2025-01-01T10:00:00.5Z`
is accepted by the parser, but its local rendering in UTC has second precision, so
parsing the rendering back gives an instant half a second earlier. -/
theorem C9_counterexample :
    ∃ t1 t2,
      loadEventLocation sampleDB "UTC" = some UTC ∧
      parseEventTime sampleDB
        (formatEventLocal sampleDB (some { DateTime := "2025-01-01T10:00:00.5Z" }) (some UTC))
        "UTC" = some t1 ∧
      parseEventTime sampleDB "2025-01-01T10:00:00.5Z" "UTC" = some t2 ∧
      t1.sec = t2.sec ∧ t1.nsec = 0 ∧ t2.nsec = 500000000 ∧ (t1.sec, t1.nsec) ≠ (t2.sec, t2.nsec) := by
  refine ⟨_, _, by decide, rfl, rfl, ?_, ?_, ?_, ?_⟩ <;> decide

/-- Claim C9, amended: for every boundary whose instant the parser accepts as an
offset-qualified timestamp and every loadable zone `Z` whose offset at that instant is
a whole number of minutes below 25 hours and in which the instant falls in a year
0000 to 9999, feeding `formatEventLocal(boundary, Z)` back through `parseEventTime`
with hint `Z` succeeds and yields the instant of `parseEventTime(instant, Z)`
truncated to whole seconds, in the same zone; it is the same time when the original
has no fractional second. -/
theorem C9_roundtrip_amended (db : TZData) (b : EventDateTime) (zname : String) (z : Location)
    (t0 : Time) (hz : loadEventLocation db zname = some z)
    (hp : Parse db Layout.RFC3339 (TrimSpace b.DateTime) = some t0)
    (h60 : z.offsetAt t0.sec % 60 = 0) (hlo : -90000 < z.offsetAt t0.sec)
    (hhi : z.offsetAt t0.sec < 90000)
    (hy0 : 0 ≤ (t0.In z).Date.1) (hy1 : (t0.In z).Date.1 ≤ 9999) :
    ∃ t1 t2, parseEventTime db (formatEventLocal db (some b) (some z)) zname = some t1 ∧
      parseEventTime db b.DateTime zname = some t2 ∧
      t1.sec = t2.sec ∧ t1.nsec = 0 ∧ t1.loc = t2.loc ∧ (t2.nsec = 0 → t1 = t2) := by
  obtain ⟨htrim, t3, hp3, hs3, hn3⟩ := Parse_Format db (t0.In z) h60 hlo hhi hy0 hy1
  rw [formatEventLocal_some db b z t0 hp]
  rw [← htrim] at hp3
  rw [parseEventTime_of_parse db _ zname t3 hp3, parseEventTime_of_parse db _ zname t0 hp]
  simp only [inOwnZone, hz]
  refine ⟨_, _, rfl, rfl, hs3, hn3, rfl, ?_⟩
  intro h0
  cases t3
  cases t0
  simp only [Time.In] at hs3 hn3 h0 ⊢
  subst hs3 hn3 h0
  rfl

/-- The round trip of C9 at `2025-01-01T23:30:00-05:00` rendered in New York time. -/
theorem C9_roundtrip_amended_witness :
    ∃ t1 t2, parseEventTime sampleDB (formatEventLocal sampleDB
          (some { DateTime := "2025-01-01T23:30:00-05:00" }) (some newYork)) " America/New_York"
        = some t1 ∧
      parseEventTime sampleDB "2025-01-01T23:30:00-05:00" " America/New_York" = some t2 ∧
      t1.sec = t2.sec ∧ t1.nsec = 0 ∧ t1.loc = t2.loc ∧ (t2.nsec = 0 → t1 = t2) :=
  C9_roundtrip_amended sampleDB { DateTime := "2025-01-01T23:30:00-05:00" } " America/New_York"
    newYork { sec := 1735792200, nsec := 0, loc := FixedZone "" (-18000) }
    (by decide) (by decide) (by decide) (by decide) (by decide) (by decide) (by decide)

/-- Claim C10, as stated, fails in its second half: `2025-03-09T02:30:00` has the
floating form and names a valid date and time, the hint `America/New_York` loads, and
the parse succeeds, but that wall-clock reading is skipped by the switch to daylight
time and the returned time shows 01:30:00 in New York, not 02:30:00. -/
theorem C10_counterexample :
    isFloatingForm "2025-03-09T02:30:00" = true ∧
    validFields (writtenFields "2025-03-09T02:30:00") ∧
    ∃ l t, loadEventLocation sampleDB "America/New_York" = some l ∧
      parseEventTime sampleDB "2025-03-09T02:30:00" "America/New_York" = some t ∧
      t.loc = l ∧ t.Clock = (1, 30, 0) ∧ t.Clock ≠ (2, 30, 0) := by
  refine ⟨by decide, by decide, _, _, rfl, rfl, ?_, ?_, ?_⟩ <;> decide

/-- Claim C10, amended: for every value of the floating form `YYYY-MM-DDTHH:MM:SS`, when
the hint is blank or does not load `parseEventTime` fails; when the hint loads it
succeeds exactly when the written fields name an existing date and time of day, the
result is in the hint's zone at the instant Go's `Date` picks, and its wall-clock
fields there are the written ones whenever the offset `Date` subtracted is the one
in force at that instant (the written reading is not skipped by a transition). -/
theorem C10_floating_amended (db : TZData) (value tz : String)
    (hf : isFloatingForm value = true) :
    (loadEventLocation db tz = none → parseEventTime db value tz = none) ∧
    (∀ l, loadEventLocation db tz = some l →
      (¬ validFields (writtenFields value) → parseEventTime db value tz = none) ∧
      (validFields (writtenFields value) →
        ∃ t, parseEventTime db value tz = some t ∧ t.loc = l ∧ t.nsec = 0 ∧
          t.sec = writtenWall value - dateOffset l (writtenWall value) ∧
          (l.offsetAt t.sec = dateOffset l (writtenWall value) →
            t.Date = ((writtenFields value).1, (writtenFields value).2.1,
              (writtenFields value).2.2.1) ∧
            t.Clock = ((writtenFields value).2.2.2.1, (writtenFields value).2.2.2.2.1,
              (writtenFields value).2.2.2.2.2)))) := by
  obtain ⟨ht, hne⟩ := floating_trim value hf
  have hp : parseEventTime db value tz =
      match loadEventLocation db tz with
      | some l => ParseInLocation Layout.dateTime value l
      | none => none := by
    unfold parseEventTime
    simp only [ht, hne, if_false, Parse, parse_floating value hf, reduceCtorEq, false_and]
    cases loadEventLocation db tz with
    | none => rfl
    | some l2 =>
      simp only
      cases ParseInLocation Layout.dateTime value l2 <;> rfl
  refine ⟨?_, ?_⟩
  · intro hl
    rw [hp, hl]
  · intro l hl
    rw [hp, hl]
    simp only [ParseInLocation, parse_floating value hf, true_and]
    constructor
    · intro hv
      rw [if_neg hv]
    · intro hv
      rw [if_pos hv]
      refine ⟨_, rfl, rfl, rfl, rfl, ?_⟩
      intro hc
      obtain ⟨v1, v2, v3, v4, v5, v6, v7⟩ := hv
      exact Date_fields _ _ _ _ _ _ 0 l v1 v2 v3 v4 v5 v6 v7 hc

/-- The amended C10 at `2025-07-09T02:30:00` with hint `America/New_York`. -/
theorem C10_floating_amended_witness :
    (loadEventLocation sampleDB "America/New_York" = none →
      parseEventTime sampleDB "2025-07-09T02:30:00" "America/New_York" = none) ∧
    (∀ l, loadEventLocation sampleDB "America/New_York" = some l →
      (¬ validFields (writtenFields "2025-07-09T02:30:00") →
        parseEventTime sampleDB "2025-07-09T02:30:00" "America/New_York" = none) ∧
      (validFields (writtenFields "2025-07-09T02:30:00") →
        ∃ t, parseEventTime sampleDB "2025-07-09T02:30:00" "America/New_York" = some t ∧
          t.loc = l ∧ t.nsec = 0 ∧
          t.sec = writtenWall "2025-07-09T02:30:00" -
            dateOffset l (writtenWall "2025-07-09T02:30:00") ∧
          (l.offsetAt t.sec = dateOffset l (writtenWall "2025-07-09T02:30:00") →
            t.Date = ((writtenFields "2025-07-09T02:30:00").1,
              (writtenFields "2025-07-09T02:30:00").2.1,
              (writtenFields "2025-07-09T02:30:00").2.2.1) ∧
            t.Clock = ((writtenFields "2025-07-09T02:30:00").2.2.2.1,
              (writtenFields "2025-07-09T02:30:00").2.2.2.2.1,
              (writtenFields "2025-07-09T02:30:00").2.2.2.2.2)))) :=
  C10_floating_amended sampleDB "2025-07-09T02:30:00" "America/New_York" (by decide)

/-! ## Claims C11 to C20 -/

/-- Claim C11, as stated, fails: for the floating start `2025-01-01T10:00:00` with no zone
hint and the override `UTC`, which loads, the view's `Timezone` is `UTC` but
`StartLocal` and `StartDayOfWeek` are both empty. -/
theorem C11_counterexample :
    ∃ v, isFloatingForm "2025-01-01T10:00:00" = true ∧
      LoadLocation sampleDB "UTC" = some UTC ∧
      wrapEventWithDaysWithTimezone sampleDB
        (some { Start := some { DateTime := "2025-01-01T10:00:00" }, End := none }) "UTC" none
        = some v ∧
      v.Timezone = "UTC" ∧ v.StartLocal = "" ∧ v.StartDayOfWeek = "" := by
  refine ⟨_, by decide, by decide, rfl, ?_, ?_, ?_⟩ <;> decide

/-- Claim C11, amended: for every event whose start boundary is a floating timestamp with
no zone hint of its own, and every override and preloaded location, the instant is not
localized: `StartLocal` is the start's date token verbatim and `StartDayOfWeek` is the
weekday of that date token, so both are empty when the start has no date token. The
override is not used to anchor a floating timestamp. -/
theorem C11_floating_amended (db : TZData) (ev : Event) (override : String)
    (loc : Option Location) (s : EventDateTime)
    (hs : ev.Start = some s) (hf : isFloatingForm s.DateTime = true)
    (hz : TrimSpace s.TimeZone = "") :
    ∃ v, wrapEventWithDaysWithTimezone db (some ev) override loc = some v ∧
      v.StartLocal = s.Date ∧
      v.StartDayOfWeek =
        (match parseEventDate db s.Date s.TimeZone with
         | some t => weekdayString t.Weekday
         | none => "") ∧
      (s.Date = "" → v.StartLocal = "" ∧ v.StartDayOfWeek = "") := by
  have hp : parseEventTime db s.DateTime s.TimeZone = none := by
    rw [parseEventTime_floating db _ _ hf, loadEventLocation_blank db _ hz]
  have h1 : formatEventLocal db (some s) none = s.Date ∧
      ∀ l, formatEventLocal db (some s) (some l) = s.Date := by
    constructor
    · by_cases hd : s.Date = "" <;> by_cases ht : s.DateTime = "" <;>
        simp [formatEventLocal, hp, hd, ht]
    · intro l
      by_cases hd : s.Date = "" <;> by_cases ht : s.DateTime = "" <;>
        simp [formatEventLocal, hp, hd, ht]
  have h2 : dayOfWeekFromEventDateTime db (some s) =
      (match parseEventDate db s.Date s.TimeZone with
       | some t => weekdayString t.Weekday
       | none => "") := by
    rw [dayOfWeek_cases, hp]
  have h3 : ∀ l, formatEventLocal db (some s) l = s.Date := by
    intro l
    cases l with
    | none => exact h1.1
    | some l => exact h1.2 l
  have e2 : parseEventDate db "" s.TimeZone = none := by
    simp [parseEventDate, TrimSpace_empty]
  refine ⟨_, rfl, ?_, ?_, ?_⟩
  · simp only [hs, h3]
  · simp only [eventDaysOfWeek, hs, h2]
  · intro hd
    constructor
    · simp only [hs, h3, hd]
    · simp only [eventDaysOfWeek, hs, h2, hd, e2]

/-- The amended C11 at the floating start `2025-01-01T10:00:00` with override `UTC`. -/
theorem C11_floating_amended_witness :
    ∃ v, wrapEventWithDaysWithTimezone sampleDB
        (some { Start := some { DateTime := "2025-01-01T10:00:00" }, End := none }) "UTC" none
        = some v ∧
      v.StartLocal = "" ∧
      v.StartDayOfWeek =
        (match parseEventDate sampleDB "" "" with
         | some t => weekdayString t.Weekday
         | none => "") ∧
      (("" : String) = "" → v.StartLocal = "" ∧ v.StartDayOfWeek = "") :=
  C11_floating_amended sampleDB { Start := some { DateTime := "2025-01-01T10:00:00" }, End := none }
    "UTC" none { DateTime := "2025-01-01T10:00:00" } rfl (by decide) (by decide)

/-- Claim C12 (the hint never changes the instant): for every value that, once trimmed,
ends with a zone designator (`Z` or sign, two digits, colon, two digits) and any two
zone hints, loadable or not, `parseEventTime` either fails for both or succeeds for
both with the same second and nanosecond; a successful result is in the hint's zone
when the hint loads and otherwise shows the offset written in the value. -/
theorem C12_instant_hint_free (db : TZData) (value tz1 tz2 : String)
    (hq : endsWithZone (TrimSpace value).data = true) :
    ((parseEventTime db value tz1 = none ∧ parseEventTime db value tz2 = none) ∨
     (∃ t1 t2, parseEventTime db value tz1 = some t1 ∧ parseEventTime db value tz2 = some t2 ∧
        t1.sec = t2.sec ∧ t1.nsec = t2.nsec)) ∧
    (∀ t, parseEventTime db value tz1 = some t →
      (∀ l, loadEventLocation db tz1 = some l → t.loc = l) ∧
      (loadEventLocation db tz1 = none →
        ∃ f, parseFields Layout.RFC3339 (TrimSpace value).data = some f ∧
          t.loc.offsetAt t.sec = writtenOffset f.zone)) := by
  have hfl : ∀ l, ParseInLocation Layout.dateTime (TrimSpace value) l = none := by
    intro l
    simp [ParseInLocation, parse, dateTime_rejects_zone _ hq]
  have hne : TrimSpace value ≠ "" := by
    intro h
    rw [h] at hq
    cases hq
  cases hp : parseFields Layout.RFC3339 (TrimSpace value).data with
  | none =>
    have hP := (Parse_fields db Layout.RFC3339 (TrimSpace value)).1 hp
    have hnone : ∀ tz, parseEventTime db value tz = none := by
      intro tz
      unfold parseEventTime
      simp only [hne, if_false, hP, Parse_nano]
      cases loadEventLocation db tz with
      | none => rfl
      | some l => simp [hfl l]
    refine ⟨Or.inl ⟨hnone tz1, hnone tz2⟩, ?_⟩
    intro t ht
    rw [hnone tz1] at ht
    cases ht
  | some f =>
    obtain ⟨t, hP, _, _, hoff, _⟩ := (Parse_fields db Layout.RFC3339 (TrimSpace value)).2 f hp
    have h1 := parseEventTime_of_parse db value tz1 t hP
    have h2 := parseEventTime_of_parse db value tz2 t hP
    refine ⟨Or.inr ⟨_, _, h1, h2, ?_, ?_⟩, ?_⟩
    · unfold inOwnZone
      cases loadEventLocation db tz1 <;> cases loadEventLocation db tz2 <;> rfl
    · unfold inOwnZone
      cases loadEventLocation db tz1 <;> cases loadEventLocation db tz2 <;> rfl
    · intro t2 ht2
      rw [h1] at ht2
      cases ht2
      constructor
      · intro l hl
        simp [inOwnZone, hl, Time.In]
      · intro hl
        refine ⟨f, rfl, ?_⟩
        simp only [inOwnZone, hl]
        exact hoff

/-- Claim C12 at `2025-01-01T23:30:00-05:00` with a hint that loads and one that does not. -/
theorem C12_instant_hint_free_witness :
    ((parseEventTime sampleDB "2025-01-01T23:30:00-05:00" "America/New_York" = none ∧
        parseEventTime sampleDB "2025-01-01T23:30:00-05:00" "Bad/Zone" = none) ∨
     (∃ t1 t2, parseEventTime sampleDB "2025-01-01T23:30:00-05:00" "America/New_York" = some t1 ∧
        parseEventTime sampleDB "2025-01-01T23:30:00-05:00" "Bad/Zone" = some t2 ∧
        t1.sec = t2.sec ∧ t1.nsec = t2.nsec)) ∧
    (∀ t, parseEventTime sampleDB "2025-01-01T23:30:00-05:00" "America/New_York" = some t →
      (∀ l, loadEventLocation sampleDB "America/New_York" = some l → t.loc = l) ∧
      (loadEventLocation sampleDB "America/New_York" = none →
        ∃ f, parseFields Layout.RFC3339 (TrimSpace "2025-01-01T23:30:00-05:00").data = some f ∧
          t.loc.offsetAt t.sec = writtenOffset f.zone)) :=
  C12_instant_hint_free sampleDB "2025-01-01T23:30:00-05:00" "America/New_York" "Bad/Zone"
    (by decide)

/-- Claim C13 evaluated at the date `2018-11-04` and the hint `America/Sao_Paulo`, where
daylight time began at midnight: both paths succeed, the zone-naive path gives Sunday,
the path anchored in the zone returns 2018-11-03T23:00:00-03:00 and gives Saturday. -/
theorem C13_midnight_gap :
    ∃ t1 t2,
      loadEventLocation americasDB "America/Sao_Paulo" = some saoPaulo ∧
      parseEventDate americasDB "2018-11-04" "America/Sao_Paulo" = some t1 ∧
      parseEventDate americasDB "2018-11-04" "" = some t2 ∧
      weekdayString t2.Weekday = "Sunday" ∧ weekdayString t1.Weekday = "Saturday" ∧
      t1.Format = "2018-11-03T23:00:00-03:00" ∧
      dayOfWeekFromEventDateTime americasDB
        (some { Date := "2018-11-04", TimeZone := "America/Sao_Paulo" }) = "Saturday" ∧
      dayOfWeekFromEventDateTime americasDB (some { Date := "2018-11-04" }) = "Sunday" := by
  refine ⟨_, _, by decide, rfl, rfl, ?_, ?_, ?_, ?_, ?_⟩ <;> decide

/-- Claim C14 (the weekday does not depend on the override): for every event, every two
overrides and every two preloaded locations, valid or not, the two views have the same
`StartDayOfWeek` and the same `EndDayOfWeek`, namely the weekdays computed from the
boundaries alone; in particular for a bare date and two valid override zones. -/
theorem C14_weekday_override_free (db : TZData) (ev : Event) (o1 o2 : String)
    (l1 l2 : Option Location) :
    ∃ v1 v2, wrapEventWithDaysWithTimezone db (some ev) o1 l1 = some v1 ∧
      wrapEventWithDaysWithTimezone db (some ev) o2 l2 = some v2 ∧
      v1.StartDayOfWeek = v2.StartDayOfWeek ∧ v1.EndDayOfWeek = v2.EndDayOfWeek ∧
      v1.StartDayOfWeek = dayOfWeekFromEventDateTime db ev.Start ∧
      v1.EndDayOfWeek = dayOfWeekFromEventDateTime db ev.End :=
  ⟨_, _, rfl, rfl, rfl, rfl, rfl, rfl⟩

/-- Claim C15, as stated, fails: the boundary `2025-01-01T23:30:00-05:00`, with no zone
hint, gets the weekday Wednesday, while the instant converted to UTC is
2025-01-02T04:30:00Z, a Thursday. -/
theorem C15_counterexample :
    ∃ t, Parse sampleDB Layout.RFC3339 "2025-01-01T23:30:00-05:00" = some t ∧
      dayOfWeekFromEventDateTime sampleDB (some { DateTime := "2025-01-01T23:30:00-05:00" })
        = "Wednesday" ∧
      weekdayString (t.In UTC).Weekday = "Thursday" ∧ (t.In UTC).Format = "2025-01-02T04:30:00Z" := by
  refine ⟨_, rfl, ?_, ?_, ?_⟩ <;> decide

/-- Claim C15, amended: for every instant boundary that parses as an offset-qualified
timestamp and has no zone hint, the weekday returned is the weekday of the instant
shifted by the UTC offset written in the value, that is, of the wall-clock date
written; it is the weekday of the instant in UTC when the written offset is zero. -/
theorem C15_weekday_amended (db : TZData) (b : EventDateTime) (f : parsedFields)
    (hz : TrimSpace b.TimeZone = "")
    (hp : parseFields Layout.RFC3339 (TrimSpace b.DateTime).data = some f) :
    ∃ t, Parse db Layout.RFC3339 (TrimSpace b.DateTime) = some t ∧
      dayOfWeekFromEventDateTime db (some b) =
        weekdayString (((t.sec + writtenOffset f.zone) / 86400 + 4) % 7).toNat ∧
      (writtenOffset f.zone = 0 →
        dayOfWeekFromEventDateTime db (some b) = weekdayString (t.In UTC).Weekday) := by
  obtain ⟨t, ht, _, hoff, hd, _⟩ := dayOfWeek_timestamp db b f hz hp
  refine ⟨t, ht, ?_, ?_⟩
  · rw [hd, Time.Weekday, Time.wall, hoff]
  · intro h0
    rw [hd, Time.Weekday, Time.wall, hoff, h0, Time.Weekday, Time.wall]
    simp [Time.In, offsetAt_UTC]

/-- The amended C15 at `2025-01-01T23:30:00-05:00`. -/
theorem C15_weekday_amended_witness :
    ∃ t, Parse sampleDB Layout.RFC3339 (TrimSpace "2025-01-01T23:30:00-05:00") = some t ∧
      dayOfWeekFromEventDateTime sampleDB (some { DateTime := "2025-01-01T23:30:00-05:00" }) =
        weekdayString (((t.sec + writtenOffset (zoneField.offset (-18000))) / 86400 + 4) % 7).toNat ∧
      (writtenOffset (zoneField.offset (-18000)) = 0 →
        dayOfWeekFromEventDateTime sampleDB (some { DateTime := "2025-01-01T23:30:00-05:00" })
          = weekdayString (t.In UTC).Weekday) :=
  C15_weekday_amended sampleDB { DateTime := "2025-01-01T23:30:00-05:00" }
    { year := 2025, month := 1, day := 1, hour := 23, min := 30, sec := 0, nsec := 0,
      zone := zoneField.offset (-18000) } (by decide) (by decide)

/-- Claim C16 (weekday against the calendar): for every boundary with no zone hint, if its
instant parses as an offset-qualified timestamp, or its instant does not parse and its
date is a valid `YYYY-MM-DD`, `dayOfWeekFromEventDateTime` returns the English name of
the weekday that Zeller's congruence gives for the calendar date written in the value;
`2025-01-01T10:00:00Z` gives Wednesday, `2025-01-02` Thursday, `2025-01-03` Friday on
every host; and `eventDaysOfWeek` computes start and end independently. -/
theorem C16_weekday_calendar :
    (∀ (db : TZData) (b : EventDateTime) (f : parsedFields), TrimSpace b.TimeZone = "" →
      parseFields Layout.RFC3339 (TrimSpace b.DateTime).data = some f →
      dayOfWeekFromEventDateTime db (some b) =
        weekdayString (zellerWeekday f.year f.month f.day)) ∧
    (∀ (db : TZData) (b : EventDateTime) (f : parsedFields), TrimSpace b.TimeZone = "" →
      parseEventTime db b.DateTime b.TimeZone = none →
      parseFields Layout.dateOnly (TrimSpace b.Date).data = some f →
      dayOfWeekFromEventDateTime db (some b) =
        weekdayString (zellerWeekday f.year f.month f.day)) ∧
    (∀ db : TZData,
      dayOfWeekFromEventDateTime db (some { DateTime := "2025-01-01T10:00:00Z" }) = "Wednesday" ∧
      dayOfWeekFromEventDateTime db (some { Date := "2025-01-02" }) = "Thursday" ∧
      dayOfWeekFromEventDateTime db (some { Date := "2025-01-03" }) = "Friday") ∧
    (∀ (db : TZData) (ev : Event),
      eventDaysOfWeek db (some ev) =
        (dayOfWeekFromEventDateTime db ev.Start, dayOfWeekFromEventDateTime db ev.End)) := by
  refine ⟨?_, ?_, ?_, ?_⟩
  · intro db b f hz hp
    obtain ⟨t, _, _, _, hd, hw⟩ := dayOfWeek_timestamp db b f hz hp
    rw [hd, hw]
  · intro db b f hz ht hp
    exact dayOfWeek_date db b f hz ht hp
  · intro db
    have e0 : parseEventTime db "" "" = none := by simp [parseEventTime, TrimSpace_empty]
    refine ⟨?_, ?_, ?_⟩
    · obtain ⟨t, _, _, _, hd, hw⟩ := dayOfWeek_timestamp db { DateTime := "2025-01-01T10:00:00Z" }
        { year := 2025, month := 1, day := 1, hour := 10, min := 0, sec := 0, nsec := 0,
          zone := zoneField.utc } (by decide) (by decide)
      rw [hd, hw]
      decide
    · rw [dayOfWeek_date db { Date := "2025-01-02" }
        { year := 2025, month := 1, day := 2, hour := 0, min := 0, sec := 0, nsec := 0,
          zone := zoneField.absent } (by decide) e0 (by decide)]
      decide
    · rw [dayOfWeek_date db { Date := "2025-01-03" }
        { year := 2025, month := 1, day := 3, hour := 0, min := 0, sec := 0, nsec := 0,
          zone := zoneField.absent } (by decide) e0 (by decide)]
      decide
  · intro db ev
    rfl

/-- Claim C17 (enrichment is total): for every override and preloaded location a nil event
yields nil, and every other event yields a view of that event in which a nil boundary
has empty weekday and local fields, a boundary whose instant and date both fail to
parse has an empty weekday, a boundary whose instant fails to parse and that has no
date token has an empty local field, `Timezone` is empty when neither the override nor
the embedded zone loads, and `EventTimezone` is empty when there is no embedded zone. -/
theorem C17_total (db : TZData) (override : String) (loc : Option Location) :
    wrapEventWithDaysWithTimezone db none override loc = none ∧
    ∀ ev : Event, ∃ v, wrapEventWithDaysWithTimezone db (some ev) override loc = some v ∧
      v.Event = ev ∧
      (ev.Start = none → v.StartDayOfWeek = "" ∧ v.StartLocal = "") ∧
      (ev.End = none → v.EndDayOfWeek = "" ∧ v.EndLocal = "") ∧
      (∀ b, ev.Start = some b → parseEventTime db b.DateTime b.TimeZone = none →
        (parseEventDate db b.Date b.TimeZone = none → v.StartDayOfWeek = "") ∧
        (b.Date = "" → v.StartLocal = "")) ∧
      (∀ b, ev.End = some b → parseEventTime db b.DateTime b.TimeZone = none →
        (parseEventDate db b.Date b.TimeZone = none → v.EndDayOfWeek = "") ∧
        (b.Date = "" → v.EndLocal = "")) ∧
      (loc = none →
        (TrimSpace override = "" ∨ LoadLocation db (TrimSpace override) = none) →
        (eventTimezone (some ev) = "" ∨ LoadLocation db (eventTimezone (some ev)) = none) →
        v.Timezone = "") ∧
      (eventTimezone (some ev) = "" → v.EventTimezone = "") := by
  refine ⟨rfl, ?_⟩
  intro ev
  refine ⟨_, rfl, rfl, ?_, ?_, ?_, ?_, ?_, ?_⟩
  · intro h
    simp [eventDaysOfWeek, h, dayOfWeekFromEventDateTime, formatEventLocal]
  · intro h
    simp [eventDaysOfWeek, h, dayOfWeekFromEventDateTime, formatEventLocal]
  · intro b hb hp
    constructor
    · intro hd
      simp only [eventDaysOfWeek, hb, dayOfWeek_cases, hp, hd]
    · intro hd
      simp only [hb, formatEventLocal_unparsed db b _ hp, hd]
  · intro b hb hp
    constructor
    · intro hd
      simp only [eventDaysOfWeek, hb, dayOfWeek_cases, hp, hd]
    · intro hd
      simp only [hb, formatEventLocal_unparsed db b _ hp, hd]
  · intro hl ho hz
    subst hl
    have key : ∀ v, wrapEventWithDaysWithTimezone db (some ev) override none = some v →
        v.Timezone = "" := by
      intro v hv
      obtain ⟨v2, hv2, ht⟩ := wrap_empty_timezone db ev
      rw [wrap_blank_override db ev override ho, hv2] at hv
      cases hv
      rw [ht]
      rcases hz with hz | hz
      · simp [hz]
      · simp [hz]
    exact key _ rfl
  · intro hz
    simp [hz]

/-- Claim C18 (shape of a weekday value): for every boundary,
`dayOfWeekFromEventDateTime` returns one of the seven English weekday names or the empty
string, and it returns the empty string exactly when the boundary is nil or neither its
instant nor its date parses with the boundary's own zone hint. -/
theorem C18_weekday_shape (db : TZData) (dt : Option EventDateTime) :
    (dayOfWeekFromEventDateTime db dt ∈ weekdayNames ∨ dayOfWeekFromEventDateTime db dt = "") ∧
    (dayOfWeekFromEventDateTime db dt = "" ↔
      dt = none ∨ ∃ b, dt = some b ∧ parseEventTime db b.DateTime b.TimeZone = none ∧
        parseEventDate db b.Date b.TimeZone = none) := by
  cases dt with
  | none => simp [dayOfWeekFromEventDateTime]
  | some b =>
    rw [dayOfWeek_cases]
    cases h1 : parseEventTime db b.DateTime b.TimeZone with
    | some t =>
      refine ⟨Or.inl (weekdayString_mem _), ?_⟩
      simp [weekdayString_ne, h1]
    | none =>
      cases h2 : parseEventDate db b.Date b.TimeZone with
      | some t =>
        refine ⟨Or.inl (weekdayString_mem _), ?_⟩
        simp [weekdayString_ne, h1, h2]
      | none =>
        simp [h1, h2]

/-- Claim C19 (single-calendar listing is an element-wise map): for every slice of events,
nil or not, `wrapEventsWithDays` returns a non-nil slice of the same length whose
`i`-th element is `wrapEventWithDaysWithTimezone(events[i], "", nil)`, and a nil or empty
input gives the empty slice. -/
theorem C19_elementwise_map (db : TZData) (events : Option (List (Option Event))) :
    ∃ out, wrapEventsWithDays db events = some out ∧
      out.length = (events.getD []).length ∧
      (∀ i : Nat, out[i]? =
        ((events.getD [])[i]?).map (fun ev => wrapEventWithDaysWithTimezone db ev "" none)) ∧
      ((events = none ∨ events = some []) → out = []) := by
  refine ⟨_, wrapEventsWithDays_eq db events, by simp, ?_, ?_⟩
  · intro i
    simp [List.getElem?_map]
  · rintro (h | h) <;> subst h <;> rfl

/-- Claim C20 fails on the code: `listAllCalendarsEvents` builds its records inline,
without the zone resolution of `wrapEventWithDaysWithTimezone`. For an event whose
start hint does not load, the record reports the hint `Bad/Zone` as `Timezone` where the
enriched view reports the empty string; and for an event with a zone hint on its end
only, the record renders the start in its written offset where the enriched view
renders it in New York time. -/
theorem C20_aggregation_diverges :
    ∃ r1 r2 v1 v2,
      listAllCalendarsEvents sampleDB
        [{ Id := "primary", events := Except.ok [some mixedHintEvent, some endHintEvent] }] =
          some ([r1, r2], []) ∧
      wrapEventWithDaysWithTimezone sampleDB (some mixedHintEvent) "" none = some v1 ∧
      wrapEventWithDaysWithTimezone sampleDB (some endHintEvent) "" none = some v2 ∧
      r1.CalendarID = "primary" ∧ r1.Event = mixedHintEvent ∧
      r2.CalendarID = "primary" ∧ r2.Event = endHintEvent ∧
      r1.Timezone = "Bad/Zone" ∧ v1.Timezone = "" ∧
      r2.StartLocal = "2025-01-01T10:00:00Z" ∧ v2.StartLocal = "2025-01-01T05:00:00-05:00" := by
  refine ⟨_, _, _, _, rfl, rfl, rfl, rfl, rfl, rfl, rfl, ?_, ?_, ?_, ?_⟩ <;> decide

/-! ## Claims C21 to C30 -/

/-- Claim C21: single-event print uses the same resolution as the enriched view. For
every event, calendar time-zone string and optional preloaded location, and a printer
to write to, the lines `printCalendarEventWithTimezone` writes with the label
`timezone` are: one line carrying the `Timezone` of the view that
`wrapEventWithDaysWithTimezone` builds from the same arguments when that field is
non-empty, none otherwise; likewise for `event-timezone` and `EventTimezone`,
`start-day-of-week` and `StartDayOfWeek`, `start-local` and `StartLocal`,
`end-day-of-week` and `EndDayOfWeek`, `end-local` and `EndLocal`. -/
theorem C21_print_matches_view (db : TZData) (eventTypeDefault : String) (u : UI) (ev : Event)
    (calendarTimezone : String) (loc : Option Location) :
    ∃ v, wrapEventWithDaysWithTimezone db (some ev) calendarTimezone loc = some v ∧
      linesWith "timezone"
          (printCalendarEventWithTimezone db eventTypeDefault (some u) (some ev)
            calendarTimezone loc) =
        (if v.Timezone ≠ "" then [v.Timezone] else []) ∧
      linesWith "event-timezone"
          (printCalendarEventWithTimezone db eventTypeDefault (some u) (some ev)
            calendarTimezone loc) =
        (if v.EventTimezone ≠ "" then [v.EventTimezone] else []) ∧
      linesWith "start-day-of-week"
          (printCalendarEventWithTimezone db eventTypeDefault (some u) (some ev)
            calendarTimezone loc) =
        (if v.StartDayOfWeek ≠ "" then [v.StartDayOfWeek] else []) ∧
      linesWith "start-local"
          (printCalendarEventWithTimezone db eventTypeDefault (some u) (some ev)
            calendarTimezone loc) =
        (if v.StartLocal ≠ "" then [v.StartLocal] else []) ∧
      linesWith "end-day-of-week"
          (printCalendarEventWithTimezone db eventTypeDefault (some u) (some ev)
            calendarTimezone loc) =
        (if v.EndDayOfWeek ≠ "" then [v.EndDayOfWeek] else []) ∧
      linesWith "end-local"
          (printCalendarEventWithTimezone db eventTypeDefault (some u) (some ev)
            calendarTimezone loc) =
        (if v.EndLocal ≠ "" then [v.EndLocal] else []) := by
  obtain ⟨v, hv, het, hp⟩ := print_eq_view db eventTypeDefault u ev calendarTimezone loc
  obtain ⟨h1, h2, h3, h4, h5, h6⟩ := linesWith_zoneLines eventTypeDefault ev v.Timezone
    (eventTimezone (some ev)) (v.StartDayOfWeek, v.EndDayOfWeek) v.StartLocal v.EndLocal
  refine ⟨v, hv, ?_, ?_, ?_, ?_, ?_, ?_⟩
  · rw [hp, linesWith_append, h1, linesWith_detail _ _ (by decide), List.append_nil]
  · rw [hp, linesWith_append, h2, linesWith_detail _ _ (by decide), List.append_nil, het]
    by_cases hc : eventTimezone (some ev) ≠ "" ∧ eventTimezone (some ev) ≠ v.Timezone
    · simp [hc]
    · simp [hc]
  · rw [hp, linesWith_append, h3, linesWith_detail _ _ (by decide), List.append_nil]
  · rw [hp, linesWith_append, h4, linesWith_detail _ _ (by decide), List.append_nil]
  · rw [hp, linesWith_append, h5, linesWith_detail _ _ (by decide), List.append_nil]
  · rw [hp, linesWith_append, h6, linesWith_detail _ _ (by decide), List.append_nil]

/-- Claim C22 fails on the code: a fetched page that holds a nil item aborts the
aggregate. The inner loop of `listAllCalendarsEvents` dereferences `e.Start` on the nil
item and panics, so no aggregate is built and the function does not return, although
the loop skips the calendar whose fetch failed; without the nil item the same
calendars give the one record of the fetched page and the warning for the failed
calendar. -/
theorem C22_null_item_aborts :
    listAllCalendarsEvents sampleDB
      [{ Id := "work", events := Except.error "forbidden" },
       { Id := "primary", events := Except.ok [some sampleEvent, none] }] = none ∧
    listAllCalendarsEventsReturn sampleDB
      [{ Id := "work", events := Except.error "forbidden" },
       { Id := "primary", events := Except.ok [some sampleEvent, none] }] true
      (fun _ => none) = none ∧
    listAllCalendarsEvents sampleDB
      [{ Id := "work", events := Except.error "forbidden" },
       { Id := "primary", events := Except.ok [some sampleEvent] }] =
      some ([calendarRecord sampleDB "primary" sampleEvent], ["calendar work: forbidden"]) := by
  refine ⟨rfl, rfl, rfl⟩

/-- Claim C23: line endings of `ReadLine`. For every reader whose reads each deliver
at least one byte and whose input contains a `\n` or a `\r`, `ReadLine` returns, with
a nil error, the bytes `pre` that precede the first `\n` or `\r` of the input, so the
line holds no terminator; either byte ends the line. -/
theorem C23_line_endings (r : Reader) (hst : r.steady)
    (h : ∃ c ∈ r.remaining, c = '\n' ∨ c = '\r') :
    ∃ res pre t post, ReadLine r = some res ∧ r.remaining = pre ++ t :: post ∧
      (t = '\n' ∨ t = '\r') ∧ (∀ c ∈ pre, c ≠ '\n' ∧ c ≠ '\r') ∧
      res.line = String.mk pre ∧ res.err = none ∧
      (∀ c ∈ res.line.data, c ≠ '\n' ∧ c ≠ '\r') := by
  obtain ⟨res, h1, h2, h3⟩ := ReadLine_spec r hst
  obtain ⟨t, post, hs, ht⟩ := firstLine_split r.remaining h
  have hne : r.remaining ≠ [] := by
    obtain ⟨c, hc, _⟩ := h
    exact List.ne_nil_of_mem hc
  refine ⟨res, firstLine r.remaining, t, post, h1, hs, ht, firstLine_clean _, h2, ?_, ?_⟩
  · rw [h3, if_neg hne]
  · rw [h2]
    exact firstLine_clean _

theorem C23_line_endings_witness :
    ∃ res pre t post, ReadLine { chunks := ["ab\r".data, "\ncd".data] } = some res ∧
      Reader.remaining { chunks := ["ab\r".data, "\ncd".data] } = pre ++ t :: post ∧
      (t = '\n' ∨ t = '\r') ∧ (∀ c ∈ pre, c ≠ '\n' ∧ c ≠ '\r') ∧
      res.line = String.mk pre ∧ res.err = none ∧
      (∀ c ∈ res.line.data, c ≠ '\n' ∧ c ≠ '\r') :=
  C23_line_endings { chunks := ["ab\r".data, "\ncd".data] } (by unfold Reader.steady; decide)
    ⟨'\r', by decide, Or.inr rfl⟩

/-- Claim C24: `ReadLine` at the end of the input. For every reader whose reads each
deliver at least one byte, `ReadLine` returns; on an input with no `\n` and no `\r` it
returns the whole input with a nil error when the input is non-empty and the empty
string with `io.EOF` when it is empty; and it returns `io.EOF` only for the empty
input. -/
theorem C24_end_of_input (r : Reader) (hst : r.steady) :
    ∃ res, ReadLine r = some res ∧
      ((∀ c ∈ r.remaining, c ≠ '\n' ∧ c ≠ '\r') →
        (r.remaining ≠ [] → res.line = String.mk r.remaining ∧ res.err = none) ∧
        (r.remaining = [] → res.line = "" ∧ res.err = some lineError.EOF)) ∧
      (res.err = some lineError.EOF ↔ r.remaining = []) := by
  obtain ⟨res, h1, h2, h3⟩ := ReadLine_spec r hst
  refine ⟨res, h1, ?_, ?_⟩
  · intro hall
    rw [firstLine_all _ hall] at h2
    refine ⟨fun hne => ⟨h2, by rw [h3, if_neg hne]⟩, fun he => ⟨?_, by rw [h3, if_pos he]⟩⟩
    rw [h2, he]
  · rw [h3]
    by_cases he : r.remaining = []
    · simp [he]
    · simp [he]

theorem C24_end_of_input_witness :
    ∃ res, ReadLine { chunks := ["ab".data, "cd".data] } = some res ∧
      ((∀ c ∈ Reader.remaining { chunks := ["ab".data, "cd".data] }, c ≠ '\n' ∧ c ≠ '\r') →
        (Reader.remaining { chunks := ["ab".data, "cd".data] } ≠ [] →
          res.line = String.mk (Reader.remaining { chunks := ["ab".data, "cd".data] }) ∧
          res.err = none) ∧
        (Reader.remaining { chunks := ["ab".data, "cd".data] } = [] →
          res.line = "" ∧ res.err = some lineError.EOF)) ∧
      (res.err = some lineError.EOF ↔
        Reader.remaining { chunks := ["ab".data, "cd".data] } = []) :=
  C24_end_of_input { chunks := ["ab".data, "cd".data] } (by unfold Reader.steady; decide)

/-- Claim C26 fails on the code: `ReadLine` on a reader that delivers `a\nb\n` in one
read returns the line `a` and leaves the reader at its end, the bytes `b\n` having been
taken into the buffer that is dropped on return, so the second call returns the empty
string with `io.EOF` and not `b`. Only a reader that delivers one line per read keeps
the next line. -/
theorem C26_buffered_bytes_dropped :
    ReadLine { chunks := ["a\nb\n".data] } =
      some { line := "a", err := none, r := { chunks := [] } } ∧
    ReadLine { chunks := [] } =
      some { line := "", err := some lineError.EOF, r := { chunks := [] } } ∧
    ReadLine { chunks := ["a\n".data, "b\n".data] } =
      some { line := "a", err := none, r := { chunks := ["b\n".data] } } ∧
    ReadLine { chunks := ["b\n".data] } =
      some { line := "b", err := none, r := { chunks := [] } } := by
  decide

/-- Claim C25, as stated, fails: the activities list command with a channel id as its
only selector, on a host whose configuration and environment hold no API key, returns
the usage error of `getYouTubeAPIKey` after the configuration read, with no account
lookup and no service construction, although exactly one selector is given. -/
theorem C25_counterexample :
    channelActivities.Run noKeyEnv =
      { steps := [runStep.configRead],
        err := some (Error.usage
          "YouTube API key required: set config youtube_api_key KEY or GOG_YOUTUBE_API_KEY") } ∧
    ¬ (usageBeforeService (channelActivities.Run noKeyEnv) ↔
        ((channelActivities.ChannelID = "" ∧ channelActivities.Mine = false) ∨
          (channelActivities.ChannelID ≠ "" ∧ channelActivities.Mine = true))) := by
  have hrun : channelActivities.Run noKeyEnv =
      { steps := [runStep.configRead],
        err := some (Error.usage
          "YouTube API key required: set config youtube_api_key KEY or GOG_YOUTUBE_API_KEY") } := by
    decide
  refine ⟨hrun, ?_⟩
  rw [hrun]
  intro h
  have h1 : usageBeforeService
      { steps := [runStep.configRead],
        err := some (Error.usage
          "YouTube API key required: set config youtube_api_key KEY or GOG_YOUTUBE_API_KEY") } :=
    ⟨by simp [runStep.isLookupOrConstruction], _, rfl, rfl⟩
  have h2 := h.mp h1
  revert h2
  decide

/-- Claim C25, amended: for the activities, playlists and channels list commands
(channel id or ids, versus mine) and for the comments list command (video id versus
channel id), `Run` returns a usage error without any step outside the command (no
account lookup, no configuration read, no service construction) exactly when neither
selector or both selectors are given; and it returns a usage error before any account
lookup and any service construction exactly when neither or both selectors are given,
or the command takes the API-key path (mine is not set; always for comments) and
`getYouTubeAPIKey` returns a usage error, which it does exactly when reading the
configuration gives a usage error or gives a file with which the API key is empty. -/
theorem C25_one_selector_amended (env : runEnv) :
    (∀ c : YouTubeActivitiesListCmd,
      (usageBeforeSteps (c.Run env) ↔
        ((c.ChannelID = "" ∧ c.Mine = false) ∨ (c.ChannelID ≠ "" ∧ c.Mine = true))) ∧
      (usageBeforeService (c.Run env) ↔
        (((c.ChannelID = "" ∧ c.Mine = false) ∨ (c.ChannelID ≠ "" ∧ c.Mine = true)) ∨
          (c.Mine = false ∧ apiKeyUsage env)))) ∧
    (∀ c : YouTubePlaylistsListCmd,
      (usageBeforeSteps (c.Run env) ↔
        ((c.ChannelID = "" ∧ c.Mine = false) ∨ (c.ChannelID ≠ "" ∧ c.Mine = true))) ∧
      (usageBeforeService (c.Run env) ↔
        (((c.ChannelID = "" ∧ c.Mine = false) ∨ (c.ChannelID ≠ "" ∧ c.Mine = true)) ∨
          (c.Mine = false ∧ apiKeyUsage env)))) ∧
    (∀ c : YouTubeChannelsListCmd,
      (usageBeforeSteps (c.Run env) ↔
        ((c.ID = "" ∧ c.Mine = false) ∨ (c.ID ≠ "" ∧ c.Mine = true))) ∧
      (usageBeforeService (c.Run env) ↔
        (((c.ID = "" ∧ c.Mine = false) ∨ (c.ID ≠ "" ∧ c.Mine = true)) ∨
          (c.Mine = false ∧ apiKeyUsage env)))) ∧
    (∀ c : YouTubeCommentsListCmd,
      (usageBeforeSteps (c.Run env) ↔
        ((c.VideoID = "" ∧ c.ChannelID = "") ∨ (c.VideoID ≠ "" ∧ c.ChannelID ≠ ""))) ∧
      (usageBeforeService (c.Run env) ↔
        (((c.VideoID = "" ∧ c.ChannelID = "") ∨ (c.VideoID ≠ "" ∧ c.ChannelID ≠ "")) ∨
          apiKeyUsage env))) ∧
    (apiKeyUsage env ↔
      ((∃ err, env.ReadConfig = Except.error err ∧ err.isUsage = true) ∨
        ∃ cfg, env.ReadConfig = Except.ok cfg ∧
          GetValue env.host cfg KeyYoutubeAPIKey = "")) := by
  refine ⟨?_, ?_, ?_, ?_, apiKeyUsage_iff env⟩
  · intro c
    unfold YouTubeActivitiesListCmd.Run
    by_cases h1 : c.ChannelID = "" ∧ c.Mine = false
    · simp only [if_pos h1]
      exact ⟨by simp [(usage_result_steps _).1, h1], by simp [(usage_result_steps _).2, h1]⟩
    · by_cases h2 : c.ChannelID ≠ "" ∧ c.Mine = true
      · simp only [if_neg h1, if_pos h2]
        exact ⟨by simp [(usage_result_steps _).1, h2], by simp [(usage_result_steps _).2, h2]⟩
      · simp only [if_neg h1, if_neg h2]
        refine ⟨?_, ?_⟩
        · have hs := runWithService_steps env c.Mine c.ChannelID
          constructor
          · intro h
            exact absurd h.1 hs
          · intro h
            rcases h with h | h
            · exact absurd h h1
            · exact absurd h h2
        · rw [runWithService_usage]
          constructor
          · intro h
            exact Or.inr h
          · intro h
            rcases h with (h | h) | h
            · exact absurd h h1
            · exact absurd h h2
            · exact h
  · intro c
    unfold YouTubePlaylistsListCmd.Run
    by_cases h1 : c.ChannelID = "" ∧ c.Mine = false
    · simp only [if_pos h1]
      exact ⟨by simp [(usage_result_steps _).1, h1], by simp [(usage_result_steps _).2, h1]⟩
    · by_cases h2 : c.ChannelID ≠ "" ∧ c.Mine = true
      · simp only [if_neg h1, if_pos h2]
        exact ⟨by simp [(usage_result_steps _).1, h2], by simp [(usage_result_steps _).2, h2]⟩
      · simp only [if_neg h1, if_neg h2]
        refine ⟨?_, ?_⟩
        · have hs := runWithService_steps env c.Mine c.ChannelID
          constructor
          · intro h
            exact absurd h.1 hs
          · intro h
            rcases h with h | h
            · exact absurd h h1
            · exact absurd h h2
        · rw [runWithService_usage]
          constructor
          · intro h
            exact Or.inr h
          · intro h
            rcases h with (h | h) | h
            · exact absurd h h1
            · exact absurd h h2
            · exact h
  · intro c
    unfold YouTubeChannelsListCmd.Run
    by_cases h1 : c.ID = "" ∧ c.Mine = false
    · simp only [if_pos h1]
      exact ⟨by simp [(usage_result_steps _).1, h1], by simp [(usage_result_steps _).2, h1]⟩
    · by_cases h2 : c.ID ≠ "" ∧ c.Mine = true
      · simp only [if_neg h1, if_pos h2]
        exact ⟨by simp [(usage_result_steps _).1, h2], by simp [(usage_result_steps _).2, h2]⟩
      · simp only [if_neg h1, if_neg h2]
        refine ⟨?_, ?_⟩
        · have hs := runWithService_steps env c.Mine c.ID
          constructor
          · intro h
            exact absurd h.1 hs
          · intro h
            rcases h with h | h
            · exact absurd h h1
            · exact absurd h h2
        · rw [runWithService_usage]
          constructor
          · intro h
            exact Or.inr h
          · intro h
            rcases h with (h | h) | h
            · exact absurd h h1
            · exact absurd h h2
            · exact h
  · intro c
    unfold YouTubeCommentsListCmd.Run
    by_cases h1 : c.VideoID = "" ∧ c.ChannelID = ""
    · simp only [if_pos h1]
      exact ⟨by simp [(usage_result_steps _).1, h1], by simp [(usage_result_steps _).2, h1]⟩
    · by_cases h2 : c.VideoID ≠ "" ∧ c.ChannelID ≠ ""
      · simp only [if_neg h1, if_pos h2]
        exact ⟨by simp [(usage_result_steps _).1, h2], by simp [(usage_result_steps _).2, h2]⟩
      · obtain ⟨hs, hk⟩ := commentsRun_usage env c h1 h2
        unfold YouTubeCommentsListCmd.Run at hs hk
        simp only [if_neg h1, if_neg h2] at hs hk ⊢
        refine ⟨?_, ?_⟩
        · constructor
          · intro h
            exact absurd h.1 hs
          · intro h
            rcases h with h | h
            · exact absurd h h1
            · exact absurd h h2
        · rw [hk]
          constructor
          · intro h
            exact Or.inr h
          · intro h
            rcases h with (h | h) | h
            · exact absurd h h1
            · exact absurd h h2
            · exact h

/-- Claim C27: the reported zone is always usable. For every event and every override
string, with no preloaded location, the `Timezone` of the view returned by
`wrapEventWithDaysWithTimezone` is the empty string or a name that is its own
`TrimSpace` and that `time.LoadLocation` loads. -/
theorem C27_reported_zone_loads (db : TZData) (ev : Event) (override : String) :
    ∃ v, wrapEventWithDaysWithTimezone db (some ev) override none = some v ∧
      (v.Timezone = "" ∨
        (TrimSpace v.Timezone = v.Timezone ∧ ∃ l, LoadLocation db v.Timezone = some l)) := by
  have ht := eventTimezone_trimmed (some ev)
  have ho := TrimSpace_idem override
  by_cases hob : TrimSpace override = ""
  · by_cases hz : eventTimezone (some ev) = ""
    · exact ⟨_, rfl, by simp [hob, hz]⟩
    · cases hl : LoadLocation db (eventTimezone (some ev)) with
      | none => exact ⟨_, rfl, by simp [hob, hz, hl]⟩
      | some l => exact ⟨_, rfl, by simp [hob, hz, hl, ht]⟩
  · cases hlo : LoadLocation db (TrimSpace override) with
    | none =>
      by_cases hz : eventTimezone (some ev) = ""
      · exact ⟨_, rfl, by simp [hob, hz, hlo]⟩
      · cases hl : LoadLocation db (eventTimezone (some ev)) with
        | none => exact ⟨_, rfl, by simp [hob, hz, hl, hlo]⟩
        | some l => exact ⟨_, rfl, by simp [hob, hz, hl, hlo, ht]⟩
    | some l => exact ⟨_, rfl, by simp [hob, hlo, ho]⟩

/-- Claim C28: config key parsing. `KeyNames` and `KeyList` return `timezone`,
`keyring_backend`, `youtube_api_key` in that order; `ParseKey raw` returns a nil error
exactly when `raw` is one of these names, and then returns `raw` as the key; for every
other string it returns the empty key and an error that wraps `errUnknownConfigKey`,
and `GetValue` returns the empty string for the string as a key and for the returned
key. -/
theorem C28_parse_key (raw : String) :
    KeyNames = ["timezone", "keyring_backend", "youtube_api_key"] ∧
    KeyList = ["timezone", "keyring_backend", "youtube_api_key"] ∧
    ((ParseKey raw).2 = none ↔ raw ∈ ["timezone", "keyring_backend", "youtube_api_key"]) ∧
    ((ParseKey raw).2 = none → (ParseKey raw).1 = raw) ∧
    (raw ∉ ["timezone", "keyring_backend", "youtube_api_key"] →
      (ParseKey raw).1 = "" ∧
      (∃ err, (ParseKey raw).2 = some err ∧ err.Is Error.errUnknownConfigKey = true) ∧
      ∀ host cfg, GetValue host cfg raw = "" ∧ GetValue host cfg (ParseKey raw).1 = "") := by
  have hempty : keySpecs "" = none := (keySpecs_none_iff "").mpr (by decide)
  refine ⟨rfl, rfl, ?_, ?_, ?_⟩
  · by_cases h : keySpecs raw = none
    · have h2 := (keySpecs_none_iff raw).mp h
      simp only [ParseKey, Validate_unknown raw h]
      simp [h2]
    · have h2 : raw ∈ ["timezone", "keyring_backend", "youtube_api_key"] := by
        by_contra hc
        exact h ((keySpecs_none_iff raw).mpr hc)
      simp only [ParseKey, Validate_known raw h]
      simp [h2]
  · by_cases h : keySpecs raw = none
    · simp only [ParseKey, Validate_unknown raw h]
      simp
    · simp only [ParseKey, Validate_known raw h]
      simp
  · intro hn
    have h := (keySpecs_none_iff raw).mpr hn
    have hp : ParseKey raw = ("", some (Error.Errorf "%w: %s (valid keys: %s)"
        [raw, ", ".intercalate KeyNames] Error.errUnknownConfigKey)) := by
      simp only [ParseKey, Validate_unknown raw h]
    rw [hp]
    refine ⟨rfl, ⟨_, rfl, ?_⟩, ?_⟩
    · simp [Error.Is]
    · intro host cfg
      simp [GetValue, h, hempty]

/-- Claim C29: setting the timezone key validates and is atomic. For every file and
value, `SetValue` on the key `timezone` returns an error exactly when the value does
not load as a time zone, and then leaves the file unchanged; when it succeeds the file
differs from the old one in `DefaultTimezone` only, which is the value, and `GetValue`
on the key returns the value. On a key that is not registered `SetValue` and
`UnsetValue` return an error and leave the file unchanged. -/
theorem C29_set_timezone (host : Host) (cfg : File) (value : String) :
    ((SetValue host cfg KeyTimezone value).2 ≠ none ↔ LoadLocation host.db value = none) ∧
    (LoadLocation host.db value = none → (SetValue host cfg KeyTimezone value).1 = cfg) ∧
    ((SetValue host cfg KeyTimezone value).2 = none →
      (SetValue host cfg KeyTimezone value).1 = { cfg with DefaultTimezone := value } ∧
      GetValue host (SetValue host cfg KeyTimezone value).1 KeyTimezone = value) ∧
    (∀ key, key ∉ ["timezone", "keyring_backend", "youtube_api_key"] →
      (∀ v, (SetValue host cfg key v).2 ≠ none ∧ (SetValue host cfg key v).1 = cfg) ∧
      (UnsetValue cfg key).2 ≠ none ∧ (UnsetValue cfg key).1 = cfg) := by
  have hk : keySpecs KeyTimezone ≠ none := by
    intro h
    exact (keySpecs_none_iff KeyTimezone).mp h (by decide)
  have hv := Validate_known KeyTimezone hk
  refine ⟨?_, ?_, ?_, ?_⟩
  · cases hl : LoadLocation host.db value <;>
      simp [SetValue, hv, keySpecs, hl]
  · intro hl
    simp [SetValue, hv, keySpecs, hl]
  · cases hl : LoadLocation host.db value <;>
      simp [SetValue, hv, keySpecs, hl, GetValue]
  · intro key hn
    have h := (keySpecs_none_iff key).mpr hn
    have hu := Validate_unknown key h
    refine ⟨fun v => ?_, ?_, ?_⟩ <;> simp [SetValue, UnsetValue, hu]

/-- Claim C30: attachment collection is a pre-order traversal. For every message-part
tree `collectAttachments` (a total function) returns the entries of the parts whose
body has a non-empty attachment id, one per such part and no others, in pre-order;
an entry carries the size, MIME type and attachment id of its part, and the filename
of the part or `attachment` when that is blank, so that no entry has a blank
filename; a nil part yields no entries. -/
theorem C30_attachments_preorder (p : Option MessagePart) :
    collectAttachments p = ((preorder p).filter hasAttachment).map entryOf ∧
    (∀ a ∈ collectAttachments p, TrimSpace a.Filename ≠ "" ∧ a.AttachmentID ≠ "") ∧
    collectAttachments none = [] := by
  refine ⟨collect_preorder p, ?_, by simp [collectAttachments]⟩
  intro a ha
  rw [collect_preorder p] at ha
  simp only [List.mem_map, List.mem_filter] at ha
  obtain ⟨q, ⟨_, hq⟩, rfl⟩ := ha
  constructor
  · simp only [entryOf]
    split
    · exact TrimSpace_attachment
    · assumption
  · simp only [hasAttachment] at hq
    simp only [entryOf]
    cases hb : q.Body with
    | none => simp [hb] at hq
    | some body => simpa [hb] using hq
end Gogcli
